import Mathlib

/-!
# Difficulty estimator and checkpoint ledger

A shallow embedding of `src/cryptonote_basic/difficulty.cpp` and
`src/checkpoints/checkpoints.cpp`.  Machine integers are natural numbers with an
explicit reduction modulo the word size wherever the C++ arithmetic can wrap.
-/

namespace cryptonote

/-! ## difficulty.cpp : 64 x 64 -> 128 bit multiplication and carries -/

/-- Modelled from the spec: `mul128` of `int-util.h` (not part of the sources at hand) is the
full 64 x 64 -> 128 bit product; the pair is `(low, high)`. -/
def mul128 (a b : Nat) : Nat × Nat :=
  ((a * b) % 2 ^ 64, ((a * b) / 2 ^ 64) % 2 ^ 64)

/-- The portable `mul` of difficulty.cpp (the branch taken when `__x86_64__` is not defined),
statement by statement; every `uint64_t` result is reduced modulo `2 ^ 64`.
The pair is `(low, high)`. -/
def mul (a b : Nat) : Nat × Nat :=
  let aLow := a &&& 0xFFFFFFFF
  let aHigh := a >>> 32
  let bLow := b &&& 0xFFFFFFFF
  let bHigh := b >>> 32
  let res := (aLow * bLow) % 2 ^ 64
  let lowRes1 := res &&& 0xFFFFFFFF
  let carry := res >>> 32
  let res := (aHigh * bLow + carry) % 2 ^ 64
  let highResHigh1 := res >>> 32
  let highResLow1 := res &&& 0xFFFFFFFF
  let res := (aLow * bHigh) % 2 ^ 64
  let lowRes2 := res &&& 0xFFFFFFFF
  let carry := res >>> 32
  let res := (aHigh * bHigh + carry) % 2 ^ 64
  let highResHigh2 := res >>> 32
  let highResLow2 := res &&& 0xFFFFFFFF
  let r := (highResLow1 + lowRes2) % 2 ^ 64
  let carry := r >>> 32
  let low := ((r <<< 32) % 2 ^ 64) ||| lowRes1
  let r := (highResHigh1 + highResLow2 + carry) % 2 ^ 64
  let d3 := r &&& 0xFFFFFFFF
  let carry := r >>> 32
  let r := (highResHigh2 + carry) % 2 ^ 64
  let high := d3 ||| ((r <<< 32) % 2 ^ 64)
  (low, high)

/-- The carry of `a + b` in `uint64_t`: `a + b < a` after wrapping. -/
def cadd (a b : Nat) : Bool :=
  decide ((a + b) % 2 ^ 64 < a)

/-- The carry of `a + b + c` in `uint64_t`, as difficulty.cpp computes it. -/
def cadc (a b : Nat) (c : Bool) : Bool :=
  decide ((a + b) % 2 ^ 64 < a) || (c && decide ((a + b) % 2 ^ 64 = 2 ^ 64 - 1))

/-- A 256-bit hash as its four 64-bit words after `swap64le`, least significant first:
`w0` is `swap64le(((const uint64_t *) &hash)[0])`. -/
structure hash where
  w0 : Nat
  w1 : Nat
  w2 : Nat
  w3 : Nat
deriving DecidableEq, Repr

/-- The four words of a hash are 64-bit values. -/
def hash.wf (h : hash) : Prop :=
  h.w0 < 2 ^ 64 ∧ h.w1 < 2 ^ 64 ∧ h.w2 < 2 ^ 64 ∧ h.w3 < 2 ^ 64

instance (h : hash) : Decidable h.wf := by
  unfold hash.wf; infer_instance

/-- The hash read as an unsigned little-endian integer. -/
def hash.value (h : hash) : Nat :=
  h.w0 + h.w1 * 2 ^ 64 + h.w2 * 2 ^ 128 + h.w3 * 2 ^ 192

/-- The function `check_hash` of difficulty.cpp; `difficulty` is the value handed to the
`uint64_t` parameter of `mul`. -/
def check_hash (h : hash) (difficulty : Nat) : Bool :=
  let (top, high) := mul h.w3 difficulty
  if high ≠ 0 then
    false
  else
    let (_low, cur) := mul h.w0 difficulty
    let (low, high) := mul h.w1 difficulty
    let carry := cadd cur low
    let cur := high
    let (low, high) := mul h.w2 difficulty
    let carry := cadc cur low carry
    let carry := cadc high top carry
    !carry

/-! ## difficulty.cpp : next_difficulty -/

/-- The constant `DIFFICULTY_WINDOW_V2` of cryptonote_config.h. -/
def DIFFICULTY_WINDOW_V2 : Nat := 60

/-- The constant `max128bit` of difficulty.cpp: the largest 128-bit unsigned value. -/
def max128bit : Nat := 2 ^ 128 - 1

/-- The call `std::vector::resize(n)`: the first `n` entries are kept and a shorter vector is
padded with value-initialised (zero) entries. -/
def resize (v : List Nat) (n : Nat) : List Nat :=
  v.take n ++ List.replicate (n - v.length) 0

/-- The call `sort(timestamps.begin(), timestamps.end())`: the ascending rearrangement. -/
def sort (v : List Nat) : List Nat :=
  v.insertionSort (· ≤ ·)

/-- The variable `cut_begin` of `next_difficulty` for a window of `length` samples.
`DIFFICULTY_CUT` is not defined in the sources at hand and is a parameter; the
`static_assert(2 * DIFFICULTY_CUT <= DIFFICULTY_WINDOW_V2 - 2)` is a hypothesis of the theorems. -/
def cut_begin (DIFFICULTY_CUT length : Nat) : Nat :=
  if length ≤ DIFFICULTY_WINDOW_V2 - 2 * DIFFICULTY_CUT then 0
  else (length - (DIFFICULTY_WINDOW_V2 - 2 * DIFFICULTY_CUT) + 1) / 2

/-- The variable `cut_end` of `next_difficulty` for a window of `length` samples. -/
def cut_end (DIFFICULTY_CUT length : Nat) : Nat :=
  if length ≤ DIFFICULTY_WINDOW_V2 - 2 * DIFFICULTY_CUT then length
  else cut_begin DIFFICULTY_CUT length + (DIFFICULTY_WINDOW_V2 - 2 * DIFFICULTY_CUT)

/-- Modelled from the spec: `difficulty_type` is declared in difficulty.h, which is not part of
the sources at hand; the data model of the spec gives cumulative difficulties as unsigned
128-bit values.  This is the modulus of its arithmetic. -/
def difficulty_type_modulus : Nat := 2 ^ 128

/-- The function `next_difficulty` of difficulty.cpp.  The result is `none` when one of the
`assert`s of the body fails and `some d` when the function returns `d`.
Timestamps and `target_seconds` are `uint64_t`/`size_t` values, differences of cumulative
difficulties wrap in `difficulty_type`, and the intermediate `res` is a `uint256_t`. -/
def next_difficulty (DIFFICULTY_CUT : Nat) (timestamps cumulative_difficulties : List Nat)
    (target_seconds : Nat) : Option Nat :=
  let oversized := decide (timestamps.length > DIFFICULTY_WINDOW_V2)
  let timestamps := if oversized then resize timestamps DIFFICULTY_WINDOW_V2 else timestamps
  let cumulative_difficulties :=
    if oversized then resize cumulative_difficulties DIFFICULTY_WINDOW_V2
    else cumulative_difficulties
  let length := timestamps.length
  if length ≠ cumulative_difficulties.length then none
  else if length ≤ 1 then some 1
  else if ¬ length ≤ DIFFICULTY_WINDOW_V2 then none
  else
    let timestamps := sort timestamps
    let cut_begin := cut_begin DIFFICULTY_CUT length
    let cut_end := cut_end DIFFICULTY_CUT length
    if ¬ (cut_begin + 2 ≤ cut_end ∧ cut_end ≤ length) then none
    else
      let time_span :=
        (timestamps.getD (cut_end - 1) 0 + 2 ^ 64 - timestamps.getD cut_begin 0) % 2 ^ 64
      let time_span := if time_span = 0 then 1 else time_span
      let total_work :=
        (cumulative_difficulties.getD (cut_end - 1) 0 + difficulty_type_modulus
          - cumulative_difficulties.getD cut_begin 0) % difficulty_type_modulus
      if ¬ total_work > 0 then none
      else
        let res := ((total_work * target_seconds + time_span - 1) % 2 ^ 256) / time_span
        if res > max128bit then some 0
        else some (res % difficulty_type_modulus)

/-! ## difficulty.cpp : check_hash_128 -/

/-- The constant `max256bit` of difficulty.cpp: the largest 256-bit unsigned value. -/
def max256bit : Nat := 2 ^ 256 - 1

/-- The word `swap64le(((const uint64_t *) &hash)[i])` of a hash. -/
def hash.word (h : hash) (i : Nat) : Nat :=
  match i with
  | 0 => h.w0
  | 1 => h.w1
  | 2 => h.w2
  | _ => h.w3

/-- The function `check_hash_128` of difficulty.cpp, compiled with `FORCE_FULL_128_BITS` as the
file defines it: the loop runs over `i = 0 .. 3` and `hashVal` is a `uint512_t`. -/
def check_hash_128 (h : hash) (difficulty : Nat) : Bool :=
  let hashVal := [0, 1, 2, 3].foldl
    (fun hashVal i => ((hashVal <<< 64) % 2 ^ 512) ||| h.word (3 - i)) 0
  decide ((hashVal * difficulty) % 2 ^ 512 ≤ max256bit)

/-! ## difficulty.cpp : next_difficulty_v2 -/

/-- The arithmetic of the C++ type `double` as far as `next_difficulty_v2` uses it.  Floating
point is not modelled: the type and its operations are a parameter, and every theorem on
`next_difficulty_v2` holds for each choice of them.
`of_int` converts an integer value, `round_int64` is `static_cast<int64_t>(sispop::round(x))`,
`to_uint64` is `static_cast<uint64_t>(x)` and `adjust` is the constant `0.998`. -/
structure double_arith where
  double : Type
  of_int : Int → double
  adjust : double
  add : double → double → double
  mul : double → double → double
  div : double → double → double
  round_int64 : double → Int
  to_uint64 : double → Nat

/-- A value brought into the range of `int64_t` (two's complement). -/
def wrap_int64 (x : Int) : Int :=
  (x + 2 ^ 63) % 2 ^ 64 - 2 ^ 63

/-- One round of the `for` loop of `next_difficulty_v2`: the pair is `(LWMA, sum_inverse_D)`. -/
def lwma_step (A : double_arith) (timestamps cumulative_difficulties : List Nat) (T : Int)
    (use_old_lwma : Bool) (k : A.double) (acc : A.double × A.double) (i : Nat) :
    A.double × A.double :=
  let solveTime := wrap_int64
    (wrap_int64 (timestamps.getD i 0) - wrap_int64 (timestamps.getD (i - 1) 0))
  let solveTime := if use_old_lwma then max solveTime (wrap_int64 (-7 * T)) else solveTime
  let solveTime := min solveTime (wrap_int64 (T * 7))
  let difficulty : Nat :=
    ((cumulative_difficulties.getD i 0 + difficulty_type_modulus
      - cumulative_difficulties.getD (i - 1) 0) % difficulty_type_modulus) % 2 ^ 64
  let LWMA := A.add acc.1 (A.div (A.of_int (wrap_int64 (solveTime * i))) k)
  let sum_inverse_D := A.add acc.2 (A.div (A.of_int 1) (A.of_int (difficulty : Int)))
  (LWMA, sum_inverse_D)

/-- The function `next_difficulty_v2` of difficulty.cpp, over the arithmetic `A` of `double`.
The flag `v12_initial_override` is read nowhere: the `if` in front of the capped `return` is
commented out in the source. -/
def next_difficulty_v2 (A : double_arith) (timestamps cumulative_difficulties : List Nat)
    (target_seconds : Nat) (use_old_lwma _v12_initial_override : Bool) : Nat :=
  let T := wrap_int64 target_seconds
  let N := DIFFICULTY_WINDOW_V2 - 1
  if timestamps.length < 4 then 1
  else
    let short := decide (timestamps.length - 1 < N)
    let N := if short then timestamps.length - 1 else N
    let timestamps := if short then timestamps else resize timestamps (N + 1)
    let cumulative_difficulties :=
      if short then cumulative_difficulties else resize cumulative_difficulties (N + 1)
    let k := A.of_int ((N * (N + 1) / 2 : Nat) : Int)
    let sums := (List.range' 1 N).foldl
      (lwma_step A timestamps cumulative_difficulties T use_old_lwma k) (A.of_int 0, A.of_int 0)
    let LWMA := sums.1
    let sum_inverse_D := sums.2
    let harmonic_mean_D := A.div (A.of_int (N : Int)) sum_inverse_D
    let LWMA := if A.round_int64 LWMA < Int.tdiv T 20 then A.of_int (Int.tdiv T 20) else LWMA
    let nextDifficulty := A.mul (A.div (A.mul harmonic_mean_D (A.of_int T)) LWMA) A.adjust
    let next_difficulty_v1 := A.to_uint64 nextDifficulty % 2 ^ 64
    let next_difficulty_v1 := if next_difficulty_v1 = 0 then 1 else next_difficulty_v1
    min next_difficulty_v1 ((100000 * (target_seconds % 2 ^ 64)) % 2 ^ 64)

/-- An idealised instance of `double_arith`, exact rational arithmetic, to have closed examples
of `next_difficulty_v2`; it stands for no property of IEEE arithmetic. -/
def exact_arith : double_arith where
  double := ℚ
  of_int := fun z => (z : ℚ)
  adjust := 998 / 1000
  add := fun x y => x + y
  mul := fun x y => x * y
  div := fun x y => x / y
  round_int64 := fun x => ⌊x + 1 / 2⌋
  to_uint64 := fun x => ⌊x⌋.toNat

/-! ## checkpoints.cpp : data model and the block store -/

/-- The enumeration `checkpoint_type`. -/
inductive checkpoint_type
  | hardcoded
  | service_node
deriving DecidableEq, Repr

/-- The constant `crypto::null_hash`. -/
def null_hash : hash := ⟨0, 0, 0, 0⟩

/-- Modelled from the spec: `checkpoint_t` is declared in checkpoints.h, which is not part of
the sources at hand.  The record holds a height, a block hash, a type and the vote/signature
metadata of service-node checkpoints (kept as an uninterpreted list). -/
structure checkpoint_t where
  type : checkpoint_type
  height : Nat
  block_hash : hash
  signatures : List Nat
deriving DecidableEq, Repr

/-- The value-initialised record `checkpoint_t checkpoint = {}`. -/
def checkpoint_t.zero : checkpoint_t :=
  { type := checkpoint_type.hardcoded, height := 0, block_hash := null_hash, signatures := [] }

/-- Modelled from the spec: the block store `BlockchainDB` (blockchain_db.h is not part of the
sources at hand) is a key/value store holding at most one checkpoint record per height, with an
explicit `batch_start`/`batch_stop` pair and a read-only flag. -/
structure BlockchainDB where
  block_checkpoints : List checkpoint_t
  batch_active : Bool
  read_only : Bool
deriving DecidableEq, Repr

/-- The operations of the block store that checkpoints.cpp calls; each of them may throw. -/
inductive db_op
  | txn_guard
  | get_block_checkpoint
  | update_block_checkpoint
  | remove_block_checkpoint
  | get_top_checkpoint
  | get_immutable_checkpoint
  | get_checkpoints_range
  | batch_start
  | batch_stop
deriving DecidableEq, Repr

/-- A `std::exception` thrown by the block store. -/
inductive db_exception
  | store_fault
deriving DecidableEq, Repr

/-- The store in which no operation throws. -/
def no_faults : db_op → Bool := fun _ => false

/-- Modelled from the spec: the scoped transaction guards `db_rtxn_guard` / `db_wtxn_guard`;
opening one throws on a store fault and has no other visible effect. -/
def db_txn_guard (F : db_op → Bool) : Except db_exception Unit :=
  if F db_op.txn_guard then .error db_exception.store_fault else .ok ()

/-- Modelled from the spec: `get_block_checkpoint(height) -> checkpoint?`. -/
def db_get_block_checkpoint (F : db_op → Bool) (db : BlockchainDB) (height : Nat) :
    Except db_exception (Option checkpoint_t) :=
  if F db_op.get_block_checkpoint then .error db_exception.store_fault
  else .ok (db.block_checkpoints.find? (fun c => decide (c.height = height)))

/-- Modelled from the spec: `update_block_checkpoint(checkpoint)` persists the record under its
height; the store holds at most one record per height, so a record already stored at that
height is replaced. -/
def db_update_block_checkpoint (F : db_op → Bool) (db : BlockchainDB) (checkpoint : checkpoint_t) :
    Except db_exception BlockchainDB :=
  if F db_op.update_block_checkpoint then .error db_exception.store_fault
  else .ok { db with block_checkpoints :=
    checkpoint :: db.block_checkpoints.filter (fun c => decide (c.height ≠ checkpoint.height)) }

/-- Modelled from the spec: `remove_block_checkpoint(height)` deletes the record of that height;
a missing record is not an error. -/
def db_remove_block_checkpoint (F : db_op → Bool) (db : BlockchainDB) (height : Nat) :
    Except db_exception BlockchainDB :=
  if F db_op.remove_block_checkpoint then .error db_exception.store_fault
  else .ok { db with block_checkpoints :=
    db.block_checkpoints.filter (fun c => decide (c.height ≠ height)) }

/-- The record of greatest height in a list of records. -/
def highest_checkpoint : List checkpoint_t → Option checkpoint_t
  | [] => none
  | c :: cs =>
    match highest_checkpoint cs with
    | none => some c
    | some d => if d.height ≤ c.height then some c else some d

/-- Modelled from the spec: `get_top_checkpoint() -> checkpoint?`, the highest stored
checkpoint. -/
def db_get_top_checkpoint (F : db_op → Bool) (db : BlockchainDB) :
    Except db_exception (Option checkpoint_t) :=
  if F db_op.get_top_checkpoint then .error db_exception.store_fault
  else .ok (highest_checkpoint db.block_checkpoints)

/-- Modelled from the spec: `get_checkpoints_range(start, end, max_count) -> [checkpoint]`, the
stored records with a height between `start` and `end`, in order of height going from `start`
towards `end`, at most `max_count` of them. -/
def db_get_checkpoints_range (F : db_op → Bool) (db : BlockchainDB)
    (start end_height num_desired_checkpoints : Nat) : Except db_exception (List checkpoint_t) :=
  if F db_op.get_checkpoints_range then .error db_exception.store_fault
  else
    let in_range := db.block_checkpoints.filter (fun c =>
      decide (min start end_height ≤ c.height ∧ c.height ≤ max start end_height))
    let ascending := in_range.insertionSort (fun a b => a.height ≤ b.height)
    .ok ((if start ≤ end_height then ascending else ascending.reverse).take
      num_desired_checkpoints)

/-- Modelled from the spec: `get_immutable_checkpoint(height) -> checkpoint?`.  Which stored
checkpoint counts as the immutable one for a height is decided inside the block store; the rule
`immutable` is a parameter. -/
def db_get_immutable_checkpoint (F : db_op → Bool)
    (immutable : List checkpoint_t → Nat → Option checkpoint_t) (db : BlockchainDB)
    (block_height : Nat) : Except db_exception (Option checkpoint_t) :=
  if F db_op.get_immutable_checkpoint then .error db_exception.store_fault
  else .ok (immutable db.block_checkpoints block_height)

/-- Modelled from the spec: a checkpoint is the immutable checkpoint for a queried height once
it is the highest checkpoint at or below that height. -/
def highest_checkpoint_at_or_below (records : List checkpoint_t) (height : Nat) :
    Option checkpoint_t :=
  highest_checkpoint (records.filter (fun c => decide (c.height ≤ height)))

/-- Modelled from the spec: `batch_start` opens a batch and reports whether it did; it reports
`false` when a batch is already open. -/
def db_batch_start (F : db_op → Bool) (db : BlockchainDB) :
    Except db_exception (Bool × BlockchainDB) :=
  if F db_op.batch_start then .error db_exception.store_fault
  else if db.batch_active then .ok (false, db)
  else .ok (true, { db with batch_active := true })

/-- Modelled from the spec: `batch_stop` closes the open batch. -/
def db_batch_stop (F : db_op → Bool) (db : BlockchainDB) : Except db_exception BlockchainDB :=
  if F db_op.batch_stop then .error db_exception.store_fault
  else .ok { db with batch_active := false }

/-- Modelled from the spec: part of `hex_to_pod`.  The value of one hexadecimal digit. -/
def hex_digit (c : Char) : Option Nat :=
  if '0' ≤ c ∧ c ≤ '9' then some (c.toNat - '0'.toNat)
  else if 'a' ≤ c ∧ c ≤ 'f' then some (c.toNat - 'a'.toNat + 10)
  else if 'A' ≤ c ∧ c ≤ 'F' then some (c.toNat - 'A'.toNat + 10)
  else none

/-- Modelled from the spec: part of `hex_to_pod`.  Pairs of hexadecimal digits read as bytes. -/
def hex_to_bytes : List Char → Option (List Nat)
  | [] => some []
  | [_] => none
  | a :: b :: rest =>
    match hex_digit a, hex_digit b, hex_to_bytes rest with
    | some x, some y, some bytes => some ((x * 16 + y) :: bytes)
    | _, _, _ => none

/-- Modelled from the spec: part of `hex_to_pod`.  Eight bytes in memory order read as a little-endian 64-bit word. -/
def word_of_bytes (bytes : List Nat) : Nat :=
  bytes.foldr (fun b acc => b + 256 * acc) 0

/-- Modelled from the spec: `epee::string_tools::hex_to_pod` (not part of the sources at hand)
parses the hash: the string must consist of exactly 64 hexadecimal digits, which give the 32
bytes of the hash in memory order. -/
def hex_to_pod (hash_str : String) : Option hash :=
  match hex_to_bytes hash_str.data with
  | none => none
  | some bytes =>
    if bytes.length = 32 then
      some ⟨word_of_bytes (bytes.take 8), word_of_bytes ((bytes.drop 8).take 8),
        word_of_bytes ((bytes.drop 16).take 8), word_of_bytes ((bytes.drop 24).take 8)⟩
    else none

/-- The constants of `namespace service_nodes` (service_node_rules.h, not part of the sources at
hand) that checkpoints.cpp uses; they are parameters. -/
structure service_nodes where
  CHECKPOINT_INTERVAL : Nat
  CHECKPOINT_STORE_PERSISTENTLY_INTERVAL : Nat
deriving DecidableEq, Repr

/-- The enumerator `network_version_12_checkpointing` of cryptonote_config.h. -/
def network_version_12_checkpointing : Nat := 12

/-- Modelled from the spec: of a `cryptonote::block` (declared outside the sources at hand)
`block_added` reads the height, through `get_block_height`, and the major version. -/
structure block where
  height : Nat
  major_version : Nat
deriving DecidableEq, Repr

/-- The enumeration `network_type` of cryptonote_config.h, with the enumerator `DEVNET` that
hardfork.cpp names and the header at hand does not declare. -/
inductive network_type
  | MAINNET
  | TESTNET
  | STAGENET
  | DEVNET
  | FAKECHAIN
  | UNDEFINED
deriving DecidableEq, Repr

/-- The state of the class `checkpoints`: the store behind `m_db`, the network type and the two
in-memory cursors.  (The member `m_difficulty_points` is written by no function of
checkpoints.cpp and is left out.) -/
structure checkpoints where
  m_db : BlockchainDB
  m_nettype : network_type
  m_last_cull_height : Nat
  m_immutable_height : Nat
deriving DecidableEq, Repr

/-! ## checkpoints.cpp : the operations

Every operation takes the fault map `F` of the store (which store operations throw).  An
operation in which a store exception can escape returns `Except db_exception _` together with
the state the ledger is left in; the two operations with a loop return `none` when the loop
does not terminate. -/

namespace checkpoints

/-- The function `checkpoints::get_checkpoint`: `none` stands for the result `false`, `some c`
for `true` with the out-parameter set to `c`. -/
def get_checkpoint (F : db_op → Bool) (s : checkpoints) (height : Nat) : Option checkpoint_t :=
  match db_txn_guard F with
  | .error _ => none
  | .ok _ =>
    match db_get_block_checkpoint F s.m_db height with
    | .error _ => none
    | .ok found => found

/-- The function `checkpoints::update_checkpoint`. -/
def update_checkpoint (F : db_op → Bool) (s : checkpoints) (checkpoint : checkpoint_t) :
    Except db_exception Bool × checkpoints :=
  -- try { batch_started = m_db->batch_start(); m_db->update_block_checkpoint(checkpoint); }
  let (result, batch_started, db) :=
    match db_batch_start F s.m_db with
    | .error _ => (false, false, s.m_db)
    | .ok (started, db1) =>
      match db_update_block_checkpoint F db1 checkpoint with
      | .error _ => (false, started, db1)
      | .ok db2 => (true, started, db2)
  if batch_started then
    match db_batch_stop F db with
    | .error e => (.error e, { s with m_db := db })
    | .ok db3 => (.ok result, { s with m_db := db3 })
  else (.ok result, { s with m_db := db })

/-- The function `checkpoints::add_checkpoint`. -/
def add_checkpoint (F : db_op → Bool) (s : checkpoints) (height : Nat)
    (hash_str _difficulty_str : String) : Except db_exception Bool × checkpoints :=
  match hex_to_pod hash_str with
  | none => (.ok false, s)
  | some h =>
    match get_checkpoint F s height with
    | some checkpoint =>
      if h = checkpoint.block_hash then (.ok true, s) else (.ok false, s)
    | none =>
      update_checkpoint F s
        { checkpoint_t.zero with
          type := checkpoint_type.hardcoded, height := height, block_hash := h }

/-- The `for` loop of `block_added`: the pair is the store and `m_last_cull_height` when the
loop is left.  A failing `remove_block_checkpoint` is logged and skipped. -/
def cull_loop (F : db_op → Bool) (sn : service_nodes) (end_cull_height : Nat) :
    Nat → BlockchainDB → Nat → Option (BlockchainDB × Nat)
  | 0, _, _ => none
  | fuel + 1, db, m_last_cull_height =>
    if m_last_cull_height < end_cull_height then
      let db1 :=
        if m_last_cull_height % sn.CHECKPOINT_STORE_PERSISTENTLY_INTERVAL = 0 then db
        else
          match db_remove_block_checkpoint F db m_last_cull_height with
          | .error _ => db
          | .ok removed => removed
      cull_loop F sn end_cull_height fuel db1
        ((m_last_cull_height + sn.CHECKPOINT_INTERVAL) % 2 ^ 64)
    else some (db, m_last_cull_height)

/-- The function `checkpoints::block_added`.  The cursor of the loop is a `uint64_t`, so a run
of the loop that ends does so within `2 ^ 64` rounds: `none` is a loop that never ends. -/
def block_added (F : db_op → Bool) (immutable : List checkpoint_t → Nat → Option checkpoint_t)
    (sn : service_nodes) (s : checkpoints) (blk : block) (checkpoint : Option checkpoint_t) :
    Option (Except db_exception Bool × checkpoints) :=
  let height := blk.height
  if height < sn.CHECKPOINT_STORE_PERSISTENTLY_INTERVAL
      ∨ blk.major_version < network_version_12_checkpointing then
    some (.ok true, s)
  else
    match db_get_immutable_checkpoint F immutable s.m_db ((height + 1) % 2 ^ 64) with
    | .error e => some (.error e, s)
    | .ok found =>
      let end_cull_height := match found with
        | some immutable_checkpoint => immutable_checkpoint.height
        | none => 0
      let start_cull_height :=
        if end_cull_height < sn.CHECKPOINT_STORE_PERSISTENTLY_INTERVAL then 0
        else end_cull_height - sn.CHECKPOINT_STORE_PERSISTENTLY_INTERVAL
      let start_cull_height :=
        if start_cull_height % sn.CHECKPOINT_INTERVAL > 0 then
          (start_cull_height
            + (sn.CHECKPOINT_INTERVAL - start_cull_height % sn.CHECKPOINT_INTERVAL)) % 2 ^ 64
        else start_cull_height
      let s1 := { s with m_last_cull_height := max s.m_last_cull_height start_cull_height }
      match db_txn_guard F with
      | .error e => some (.error e, s1)
      | .ok _ =>
        match cull_loop F sn end_cull_height (2 ^ 64 + 1) s1.m_db s1.m_last_cull_height with
        | none => none
        | some (db, cursor) =>
          let s2 := { s1 with m_db := db, m_last_cull_height := cursor }
          match checkpoint with
          | none => some (.ok true, s2)
          | some c =>
            match update_checkpoint F s2 c with
            | (.error e, s3) => some (.error e, s3)
            | (.ok _, s3) => some (.ok true, s3)

/-- The value of `end_cull_height` in `block_added` for the answer `found` of the store. -/
def end_cull_height (found : Option checkpoint_t) : Nat :=
  match found with
  | some immutable_checkpoint => immutable_checkpoint.height
  | none => 0

/-- The value of `start_cull_height` in `block_added`, after it is rounded up to the
checkpoint-interval grid. -/
def start_cull_height (sn : service_nodes) (end_cull_height : Nat) : Nat :=
  let start_cull_height :=
    if end_cull_height < sn.CHECKPOINT_STORE_PERSISTENTLY_INTERVAL then 0
    else end_cull_height - sn.CHECKPOINT_STORE_PERSISTENTLY_INTERVAL
  if start_cull_height % sn.CHECKPOINT_INTERVAL > 0 then
    (start_cull_height
      + (sn.CHECKPOINT_INTERVAL - start_cull_height % sn.CHECKPOINT_INTERVAL)) % 2 ^ 64
  else start_cull_height

/-- The `for` loop of `blockchain_detached`, with the `size_t` counter `delete_height`. -/
def detach_loop (F : db_op → Bool) (sn : service_nodes) (height : Nat) :
    Nat → BlockchainDB → Nat → Option BlockchainDB
  | 0, _, _ => none
  | fuel + 1, db, delete_height =>
    if delete_height ≥ height ∧ delete_height ≥ sn.CHECKPOINT_INTERVAL then
      let db1 :=
        match db_remove_block_checkpoint F db delete_height with
        | .error _ => db
        | .ok removed => removed
      detach_loop F sn height fuel db1
        ((delete_height + 2 ^ 64 - sn.CHECKPOINT_INTERVAL % 2 ^ 64) % 2 ^ 64)
    else some db

/-- The function `checkpoints::blockchain_detached`; `none` is a loop that never ends. -/
def blockchain_detached (F : db_op → Bool) (sn : service_nodes) (s : checkpoints)
    (height : Nat) : Option (Except db_exception Unit × checkpoints) :=
  let s1 := { s with m_last_cull_height := min s.m_last_cull_height height }
  match db_txn_guard F with
  | .error e => some (.error e, s1)
  | .ok _ =>
    match db_get_top_checkpoint F s1.m_db with
    | .error e => some (.error e, s1)
    | .ok none => some (.ok (), s1)
    | .ok (some top_checkpoint) =>
      let start_height := top_checkpoint.height
      match detach_loop F sn height (2 ^ 64 + 1) s1.m_db start_height with
      | none => none
      | some db => some (.ok (), { s1 with m_db := db })

/-- The function `checkpoints::is_in_checkpoint_zone`. -/
def is_in_checkpoint_zone (F : db_op → Bool) (s : checkpoints) (height : Nat) :
    Except db_exception Bool :=
  match db_get_top_checkpoint F s.m_db with
  | .error e => .error e
  | .ok found =>
    let top_checkpoint_height := match found with
      | some top_checkpoint => top_checkpoint.height
      | none => 0
    .ok (decide (height ≤ top_checkpoint_height))

/-- The function `checkpoint_t::check`. -/
def checkpoint_t_check (checkpoint : checkpoint_t) (h : hash) : Bool :=
  decide (checkpoint.block_hash = h)

/-- The function `checkpoints::check_block`, with both out-parameters supplied: the triple is
`(result, is_a_checkpoint, service_node_checkpoint)`. -/
def check_block (F : db_op → Bool) (s : checkpoints) (height : Nat) (h : hash) :
    Bool × Bool × Bool :=
  match get_checkpoint F s height with
  | none => (true, false, false)
  | some checkpoint =>
    (checkpoint_t_check checkpoint h, true,
      decide (checkpoint.type = checkpoint_type.service_node))

/-- The function `checkpoints::is_alternative_block_allowed`, with the out-parameter supplied:
the pair is `(result, service_node_checkpoint)`. -/
def is_alternative_block_allowed (F : db_op → Bool)
    (immutable : List checkpoint_t → Nat → Option checkpoint_t) (s : checkpoints)
    (blockchain_height block_height : Nat) : Except db_exception (Bool × Bool) × checkpoints :=
  if 0 = block_height then (.ok (false, false), s)
  else
    match db_get_checkpoints_range F s.m_db 0 blockchain_height 1 with
    | .error e => (.error e, s)
    | .ok first_checkpoint =>
      if first_checkpoint.isEmpty
          ∨ blockchain_height < (first_checkpoint.headD checkpoint_t.zero).height then
        (.ok (true, false), s)
      else
        match db_get_immutable_checkpoint F immutable s.m_db blockchain_height with
        | .error e => (.error e, s)
        | .ok found =>
          let immutable_height := match found with
            | some immutable_checkpoint => immutable_checkpoint.height
            | none => 0
          let service_node_checkpoint := match found with
            | some immutable_checkpoint =>
              decide (immutable_checkpoint.type = checkpoint_type.service_node)
            | none => false
          let s1 := { s with m_immutable_height := max immutable_height s.m_immutable_height }
          (.ok (decide (block_height > s1.m_immutable_height), service_node_checkpoint), s1)

/-- The function `checkpoints::get_max_height`. -/
def get_max_height (F : db_op → Bool) (s : checkpoints) : Except db_exception Nat :=
  match db_get_top_checkpoint F s.m_db with
  | .error e => .error e
  | .ok none => .ok 0
  | .ok (some top_checkpoint) => .ok top_checkpoint.height

end checkpoints

/-- Modelled from the spec: `height_to_hash` (checkpoints.h, not part of the sources at hand),
an entry of the static seed data: a height, the hash and the cumulative difficulty as
hexadecimal strings. -/
structure height_to_hash where
  height : Nat
  hash : String
  difficulty : String
deriving DecidableEq, Repr

/-- The table `HARDCODED_MAINNET_CHECKPOINTS`. -/
def HARDCODED_MAINNET_CHECKPOINTS : List height_to_hash :=
  [
    ⟨0, "8cc33ab439f5fec5a384321b872c25686d2ab9d688e715ee3087b20094fccd47", "0x1"⟩,
    ⟨5000, "1e9c86f2519c8c1253fea3f285c301df7f12258892aa9fb24c0d6c0725054f58", "0xbcc26d0716"⟩,
    ⟨10000, "9358546b6e50f0f203b344ef95f8cf9f756c409292c8abfd747af98118dc0b21", "0x1bb4dd4a419"⟩,
    ⟨15000, "1eb3f2e40efe39d766fe8ddcf6c7b7efc0fe09d7919cef7de62717f38a6f3ee2", "0x2ab693df687"⟩,
    ⟨20000, "c9acfaf4a0bdb294e3627216b1ae4a2cc7cdac1e76401b5bf04f2146f4e25e96", "0x360cf01fba0"⟩,
    ⟨25000, "a92b53fb0dcd47a52ec51792cbe0ebce98dc205aab8022be4682b8d32b89467e", "0x40fa0c2d6e9"⟩,
    ⟨30000, "c4eafca18774525cd9711927e2de60b909cd39697cc8240b0a39134d9f20d0f4", "0x48689d310cf"⟩,
    ⟨35000, "071a097a3b9ae7e78d37b5d31953d46587d9b3a8b4f67d5c6753866780fb01ed", "0x503a761685b"⟩,
    ⟨40000, "eaae7dc6e109a05fd42e0d5f08294d9b6bf24d6a5b0566bfc0643e0cfba33543", "0x5790641ee5d"⟩,
    ⟨45000, "692b269204de714d702435a43790b63c20036c7269a86f2ac075aed21da99c34", "0x5e9511824af"⟩,
    ⟨50000, "aaf4eae74eb0960a111f39ebcd9ed242ead8ba764e95aee7c6584a1d61ee55fe", "0x658aae78d67"⟩,
    ⟨55000, "32df0bc894875581adc9dad51b76133d3d01a4f43c3b9e133a76a05c0a899e1b", "0x68c0bfa8409"⟩,
    ⟨60000, "e0430f775523011ac04a6dace295057cce86c0db5338d8ca4ba7dc95a927dca7", "0x85094481cbe"⟩,
    ⟨65000, "bcbe23a77309ffc5a203107cad094d3a2132e22b17c66db565463700b658a189", "0xcf80f71e09d"⟩,
    ⟨70000, "e40d906d5ec460c563a0ccdc50ca0fdbfd38c0ab8c59ab97e8865f2108d5a4c4", "0x11d927a6492d"⟩,
    ⟨75000, "0f326a6627e575ced8fce491000ce6eddb7f3b64edac45e0859a690a4a03d38c", "0x16301d48e8f5"⟩,
    ⟨80000, "d9b1fd754541cfdefbd8b52a46aba0df5cf9b70f60218723104e95561313223b", "0x197658ff1999"⟩,
    ⟨85000, "e14d12957a42d2abe84feac9f19c314847f40fd3e83d705b9f75470427876384", "0x1bbe2293bca2"⟩,
    ⟨90000, "084158da5562005ab785ef257dd670ec224abeeeebee7190be527551e47ece8d", "0x1ebf36558c61"⟩,
    ⟨95000, "553120c5015ea18285fec94bc2d9ae49e0c04395a1f12a62789b563f420ef15c", "0x21b78549b6e4"⟩,
    ⟨99704, "6a6d8fe601d6c0497b8dad268f0ca9efa17ae8d5ef269f070e6b626263513acc", "0x2480f7e86e50"⟩
  ]

namespace checkpoints

/-- The `for` loop of `init`.
Modelled from the spec: the macro `ADD_CHECKPOINT2` (checkpoints.h, not part of the sources at
hand) seeds the store through `add_checkpoint`; a failing call makes `init` return false. -/
def init_loop (F : db_op → Bool) : List height_to_hash → checkpoints →
    Except db_exception Bool × checkpoints
  | [], s => (.ok true, s)
  | checkpoint :: rest, s =>
    match add_checkpoint F s checkpoint.height checkpoint.hash checkpoint.difficulty with
    | (.error e, s1) => (.error e, s1)
    | (.ok false, s1) => (.ok false, s1)
    | (.ok true, s1) => init_loop F rest s1

/-- The function `checkpoints::init`, without `SISPOP_ENABLE_INTEGRATION_TEST_HOOKS`:
`*this = {}` resets the two cursors to 0. -/
def init (F : db_op → Bool) (nettype : network_type) (db : BlockchainDB) :
    Except db_exception Bool × checkpoints :=
  let s : checkpoints :=
    { m_db := db, m_nettype := nettype, m_last_cull_height := 0, m_immutable_height := 0 }
  if db.read_only then (.ok true, s)
  else if nettype = network_type.MAINNET then init_loop F HARDCODED_MAINNET_CHECKPOINTS s
  else (.ok true, s)

end checkpoints

/-- A call of one of the public operations of the ledger other than `init`. -/
inductive ledger_call
  | get_checkpoint (height : Nat)
  | add_checkpoint (height : Nat) (hash_str difficulty_str : String)
  | update_checkpoint (checkpoint : checkpoint_t)
  | block_added (blk : block) (checkpoint : Option checkpoint_t)
  | blockchain_detached (height : Nat)
  | is_in_checkpoint_zone (height : Nat)
  | check_block (height : Nat) (h : hash)
  | is_alternative_block_allowed (blockchain_height block_height : Nat)
  | get_max_height

/-- The state the ledger is left in by one call (whether the call returns or lets a store
exception escape); `none` when the call does not terminate. -/
def ledger_call.state_after (F : db_op → Bool)
    (immutable : List checkpoint_t → Nat → Option checkpoint_t) (sn : service_nodes)
    (s : checkpoints) : ledger_call → Option checkpoints
  | .get_checkpoint _ => some s
  | .add_checkpoint height hash_str difficulty_str =>
    some (checkpoints.add_checkpoint F s height hash_str difficulty_str).2
  | .update_checkpoint checkpoint => some (checkpoints.update_checkpoint F s checkpoint).2
  | .block_added blk checkpoint =>
    (checkpoints.block_added F immutable sn s blk checkpoint).map Prod.snd
  | .blockchain_detached height =>
    (checkpoints.blockchain_detached F sn s height).map Prod.snd
  | .is_in_checkpoint_zone _ => some s
  | .check_block _ _ => some s
  | .is_alternative_block_allowed blockchain_height block_height =>
    some (checkpoints.is_alternative_block_allowed F immutable s blockchain_height
      block_height).2
  | .get_max_height => some s

/-- The state of the ledger after a sequence of calls, none of which is `init`. -/
def run_calls (F : db_op → Bool) (immutable : List checkpoint_t → Nat → Option checkpoint_t)
    (sn : service_nodes) : List ledger_call → checkpoints → Option checkpoints
  | [], s => some s
  | call :: rest, s =>
    match call.state_after F immutable sn s with
    | none => none
    | some s1 => run_calls F immutable sn rest s1

/-! ## hardfork.cpp -/

/-- Modelled from the spec: `hard_fork` is declared in hardfork.h, which is not part of the
sources at hand: a protocol version (u8), a service-node revision (u8), an activation height
(u64) and an activation time, in the order of the initialisers of the tables. -/
structure hard_fork where
  version : Nat
  snode_revision : Nat
  height : Nat
  time : Nat
deriving DecidableEq, Repr

/-- The table `mainnet_hard_forks`. -/
def mainnet_hard_forks : List hard_fork :=
  [ ⟨7, 0, 0, 1503046577⟩,
    ⟨8, 0, 100, 1692426487⟩,
    ⟨9, 0, 102, 1692426900⟩,
    ⟨10, 0, 110, 1692427080⟩,
    ⟨11, 0, 118, 1692427200⟩,
    ⟨12, 0, 120, 1692427260⟩,
    ⟨13, 0, 125, 1692427500⟩,
    ⟨14, 0, 128, 1692427620⟩,
    ⟨15, 0, 130, 1692427740⟩ ]

/-- The table `testnet_hard_forks`. -/
def testnet_hard_forks : List hard_fork :=
  [ ⟨7, 0, 0, 1533631121⟩,
    ⟨8, 0, 2, 1533631122⟩,
    ⟨9, 0, 3, 1533631123⟩,
    ⟨10, 0, 4, 1542681077⟩,
    ⟨11, 0, 5, 1551223964⟩,
    ⟨12, 0, 75471, 1561608000⟩,
    ⟨13, 0, 127028, 1568440800⟩,
    ⟨14, 0, 174630, 1575075600⟩,
    ⟨15, 0, 244777, 1583940000⟩,
    ⟨16, 0, 382222, 1600468200⟩,
    ⟨17, 0, 447275, 1608276840⟩,
    ⟨18, 0, 501750, 1616631051⟩,
    ⟨18, 1, 578637, 1624040400⟩ ]

/-- The table `devnet_hard_forks`. -/
def devnet_hard_forks : List hard_fork :=
  [ ⟨7, 0, 0, 1599848400⟩,
    ⟨11, 0, 2, 1599848400⟩,
    ⟨12, 0, 3, 1599848400⟩,
    ⟨13, 0, 4, 1599848400⟩,
    ⟨15, 0, 5, 1599848400⟩,
    ⟨16, 0, 99, 1599848400⟩ ]

/-- The comparison `std::make_pair(a1, a2) <= std::make_pair(b1, b2)`. -/
def pair_le (a1 a2 b1 b2 : Nat) : Bool :=
  decide (a1 < b1 ∨ (a1 = b1 ∧ a2 ≤ b2))

/-- The `for` loop of `is_ordered`, with `prev` the entry before the remaining ones. -/
def is_ordered_loop (prev : hard_fork) : List hard_fork → Bool
  | [] => true
  | hf :: rest =>
    if pair_le hf.version hf.snode_revision prev.version prev.snode_revision
        ∨ hf.height ≤ prev.height ∨ hf.time < prev.time then false
    else is_ordered_loop hf rest

/-- The function `is_ordered` of hardfork.cpp. -/
def is_ordered (forks : List hard_fork) : Bool :=
  match forks with
  | [] => false
  | first :: rest => if first.version < 7 then false else is_ordered_loop first rest

/-- The function `get_hard_forks`: the range of entries of the network.  The vector
`fakechain_hardforks` is filled at run time and is a parameter. -/
def get_hard_forks (fakechain_hardforks : List hard_fork) (type : network_type) :
    List hard_fork :=
  if type = network_type.MAINNET then mainnet_hard_forks
  else if type = network_type.TESTNET then testnet_hard_forks
  else if type = network_type.DEVNET then devnet_hard_forks
  else if type = network_type.FAKECHAIN then fakechain_hardforks
  else []

/-- The `for` loop of `get_network_version_revision` over the remaining entries. -/
def network_version_revision_loop (height : Nat) : List hard_fork → Nat × Nat → Nat × Nat
  | [], result => result
  | it :: rest, result =>
    if it.height ≤ height then
      network_version_revision_loop height rest (it.version, it.snode_revision)
    else result

/-- The function `get_network_version_revision`; `std::pair<uint8_t, uint8_t> result;` starts
as `(0, 0)`. -/
def get_network_version_revision (fakechain_hardforks : List hard_fork)
    (nettype : network_type) (height : Nat) : Nat × Nat :=
  network_version_revision_loop height (get_hard_forks fakechain_hardforks nettype) (0, 0)

/-- The `for` loop of `get_hard_fork_heights` over the remaining entries; `found` is the pair
of optional heights. -/
def hard_fork_heights_loop (version : Nat) :
    List hard_fork → Option Nat × Option Nat → Option Nat × Option Nat
  | [], found => found
  | it :: rest, found =>
    if it.version > version then
      if found.1.isSome then (found.1, some ((it.height + 2 ^ 64 - 1) % 2 ^ 64)) else found
    else if it.version = version then
      hard_fork_heights_loop version rest (some it.height, found.2)
    else hard_fork_heights_loop version rest found

/-- The function `get_hard_fork_heights`. -/
def get_hard_fork_heights (fakechain_hardforks : List hard_fork) (nettype : network_type)
    (version : Nat) : Option Nat × Option Nat :=
  hard_fork_heights_loop version (get_hard_forks fakechain_hardforks nettype) (none, none)

/-- The `for` loop of `hard_fork_ceil` over the remaining entries. -/
def hard_fork_ceil_loop (version : Nat) : List hard_fork → Nat
  | [] => version
  | it :: rest => if it.version ≥ version then it.version else hard_fork_ceil_loop version rest

/-- The function `hard_fork_ceil`. -/
def hard_fork_ceil (fakechain_hardforks : List hard_fork) (nettype : network_type)
    (version : Nat) : Nat :=
  hard_fork_ceil_loop version (get_hard_forks fakechain_hardforks nettype)

/-- The `for` loop of `get_ideal_block_version` over the remaining entries. -/
def ideal_block_version_loop (height : Nat) : List hard_fork → Nat × Nat → Nat × Nat
  | [], result => result
  | it :: rest, result =>
    ideal_block_version_loop height rest
      (if it.height ≤ height then it.version else result.1, it.version)

/-- The function `get_ideal_block_version`; the result starts as `(0, 0)`. -/
def get_ideal_block_version (fakechain_hardforks : List hard_fork) (nettype : network_type)
    (height : Nat) : Nat × Nat :=
  ideal_block_version_loop height (get_hard_forks fakechain_hardforks nettype) (0, 0)

namespace checkpoints

/-- One round of the `for` loop of `blockchain_detached`: the record at `delete_height` is
removed, and a failing `remove_block_checkpoint` is logged and skipped. -/
def detach_step (F : db_op → Bool) (db : BlockchainDB) (delete_height : Nat) : BlockchainDB :=
  match db_remove_block_checkpoint F db delete_height with
  | .error _ => db
  | .ok removed => removed

/-- The values of the counter `delete_height` for which the `for` loop of
`blockchain_detached` runs its body, in the order of the rounds; `none` is a loop that never
ends. -/
def detach_loop_heights (sn : service_nodes) (height : Nat) : Nat → Nat → Option (List Nat)
  | 0, _ => none
  | fuel + 1, delete_height =>
    if delete_height ≥ height ∧ delete_height ≥ sn.CHECKPOINT_INTERVAL then
      (detach_loop_heights sn height fuel
        ((delete_height + 2 ^ 64 - sn.CHECKPOINT_INTERVAL % 2 ^ 64) % 2 ^ 64)).map
        (fun later => delete_height :: later)
    else some []

end checkpoints

end cryptonote

/-! # Theorems -/

namespace cryptonote

/-! ## Word arithmetic -/

theorem and_mask32 (x : Nat) : x &&& 0xFFFFFFFF = x % 2 ^ 32 := by
  have := Nat.and_pow_two_sub_one_eq_mod x 32
  simpa using this

/-- Gluing a 32-bit low half under a shifted high half is addition. -/
theorem shl32_or (r l : Nat) (hl : l < 2 ^ 32) :
    ((r <<< 32) % 2 ^ 64) ||| l = (r % 2 ^ 32) * 2 ^ 32 + l := by
  have h1 : (r <<< 32) % 2 ^ 64 = 2 ^ 32 * (r % 2 ^ 32) := by
    rw [Nat.shiftLeft_eq]; omega
  rw [h1, ← Nat.mul_add_lt_is_or hl]; ring

theorem or_shl32 (r l : Nat) (hl : l < 2 ^ 32) :
    l ||| ((r <<< 32) % 2 ^ 64) = (r % 2 ^ 32) * 2 ^ 32 + l := by
  rw [Nat.lor_comm]; exact shl32_or r l hl

theorem mul_eq_mul128 (a b : Nat) (ha : a < 2 ^ 64) (hb : b < 2 ^ 64) :
    mul a b = mul128 a b := by
  have hmod : ∀ x : Nat, x % 2 ^ 32 < 2 ^ 32 := fun x => Nat.mod_lt _ (by norm_num)
  simp only [mul, mul128, and_mask32, Nat.shiftRight_eq_div_pow]
  rw [shl32_or _ _ (hmod _), or_shl32 _ _ (hmod _)]
  have hab : a * b = (a / 2 ^ 32) * (b / 2 ^ 32) * 2 ^ 64
      + ((a / 2 ^ 32) * (b % 2 ^ 32) + (a % 2 ^ 32) * (b / 2 ^ 32)) * 2 ^ 32
      + (a % 2 ^ 32) * (b % 2 ^ 32) := by
    conv_lhs => rw [← Nat.div_add_mod a (2 ^ 32), ← Nat.div_add_mod b (2 ^ 32)]
    ring
  have hal : a % 2 ^ 32 ≤ 2 ^ 32 - 1 := by omega
  have hbl : b % 2 ^ 32 ≤ 2 ^ 32 - 1 := by omega
  have hah : a / 2 ^ 32 ≤ 2 ^ 32 - 1 := by omega
  have hbh : b / 2 ^ 32 ≤ 2 ^ 32 - 1 := by omega
  have hll := Nat.mul_le_mul hal hbl
  have hhl := Nat.mul_le_mul hah hbl
  have hlh := Nat.mul_le_mul hal hbh
  have hhh := Nat.mul_le_mul hah hbh
  rw [hab]
  generalize (a % 2 ^ 32) * (b % 2 ^ 32) = pll at *
  generalize (a / 2 ^ 32) * (b % 2 ^ 32) = phl at *
  generalize (a % 2 ^ 32) * (b / 2 ^ 32) = plh at *
  generalize (a / 2 ^ 32) * (b / 2 ^ 32) = phh at *
  norm_num at hll hhl hlh hhh
  refine Prod.ext ?_ ?_ <;> simp only <;> omega

theorem cadd_eq (a b : Nat) (ha : a < 2 ^ 64) (hb : b < 2 ^ 64) :
    cadd a b = decide (2 ^ 64 ≤ a + b) := by
  unfold cadd
  rw [decide_eq_decide]; omega

theorem cadc_eq (a b : Nat) (c : Bool) (ha : a < 2 ^ 64) (hb : b < 2 ^ 64) :
    cadc a b c = decide (2 ^ 64 ≤ a + b + c.toNat) := by
  unfold cadc
  cases c
  · simp only [Bool.false_and, Bool.or_false, Bool.toNat_false, Nat.add_zero]
    rw [decide_eq_decide]; omega
  · simp only [Bool.true_and, Bool.toNat_true]
    rw [← Bool.decide_or, decide_eq_decide]; omega

theorem toNat_decide_cases (P : Prop) [Decidable P] :
    (P ∧ (decide P).toNat = 1) ∨ (¬P ∧ (decide P).toNat = 0) := by
  by_cases hP : P <;> simp [hP]

theorem check_hash_spec (h : hash) (D : Nat) (hh : h.wf) (hD : D < 2 ^ 64) :
    check_hash h D = true ↔ h.value * D ≤ 2 ^ 256 - 1 := by
  obtain ⟨h0, h1, h2, h3⟩ := hh
  have hv : h.value * D = h.w0 * D + (h.w1 * D) * 2 ^ 64 + (h.w2 * D) * 2 ^ 128
      + (h.w3 * D) * 2 ^ 192 := by
    unfold hash.value; ring
  have b0 := Nat.mul_le_mul (show h.w0 ≤ 2 ^ 64 - 1 by omega) (show D ≤ 2 ^ 64 - 1 by omega)
  have b1 := Nat.mul_le_mul (show h.w1 ≤ 2 ^ 64 - 1 by omega) (show D ≤ 2 ^ 64 - 1 by omega)
  have b2 := Nat.mul_le_mul (show h.w2 ≤ 2 ^ 64 - 1 by omega) (show D ≤ 2 ^ 64 - 1 by omega)
  have b3 := Nat.mul_le_mul (show h.w3 ≤ 2 ^ 64 - 1 by omega) (show D ≤ 2 ^ 64 - 1 by omega)
  rw [hv]
  simp only [check_hash, mul_eq_mul128 _ _ h0 hD, mul_eq_mul128 _ _ h1 hD,
    mul_eq_mul128 _ _ h2 hD, mul_eq_mul128 _ _ h3 hD, mul128]
  generalize h.w0 * D = p0 at *
  generalize h.w1 * D = p1 at *
  generalize h.w2 * D = p2 at *
  generalize h.w3 * D = p3 at *
  norm_num at b0 b1 b2 b3
  have m0 : p0 / 2 ^ 64 % 2 ^ 64 = p0 / 2 ^ 64 := by omega
  have m1 : p1 / 2 ^ 64 % 2 ^ 64 = p1 / 2 ^ 64 := by omega
  have m2 : p2 / 2 ^ 64 % 2 ^ 64 = p2 / 2 ^ 64 := by omega
  have m3 : p3 / 2 ^ 64 % 2 ^ 64 = p3 / 2 ^ 64 := by omega
  rw [m0, m1, m2, m3]
  rw [cadd_eq _ _ (by omega) (by omega)]
  rw [cadc_eq _ _ _ (by omega) (by omega), cadc_eq _ _ _ (by omega) (by omega)]
  obtain ⟨hc1, e1⟩ | ⟨hc1, e1⟩ := toNat_decide_cases (2 ^ 64 ≤ p0 / 2 ^ 64 + p1 % 2 ^ 64) <;>
  rw [e1] <;>
  obtain ⟨hc2, e2⟩ | ⟨hc2, e2⟩ := toNat_decide_cases (2 ^ 64 ≤ p1 / 2 ^ 64 + p2 % 2 ^ 64 + _) <;>
  rw [e2] <;>
  by_cases c3 : p3 / 2 ^ 64 = 0 <;>
  simp only [c3, ne_eq, not_true_eq_false, not_false_eq_true, if_false, if_true,
    Bool.not_eq_true', decide_eq_false_iff_not, Bool.false_eq_true, false_iff] <;>
  omega

/-! ## next_difficulty : helper lemmas -/

theorem cut_bounds (CUT L : Nat) (hcut : 2 * CUT ≤ DIFFICULTY_WINDOW_V2 - 2) (h2 : 2 ≤ L)
    (hW : L ≤ DIFFICULTY_WINDOW_V2) :
    cut_begin CUT L + 2 ≤ cut_end CUT L ∧ cut_end CUT L ≤ L := by
  unfold cut_end cut_begin DIFFICULTY_WINDOW_V2 at *
  split_ifs <;> omega

theorem sort_perm (v : List Nat) : (sort v).Perm v :=
  List.perm_insertionSort _ v

theorem sort_sorted (v : List Nat) : (sort v).Sorted (· ≤ ·) :=
  List.sorted_insertionSort _ v

theorem sort_length (v : List Nat) : (sort v).length = v.length :=
  List.length_insertionSort _ v

/-- Any ascending rearrangement of `v` is the one `sort` computes. -/
theorem sort_unique (v s : List Nat) (hp : s.Perm v) (hs : s.Sorted (· ≤ ·)) : sort v = s :=
  List.eq_of_perm_of_sorted ((sort_perm v).trans hp.symm) (sort_sorted v) hs

theorem sorted_getD_le (s : List Nat) (hs : s.Sorted (· ≤ ·)) (i j : Nat) (hij : i ≤ j)
    (hj : j < s.length) : s.getD i 0 ≤ s.getD j 0 := by
  have hi : i < s.length := lt_of_le_of_lt hij hj
  rw [List.getD_eq_getElem _ _ hi, List.getD_eq_getElem _ _ hj]
  exact hs.rel_get_of_le (a := ⟨i, hi⟩) (b := ⟨j, hj⟩) hij

theorem getD_lt_of_forall (v : List Nat) (B : Nat) (hB : 0 < B) (h : ∀ x ∈ v, x < B) (i : Nat) :
    v.getD i 0 < B := by
  by_cases hi : i < v.length
  · rw [List.getD_eq_getElem _ _ hi]; exact h _ (List.getElem_mem hi)
  · rw [List.getD_eq_default _ _ (by omega)]; exact hB

/-- Rounding a quotient of naturals up is the `(a + b - 1) / b` of the code. -/
theorem ceil_div_eq (a b : Nat) (hb : 0 < b) : ⌈(a : ℚ) / (b : ℚ)⌉₊ = (a + b - 1) / b := by
  have hbq : (0 : ℚ) < (b : ℚ) := by exact_mod_cast hb
  apply le_antisymm
  · rw [Nat.ceil_le, div_le_iff₀ hbq]
    have h1 : a ≤ (a + b - 1) / b * b := by
      have e1 := Nat.div_add_mod (a + b - 1) b
      have e2 := Nat.mod_lt (a + b - 1) hb
      rw [Nat.mul_comm] at e1
      omega
    exact_mod_cast h1
  · rw [Nat.div_le_iff_le_mul_add_pred hb]
    have h2 : (a : ℚ) ≤ (⌈(a : ℚ) / (b : ℚ)⌉₊ : ℚ) * b := by
      rw [← div_le_iff₀ hbq]; exact Nat.le_ceil _
    have h3 : a ≤ ⌈(a : ℚ) / (b : ℚ)⌉₊ * b := by exact_mod_cast h2
    have : b * ⌈(a : ℚ) / (b : ℚ)⌉₊ = ⌈(a : ℚ) / (b : ℚ)⌉₊ * b := Nat.mul_comm _ _
    omega

theorem resize_of_le (v : List Nat) (n : Nat) (h : n ≤ v.length) : resize v n = v.take n := by
  unfold resize
  rw [Nat.sub_eq_zero_of_le h]; simp

/-- Only the first `DIFFICULTY_WINDOW_V2` samples of equally long inputs are looked at. -/
theorem next_difficulty_take (CUT : Nat) (ts cds : List Nat) (T : Nat)
    (hlen : ts.length = cds.length) :
    next_difficulty CUT ts cds T
      = next_difficulty CUT (ts.take DIFFICULTY_WINDOW_V2) (cds.take DIFFICULTY_WINDOW_V2) T := by
  by_cases hbig : ts.length > DIFFICULTY_WINDOW_V2
  · have h1 : ¬ (ts.take DIFFICULTY_WINDOW_V2).length > DIFFICULTY_WINDOW_V2 := by
      simp [List.length_take]
    have e1 : next_difficulty CUT ts cds T
        = next_difficulty CUT (resize ts DIFFICULTY_WINDOW_V2) (resize cds DIFFICULTY_WINDOW_V2) T := by
      have h2 : ¬ (resize ts DIFFICULTY_WINDOW_V2).length > DIFFICULTY_WINDOW_V2 := by
        rw [resize_of_le _ _ (le_of_lt hbig)]; exact h1
      conv_lhs => unfold next_difficulty
      conv_rhs => unfold next_difficulty
      have d1 : decide (ts.length > DIFFICULTY_WINDOW_V2) = true := decide_eq_true hbig
      have d2 : decide ((resize ts DIFFICULTY_WINDOW_V2).length > DIFFICULTY_WINDOW_V2) = false :=
        decide_eq_false h2
      simp only [d1, d2, if_true, Bool.false_eq_true, if_false]
    rw [e1, resize_of_le _ _ (le_of_lt hbig), resize_of_le _ _ (by omega)]
  · rw [List.take_of_length_le (by omega), List.take_of_length_le (by omega)]

/-- The value `next_difficulty` computes on a window of at least two and at most
`DIFFICULTY_WINDOW_V2` samples, with `s` the ascending rearrangement of the timestamps. -/
theorem next_difficulty_window (CUT : Nat) (ts cds : List Nat) (T : Nat)
    (hcut : 2 * CUT ≤ DIFFICULTY_WINDOW_V2 - 2) (hlen : ts.length = cds.length)
    (h2 : 2 ≤ ts.length) (hW : ts.length ≤ DIFFICULTY_WINDOW_V2)
    (hts : ∀ t ∈ ts, t < 2 ^ 64) (hT : T < 2 ^ 64)
    (s : List Nat) (hp : s.Perm ts) (hs : s.Sorted (· ≤ ·))
    (b e span work : Nat) (hb : b = cut_begin CUT ts.length) (he : e = cut_end CUT ts.length)
    (hspan : span = max 1 (s.getD (e - 1) 0 - s.getD b 0))
    (hwork : work = (cds.getD (e - 1) 0 + 2 ^ 128 - cds.getD b 0) % 2 ^ 128) :
    next_difficulty CUT ts cds T
      = if work = 0 then none
        else if 2 ^ 128 - 1 < (work * T + span - 1) / span then some 0
        else some ((work * T + span - 1) / span) := by
  have hsort := sort_unique ts s hp hs
  have hcb := cut_bounds CUT ts.length hcut h2 hW
  rw [← hb, ← he] at hcb
  have hslen : s.length = ts.length := hp.length_eq
  have hsb : ∀ i, s.getD i 0 < 2 ^ 64 :=
    getD_lt_of_forall s _ (by norm_num) (fun x hx => hts x (hp.mem_iff.mp hx))
  have hle := sorted_getD_le s hs b (e - 1) (by omega) (by omega)
  have h1 := hsb b
  have h2' := hsb (e - 1)
  have hspan' : (if (s.getD (e - 1) 0 + 2 ^ 64 - s.getD b 0) % 2 ^ 64 = 0 then 1
      else (s.getD (e - 1) 0 + 2 ^ 64 - s.getD b 0) % 2 ^ 64) = span := by
    rw [hspan]; split_ifs <;> omega
  have hspos : 1 ≤ span := by rw [hspan]; exact le_max_left _ _
  have hslt : span < 2 ^ 64 := by rw [hspan]; omega
  have hwlt : work ≤ 2 ^ 128 - 1 := by rw [hwork]; omega
  have hmul := Nat.mul_le_mul hwlt (show T ≤ 2 ^ 64 - 1 by omega)
  have hnw : (work * T + span - 1) % 2 ^ 256 = work * T + span - 1 := by
    apply Nat.mod_eq_of_lt
    generalize work * T = p at *
    norm_num at hmul
    omega
  unfold next_difficulty
  have hnb : decide (ts.length > DIFFICULTY_WINDOW_V2) = false := by
    rw [decide_eq_false_iff_not]; omega
  simp only [hnb, Bool.false_eq_true, if_false, ne_eq, difficulty_type_modulus]
  rw [hsort, ← hb, ← he, hspan', ← hwork, hnw]
  have hn1 : ¬ ts.length ≤ 1 := by omega
  simp only [hn1, if_false, hW, not_true_eq_false, hcb, and_self, max128bit]
  by_cases hw0 : work = 0
  · simp [hw0]
  · have hwpos : work > 0 := Nat.pos_of_ne_zero hw0
    simp only [hwpos, not_true_eq_false, if_false, hw0, gt_iff_lt]
    split_ifs with hq
    · rfl
    · congr 1
      apply Nat.mod_eq_of_lt
      omega

theorem range_map_take (f : Nat → Nat) (n k : Nat) :
    ((List.range n).map f).take k = (List.range (min k n)).map f := by
  rw [← List.map_take, List.take_range]

theorem range_map_getD (f : Nat → Nat) (n i : Nat) (hi : i < n) :
    ((List.range n).map f).getD i 0 = f i := by
  rw [List.getD_eq_getElem _ _ (by simpa using hi)]
  simp

theorem range_map_sorted (t0 T n : Nat) :
    ((List.range n).map (fun i => t0 + i * T)).Sorted (· ≤ ·) := by
  have hmono : ∀ a b : Nat, a ≤ b → t0 + a * T ≤ t0 + b * T := fun a b hab =>
    Nat.add_le_add_left (Nat.mul_le_mul_right T hab) t0
  have hr : (List.range n).Sorted (· ≤ ·) := (List.sorted_lt_range n).le_of_lt
  exact List.Pairwise.map _ (fun a b hab => hmono a b hab) hr

/-! ## Claims on difficulty.cpp -/

/-- C1: for a hash of four 64-bit words, read as the little-endian integer `H`, and a 64-bit
difficulty `D`, `check_hash` accepts exactly when `H * D` fits in 256 bits. -/
theorem check_hash_true_iff_product_fits (h : hash) (D : Nat) (hh : h.wf) (hD : D < 2 ^ 64) :
    check_hash h D = true ↔ h.value * D ≤ 2 ^ 256 - 1 :=
  check_hash_spec h D hh hD

theorem check_hash_true_iff_product_fits_witness :
    (hash.mk 7 (2 ^ 64 - 1) 3 (2 ^ 60)).wf ∧ 16 < 2 ^ 64 ∧
      (check_hash (hash.mk 7 (2 ^ 64 - 1) 3 (2 ^ 60)) 16 = true
        ↔ (hash.mk 7 (2 ^ 64 - 1) 3 (2 ^ 60)).value * 16 ≤ 2 ^ 256 - 1) :=
  ⟨by decide, by decide,
    check_hash_true_iff_product_fits (hash.mk 7 (2 ^ 64 - 1) 3 (2 ^ 60)) 16 (by decide)
      (by decide)⟩

/-- C6, as stated, fails where the two cumulative difficulties of the trim range are equal:
with timestamps `[0, 1]` and cumulative difficulties `[5, 5]` the sorted timestamps are
`[0, 1]`, the range is `[0, 2)`, the span is `1`, the work is `0` and the rounded quotient `0`
fits in 128 bits, but `assert(total_work > 0)` fails and no value is returned. -/
theorem next_difficulty_zero_work_counterexample :
    2 * 10 ≤ DIFFICULTY_WINDOW_V2 - 2 ∧
    [0, 1].length = [5, 5].length ∧ 2 ≤ [0, 1].length ∧ [0, 1].length ≤ DIFFICULTY_WINDOW_V2 ∧
      [0, 1].Perm [0, 1] ∧ [0, 1].Sorted (· ≤ ·) ∧
      cut_begin 10 2 = 0 ∧ cut_end 10 2 = 2 ∧
      ⌈(((5 - 5) * 120 : ℕ) : ℚ) / ((max 1 (1 - 0) : ℕ) : ℚ)⌉₊ ≤ 2 ^ 128 - 1 ∧
      next_difficulty 10 [0, 1] [5, 5] 120 = none ∧
      next_difficulty 10 [0, 1] [5, 5] 120
        ≠ some ⌈(((5 - 5) * 120 : ℕ) : ℚ) / ((max 1 (1 - 0) : ℕ) : ℚ)⌉₊ := by
  refine ⟨by decide, rfl, by decide, by decide, List.Perm.refl _, by decide, by decide,
    by decide, ?_, by decide, ?_⟩
  · simp
  · have h : next_difficulty 10 [0, 1] [5, 5] 120 = none := by decide
    rw [h]; simp

/-- C6 (amended): for equally long inputs with `2 <= n <= DIFFICULTY_WINDOW_V2` samples, `s` the
timestamps sorted ascending, `[b, e)` the trim range, `span = max 1 (s[e-1] - s[b])` and
`work = cumulative_difficulties[e-1] - cumulative_difficulties[b]` in unsigned 128-bit
arithmetic at the original positions: if `work > 0` and the quotient `work * target_seconds /
span` rounded up is at most `2 ^ 128 - 1`, then `next_difficulty` returns exactly that value. -/
theorem next_difficulty_eq_ceil (CUT : Nat) (ts cds : List Nat) (T : Nat)
    (hcut : 2 * CUT ≤ DIFFICULTY_WINDOW_V2 - 2) (hlen : ts.length = cds.length)
    (h2 : 2 ≤ ts.length) (hW : ts.length ≤ DIFFICULTY_WINDOW_V2)
    (hts : ∀ t ∈ ts, t < 2 ^ 64) (_hcds : ∀ d ∈ cds, d < 2 ^ 128) (hT : T < 2 ^ 64)
    (s : List Nat) (hp : s.Perm ts) (hs : s.Sorted (· ≤ ·))
    (b e span work : Nat) (hb : b = cut_begin CUT ts.length) (he : e = cut_end CUT ts.length)
    (hspan : span = max 1 (s.getD (e - 1) 0 - s.getD b 0))
    (hwork : work = (cds.getD (e - 1) 0 + 2 ^ 128 - cds.getD b 0) % 2 ^ 128)
    (hpos : 0 < work)
    (hfit : ⌈((work * T : ℕ) : ℚ) / (span : ℚ)⌉₊ ≤ 2 ^ 128 - 1) :
    next_difficulty CUT ts cds T = some ⌈((work * T : ℕ) : ℚ) / (span : ℚ)⌉₊ := by
  have hspos : 0 < span := by rw [hspan]; exact lt_of_lt_of_le Nat.zero_lt_one (le_max_left _ _)
  rw [ceil_div_eq _ _ hspos] at hfit ⊢
  rw [next_difficulty_window CUT ts cds T hcut hlen h2 hW hts hT s hp hs b e span work hb he
    hspan hwork]
  rw [if_neg (by omega), if_neg (by omega)]

theorem next_difficulty_eq_ceil_witness :
    next_difficulty 10 [240, 0, 120] [5, 10, 15] 120
      = some ⌈((10 * 120 : ℕ) : ℚ) / ((240 : ℕ) : ℚ)⌉₊ :=
  next_difficulty_eq_ceil 10 [240, 0, 120] [5, 10, 15] 120 (by decide) rfl (by decide)
    (by decide) (by decide) (by decide) (by decide) [0, 120, 240] (by decide) (by decide)
    0 3 240 10 (by decide) (by decide) (by decide) (by decide) (by decide)
    (by rw [ceil_div_eq _ _ (by decide)]; decide)

/-- C7: with `n >= 2` timestamps `t0 + i * T` and cumulative difficulties `c0 + i * D`,
`T >= 1`, `D >= 1` and all values representable (timestamps in 64 bits, cumulative
difficulties in 128 bits), `next_difficulty` returns `D`. -/
theorem next_difficulty_steady_state (CUT n t0 c0 T D : Nat)
    (hcut : 2 * CUT ≤ DIFFICULTY_WINDOW_V2 - 2) (hn : 2 ≤ n) (hT : 1 ≤ T) (hD : 1 ≤ D)
    (hts : t0 + (n - 1) * T < 2 ^ 64) (hcs : c0 + (n - 1) * D < 2 ^ 128) :
    next_difficulty CUT ((List.range n).map (fun i => t0 + i * T))
      ((List.range n).map (fun i => c0 + i * D)) T = some D := by
  rw [next_difficulty_take _ _ _ _ (by simp), range_map_take, range_map_take]
  obtain ⟨m, hm⟩ : ∃ m, m = min DIFFICULTY_WINDOW_V2 n := ⟨_, rfl⟩
  rw [← hm]
  have hm2 : 2 ≤ m := by rw [hm]; unfold DIFFICULTY_WINDOW_V2; omega
  have hmW : m ≤ DIFFICULTY_WINDOW_V2 := by rw [hm]; exact min_le_left _ _
  have hmn : m ≤ n := by rw [hm]; exact min_le_right _ _
  have hlm : ((List.range m).map (fun i => t0 + i * T)).length = m := by simp
  have hcb := cut_bounds CUT m hcut hm2 hmW
  obtain ⟨k, hk⟩ : ∃ k, cut_end CUT m - 1 = cut_begin CUT m + k := ⟨_, (Nat.add_sub_cancel' (by omega)).symm⟩
  have hk1 : 1 ≤ k := by omega
  have hkn : cut_begin CUT m + k ≤ n - 1 := by omega
  have hbT : (cut_begin CUT m + k) * T ≤ (n - 1) * T := Nat.mul_le_mul_right T hkn
  have hbD : (cut_begin CUT m + k) * D ≤ (n - 1) * D := Nat.mul_le_mul_right D hkn
  have eT : (cut_begin CUT m + k) * T = cut_begin CUT m * T + k * T := by ring
  have eD : (cut_begin CUT m + k) * D = cut_begin CUT m * D + k * D := by ring
  have hkT : 1 ≤ k * T := Nat.mul_pos hk1 hT
  have hkD : 1 ≤ k * D := Nat.mul_pos hk1 hD
  have hTlt : T < 2 ^ 64 := by
    have : 1 * T ≤ (n - 1) * T := Nat.mul_le_mul_right T (by omega)
    omega
  have hall : ∀ t ∈ (List.range m).map (fun i => t0 + i * T), t < 2 ^ 64 := by
    intro t ht
    rw [List.mem_map] at ht
    obtain ⟨i, hi, rfl⟩ := ht
    rw [List.mem_range] at hi
    have : i * T ≤ (n - 1) * T := Nat.mul_le_mul_right T (by omega)
    omega
  rw [next_difficulty_window CUT _ _ T hcut (by simp) (by omega) (by omega) hall hTlt
    _ (List.Perm.refl _) (range_map_sorted t0 T m)
    (cut_begin CUT m) (cut_end CUT m) (k * T) (k * D) (by rw [hlm]) (by rw [hlm])
    (by
      rw [range_map_getD _ _ _ (by omega), range_map_getD _ _ _ (by omega), hk, eT]
      rw [max_eq_right (by omega)]; omega)
    (by
      rw [range_map_getD _ _ _ (by omega), range_map_getD _ _ _ (by omega), hk, eD]
      omega)]
  have hq : (k * D * T + k * T - 1) / (k * T) = D := by
    have e : k * D * T + k * T - 1 = (k * T - 1) + (k * T) * D := by
      have : k * D * T = k * T * D := by ring
      omega
    rw [e, Nat.add_mul_div_left _ _ (by omega), Nat.div_eq_of_lt (by omega)]
    simp
  have hDlt : D ≤ 2 ^ 128 - 1 := by
    have : 1 * D ≤ (n - 1) * D := Nat.mul_le_mul_right D (by omega)
    omega
  rw [hq, if_neg (Nat.ne_of_gt hkD), if_neg (Nat.not_lt.mpr hDlt)]

theorem next_difficulty_steady_state_witness :
    next_difficulty 10 ((List.range 5).map (fun i => 1000 + i * 120))
      ((List.range 5).map (fun i => 77 + i * 9)) 120 = some 9 :=
  next_difficulty_steady_state 10 5 1000 77 120 9 (by decide) (by decide) (by decide)
    (by decide) (by decide) (by decide)

/-- C8: for equally long inputs with at least two samples, read through their first
`DIFFICULTY_WINDOW_V2` entries, whenever `total_work * target_seconds / time_span` rounded up
exceeds `2 ^ 128 - 1`, `next_difficulty` returns 0. -/
theorem next_difficulty_overflow_returns_zero (CUT : Nat) (ts cds : List Nat) (T : Nat)
    (hcut : 2 * CUT ≤ DIFFICULTY_WINDOW_V2 - 2) (hlen : ts.length = cds.length)
    (h2 : 2 ≤ ts.length) (hts : ∀ t ∈ ts, t < 2 ^ 64) (_hcds : ∀ d ∈ cds, d < 2 ^ 128)
    (hT : T < 2 ^ 64) (tw cw : List Nat) (htw : tw = ts.take DIFFICULTY_WINDOW_V2)
    (hcw : cw = cds.take DIFFICULTY_WINDOW_V2)
    (s : List Nat) (hp : s.Perm tw) (hs : s.Sorted (· ≤ ·))
    (b e time_span total_work : Nat)
    (hb : b = cut_begin CUT tw.length) (he : e = cut_end CUT tw.length)
    (hspan : time_span = max 1 (s.getD (e - 1) 0 - s.getD b 0))
    (hwork : total_work = (cw.getD (e - 1) 0 + 2 ^ 128 - cw.getD b 0) % 2 ^ 128)
    (hbig : 2 ^ 128 - 1 < ⌈((total_work * T : ℕ) : ℚ) / (time_span : ℚ)⌉₊) :
    next_difficulty CUT ts cds T = some 0 := by
  have hspos : 0 < time_span := by
    rw [hspan]; exact lt_of_lt_of_le Nat.zero_lt_one (le_max_left _ _)
  rw [ceil_div_eq _ _ hspos] at hbig
  have hl : tw.length = cw.length := by
    rw [htw, hcw, List.length_take, List.length_take, hlen]
  have hl2 : 2 ≤ tw.length := by
    rw [htw, List.length_take]; unfold DIFFICULTY_WINDOW_V2; omega
  have hlW : tw.length ≤ DIFFICULTY_WINDOW_V2 := by
    rw [htw, List.length_take]; exact min_le_left _ _
  have hall : ∀ t ∈ tw, t < 2 ^ 64 := fun t ht =>
    hts t (List.mem_of_mem_take (by rw [← htw]; exact ht))
  rw [next_difficulty_take CUT ts cds T hlen, ← htw, ← hcw,
    next_difficulty_window CUT tw cw T hcut hl hl2 hlW hall hT s hp hs b e time_span total_work
      hb he hspan hwork]
  have hw0 : total_work ≠ 0 := by
    rintro rfl
    rw [Nat.zero_mul, Nat.zero_add, Nat.div_eq_of_lt (by omega)] at hbig
    omega
  rw [if_neg hw0, if_pos hbig]

theorem next_difficulty_overflow_returns_zero_witness :
    next_difficulty 10 [0, 1] [0, 2 ^ 128 - 1] 120 = some 0 :=
  next_difficulty_overflow_returns_zero 10 [0, 1] [0, 2 ^ 128 - 1] 120 (by decide) rfl
    (by decide) (by decide) (by decide) (by decide) [0, 1] [0, 2 ^ 128 - 1] rfl rfl [0, 1] (by decide)
    (by decide) 0 2 1 (2 ^ 128 - 1) (by decide) (by decide) (by decide) (by decide)
    (by rw [ceil_div_eq _ _ (by decide)]; decide)

/-- C9, as stated, fails for a window between the two sizes: with `DIFFICULTY_CUT = 10` (the
static assertion `2 * 10 <= 60 - 2` holds) and `L = 50` samples, `L` is not smaller than
`W - 2 * CUT = 40`, yet the range is `[5, 45)` and not `[10, 40)`; and at `L = 40`, which is not
smaller than `W - 2 * CUT` either, nothing is trimmed. -/
theorem cut_range_counterexample :
    2 * 10 ≤ DIFFICULTY_WINDOW_V2 - 2 ∧ 2 ≤ 50 ∧ 50 ≤ DIFFICULTY_WINDOW_V2 ∧
      ¬ 50 < DIFFICULTY_WINDOW_V2 - 2 * 10 ∧
      cut_begin 10 50 = 5 ∧ cut_end 10 50 = 45 ∧
      ¬ (cut_begin 10 50 = 10 ∧ cut_end 10 50 = 50 - 10) ∧
      ¬ 40 < DIFFICULTY_WINDOW_V2 - 2 * 10 ∧ cut_begin 10 40 = 0 ∧ cut_end 10 40 = 40 := by
  decide

/-- C9 (amended): for a window of `L` samples, `2 <= L <= W = DIFFICULTY_WINDOW_V2`: if
`L <= W - 2 * CUT` no trim is applied (range `[0, L)`); otherwise the range keeps exactly
`W - 2 * CUT` samples, dropping half of the `L - (W - 2 * CUT)` surplus samples, rounded up,
at the start and the other half, rounded down, at the end; for `L = W` this is `CUT` samples
at each end. -/
theorem cut_range_spec (CUT L : Nat) (hcut : 2 * CUT ≤ DIFFICULTY_WINDOW_V2 - 2) (h2 : 2 ≤ L)
    (hW : L ≤ DIFFICULTY_WINDOW_V2) :
    (L ≤ DIFFICULTY_WINDOW_V2 - 2 * CUT → cut_begin CUT L = 0 ∧ cut_end CUT L = L) ∧
    (DIFFICULTY_WINDOW_V2 - 2 * CUT < L →
      cut_end CUT L - cut_begin CUT L = DIFFICULTY_WINDOW_V2 - 2 * CUT ∧
      cut_begin CUT L = (L - (DIFFICULTY_WINDOW_V2 - 2 * CUT) + 1) / 2 ∧
      L - cut_end CUT L = (L - (DIFFICULTY_WINDOW_V2 - 2 * CUT)) / 2) ∧
    (L = DIFFICULTY_WINDOW_V2 → cut_begin CUT L = CUT ∧ cut_end CUT L = L - CUT) := by
  unfold cut_end cut_begin DIFFICULTY_WINDOW_V2 at *
  refine ⟨fun h => ?_, fun h => ?_, fun h => ?_⟩
  · rw [if_pos h, if_pos h]; exact ⟨rfl, rfl⟩
  · rw [if_neg (by omega), if_neg (by omega)]; omega
  · subst h
    split_ifs <;> omega

theorem cut_range_spec_witness :
    (50 ≤ DIFFICULTY_WINDOW_V2 - 2 * 10 → cut_begin 10 50 = 0 ∧ cut_end 10 50 = 50) ∧
    (DIFFICULTY_WINDOW_V2 - 2 * 10 < 50 →
      cut_end 10 50 - cut_begin 10 50 = DIFFICULTY_WINDOW_V2 - 2 * 10 ∧
      cut_begin 10 50 = (50 - (DIFFICULTY_WINDOW_V2 - 2 * 10) + 1) / 2 ∧
      50 - cut_end 10 50 = (50 - (DIFFICULTY_WINDOW_V2 - 2 * 10)) / 2) ∧
    (50 = DIFFICULTY_WINDOW_V2 → cut_begin 10 50 = 10 ∧ cut_end 10 50 = 50 - 10) :=
  cut_range_spec 10 50 (by decide) (by decide) (by decide)

/-- C10: for zero or one timestamp, cumulative difficulties of the same length and any
`target_seconds`, `next_difficulty` returns 1. -/
theorem next_difficulty_bootstrap (CUT : Nat) (ts cds : List Nat) (T : Nat)
    (hlen : ts.length = cds.length) (h1 : ts.length ≤ 1) :
    next_difficulty CUT ts cds T = some 1 := by
  unfold next_difficulty
  have hnb : decide (ts.length > DIFFICULTY_WINDOW_V2) = false := by
    rw [decide_eq_false_iff_not]; unfold DIFFICULTY_WINDOW_V2; omega
  simp only [hnb, Bool.false_eq_true, if_false, ne_eq]
  rw [if_neg (by simpa using hlen), if_pos h1]

theorem next_difficulty_bootstrap_witness :
    next_difficulty 10 [1700000000] [42] 120 = some 1 :=
  next_difficulty_bootstrap 10 [1700000000] [42] 120 rfl (by decide)

/-! ## Checkpoint ledger : helper lemmas -/

namespace checkpoints

/-- What the fault-free store answers to `get_checkpoints_range(0, T, 1)`: a list that is empty
exactly when every stored checkpoint lies above `T`, and whose entries lie at or below `T`. -/
theorem range_from_zero (F : db_op → Bool) (hF : F db_op.get_checkpoints_range = false)
    (db : BlockchainDB) (T : Nat) :
    ∃ L, db_get_checkpoints_range F db 0 T 1 = .ok L ∧
      (L = [] ↔ ∀ cp ∈ db.block_checkpoints, T < cp.height) ∧
      (∀ cp ∈ L, cp.height ≤ T) := by
  obtain ⟨R, hR⟩ : ∃ R, R = (db.block_checkpoints.filter (fun c =>
      decide (min 0 T ≤ c.height ∧ c.height ≤ max 0 T))).insertionSort
        (fun a b => a.height ≤ b.height) := ⟨_, rfl⟩
  have hmem : ∀ cp, cp ∈ R ↔ cp ∈ db.block_checkpoints ∧ cp.height ≤ T := by
    intro cp
    rw [hR, (List.perm_insertionSort _ _).mem_iff, List.mem_filter]
    simp
  refine ⟨R.take 1, ?_, ?_, ?_⟩
  · simp only [db_get_checkpoints_range, hF, Bool.false_eq_true, if_false,
      Nat.zero_le, if_true, ← hR]
  · constructor
    · intro h cp hcp
      by_contra hlt
      have hin : cp ∈ R := (hmem cp).mpr ⟨hcp, by omega⟩
      cases R with
      | nil => cases hin
      | cons a t => simp at h
    · intro h
      cases R with
      | nil => rfl
      | cons a t =>
        have := (hmem a).mp (List.mem_cons_self a t)
        have := h a this.1
        omega
  · intro cp hcp
    exact ((hmem cp).mp (List.mem_of_mem_take hcp)).2

/-- The effect of `update_checkpoint` on a store without faults. -/
theorem update_checkpoint_no_faults (s : checkpoints) (c : checkpoint_t) :
    update_checkpoint no_faults s c
      = (.ok true, checkpoints.mk
          (BlockchainDB.mk
            (c :: s.m_db.block_checkpoints.filter (fun x => decide (x.height ≠ c.height)))
            s.m_db.batch_active s.m_db.read_only)
          s.m_nettype s.m_last_cull_height s.m_immutable_height) := by
  unfold update_checkpoint db_batch_start db_update_block_checkpoint db_batch_stop no_faults
  cases hb : s.m_db.batch_active <;> simp [hb]

theorem get_checkpoint_no_faults (s : checkpoints) (height : Nat) :
    get_checkpoint no_faults s height
      = s.m_db.block_checkpoints.find? (fun c => decide (c.height = height)) := by
  simp [get_checkpoint, db_txn_guard, db_get_block_checkpoint, no_faults]

theorem update_checkpoint_immutable_height (F : db_op → Bool) (s : checkpoints)
    (c : checkpoint_t) :
    (update_checkpoint F s c).2.m_immutable_height = s.m_immutable_height := by
  unfold update_checkpoint
  rcases db_batch_start F s.m_db with e | ⟨started, db1⟩
  · rfl
  · dsimp only
    rcases db_update_block_checkpoint F db1 c with e | db2 <;> cases started <;>
      simp only [Bool.false_eq_true, if_false, if_true] <;> try rfl
    all_goals (split <;> rfl)

theorem add_checkpoint_immutable_height (F : db_op → Bool) (s : checkpoints) (height : Nat)
    (hash_str difficulty_str : String) :
    (add_checkpoint F s height hash_str difficulty_str).2.m_immutable_height
      = s.m_immutable_height := by
  unfold add_checkpoint
  split
  · rfl
  · split
    · split <;> rfl
    · exact update_checkpoint_immutable_height F s _

theorem block_added_immutable_height (F : db_op → Bool)
    (immutable : List checkpoint_t → Nat → Option checkpoint_t) (sn : service_nodes)
    (s : checkpoints) (blk : block) (checkpoint : Option checkpoint_t)
    (r : Except db_exception Bool × checkpoints)
    (h : block_added F immutable sn s blk checkpoint = some r) :
    r.2.m_immutable_height = s.m_immutable_height := by
  unfold block_added at h
  dsimp only at h
  split at h
  · cases h; rfl
  · split at h
    · cases h; rfl
    · split at h
      · cases h; rfl
      · split at h
        · cases h
        · split at h
          · cases h; rfl
          · split at h <;> rename_i heq <;> cases h <;>
              exact (congrArg (fun p => p.2.m_immutable_height) heq).symm.trans
                (update_checkpoint_immutable_height F _ _)

theorem blockchain_detached_immutable_height (F : db_op → Bool) (sn : service_nodes)
    (s : checkpoints) (height : Nat) (r : Except db_exception Unit × checkpoints)
    (h : blockchain_detached F sn s height = some r) :
    r.2.m_immutable_height = s.m_immutable_height := by
  unfold blockchain_detached at h
  dsimp only at h
  split at h
  · cases h; rfl
  · split at h
    · cases h; rfl
    · cases h; rfl
    · split at h
      · cases h
      · cases h; rfl

theorem is_alternative_block_allowed_immutable_height (F : db_op → Bool)
    (immutable : List checkpoint_t → Nat → Option checkpoint_t) (s : checkpoints)
    (blockchain_height block_height : Nat) :
    s.m_immutable_height
      ≤ (is_alternative_block_allowed F immutable s blockchain_height
          block_height).2.m_immutable_height := by
  unfold is_alternative_block_allowed
  split
  · exact le_refl _
  · split
    · exact le_refl _
    · split
      · exact le_refl _
      · split
        · exact le_refl _
        · exact le_max_right _ _

end checkpoints

theorem state_after_immutable_height (F : db_op → Bool)
    (immutable : List checkpoint_t → Nat → Option checkpoint_t) (sn : service_nodes)
    (s s1 : checkpoints) (call : ledger_call)
    (h : call.state_after F immutable sn s = some s1) :
    s.m_immutable_height ≤ s1.m_immutable_height := by
  cases call with
  | get_checkpoint height => cases h; exact le_refl _
  | add_checkpoint height hash_str difficulty_str =>
    cases h; exact le_of_eq (checkpoints.add_checkpoint_immutable_height F s _ _ _).symm
  | update_checkpoint checkpoint =>
    cases h; exact le_of_eq (checkpoints.update_checkpoint_immutable_height F s _).symm
  | block_added blk checkpoint =>
    simp only [ledger_call.state_after, Option.map_eq_some'] at h
    obtain ⟨r, hr, rfl⟩ := h
    exact le_of_eq (checkpoints.block_added_immutable_height F immutable sn s _ _ r hr).symm
  | blockchain_detached height =>
    simp only [ledger_call.state_after, Option.map_eq_some'] at h
    obtain ⟨r, hr, rfl⟩ := h
    exact le_of_eq (checkpoints.blockchain_detached_immutable_height F sn s _ r hr).symm
  | is_in_checkpoint_zone height => cases h; exact le_refl _
  | check_block height x => cases h; exact le_refl _
  | is_alternative_block_allowed blockchain_height block_height =>
    cases h
    exact checkpoints.is_alternative_block_allowed_immutable_height F immutable s _ _
  | get_max_height => cases h; exact le_refl _

theorem run_calls_immutable_height (F : db_op → Bool)
    (immutable : List checkpoint_t → Nat → Option checkpoint_t) (sn : service_nodes)
    (calls : List ledger_call) :
    ∀ s s1 : checkpoints, run_calls F immutable sn calls s = some s1 →
      s.m_immutable_height ≤ s1.m_immutable_height := by
  induction calls with
  | nil => intro s s1 h; cases h; exact le_refl _
  | cons call rest ih =>
    intro s s1 h
    unfold run_calls at h
    split at h
    · cases h
    · rename_i s2 hs2
      exact le_trans (state_after_immutable_height F immutable sn s s2 call hs2) (ih s2 s1 h)

/-- The value and the state of `is_alternative_block_allowed` when the two lookups do not
throw, for a candidate height other than 0 and a store holding a checkpoint at or below the
current top height. -/
theorem is_alternative_block_allowed_checked (F : db_op → Bool)
    (hF1 : F db_op.get_checkpoints_range = false)
    (hF2 : F db_op.get_immutable_checkpoint = false)
    (immutable : List checkpoint_t → Nat → Option checkpoint_t) (s : checkpoints) (T c : Nat)
    (hc : c ≠ 0) (hstore : ∃ cp ∈ s.m_db.block_checkpoints, cp.height ≤ T) :
    checkpoints.is_alternative_block_allowed F immutable s T c
      = (.ok (decide (c > max (((immutable s.m_db.block_checkpoints T).map
            checkpoint_t.height).getD 0) s.m_immutable_height),
          ((immutable s.m_db.block_checkpoints T).map
            (fun cp => decide (cp.type = checkpoint_type.service_node))).getD false),
          { s with m_immutable_height := max (((immutable s.m_db.block_checkpoints T).map
            checkpoint_t.height).getD 0) s.m_immutable_height }) := by
  obtain ⟨L, hL, hempty, hle⟩ := checkpoints.range_from_zero F hF1 s.m_db T
  unfold checkpoints.is_alternative_block_allowed
  rw [if_neg (fun h => hc h.symm), hL]
  dsimp only
  have hne : L ≠ [] := by
    intro h
    obtain ⟨cp, hcp, hh⟩ := hstore
    have := (hempty.mp h) cp hcp
    omega
  have hguard : ¬ (L.isEmpty = true ∨ T < (L.headD checkpoint_t.zero).height) := by
    cases L with
    | nil => exact absurd rfl hne
    | cons a t =>
      have := hle a (List.mem_cons_self a t)
      simp only [List.isEmpty_cons, Bool.false_eq_true, List.headD_cons, false_or]
      omega
  rw [if_neg hguard]
  simp only [db_get_immutable_checkpoint, hF2, Bool.false_eq_true, if_false]
  cases immutable s.m_db.block_checkpoints T with
  | none => rfl
  | some cp => rfl

/-! ## Claims on checkpoints.cpp -/

/-- C2, as stated, fails when the later call passes a top height below every checkpoint: on a
store holding one hardcoded checkpoint at height 100, `is_alternative_block_allowed(200, 150)`
establishes the immutable height 100, and the later call `is_alternative_block_allowed(50, 60)`
with candidate height `60 <= 100` returns true. -/
theorem reorg_safety_counterexample :
    (checkpoints.is_alternative_block_allowed no_faults highest_checkpoint_at_or_below
      (checkpoints.mk
        (BlockchainDB.mk [checkpoint_t.mk checkpoint_type.hardcoded 100 null_hash []] false false)
        network_type.MAINNET 0 0) 200 150).2.m_immutable_height = 100 ∧
    60 ≤ 100 ∧
    (checkpoints.is_alternative_block_allowed no_faults highest_checkpoint_at_or_below
      (checkpoints.is_alternative_block_allowed no_faults highest_checkpoint_at_or_below
        (checkpoints.mk
          (BlockchainDB.mk [checkpoint_t.mk checkpoint_type.hardcoded 100 null_hash []] false
            false)
          network_type.MAINNET 0 0) 200 150).2 50 60).1 = .ok (true, false) :=
  ⟨by decide, by decide, rfl⟩

/-- C2 (amended): along every sequence of ledger calls without an intervening `init`, starting
in a state whose immutable height is at least `c`, a later call of
`is_alternative_block_allowed` with candidate height `c` returns false whenever `c = 0` or the
store then holds a checkpoint at or below the current top height passed, and it returns true
under no store-fault pattern. -/
theorem reorg_safety (F : db_op → Bool)
    (immutable : List checkpoint_t → Nat → Option checkpoint_t) (sn : service_nodes)
    (s0 s1 : checkpoints) (calls : List ledger_call) (T c : Nat)
    (hrun : run_calls F immutable sn calls s0 = some s1)
    (hc : c ≤ s0.m_immutable_height)
    (hstore : c = 0 ∨ ∃ cp ∈ s1.m_db.block_checkpoints, cp.height ≤ T) :
    (∃ b, (checkpoints.is_alternative_block_allowed no_faults immutable s1 T c).1
        = .ok (false, b)) ∧
    (∀ b, (checkpoints.is_alternative_block_allowed F immutable s1 T c).1 ≠ .ok (true, b)) := by
  have hmono := run_calls_immutable_height F immutable sn calls s0 s1 hrun
  by_cases hc0 : c = 0
  · subst hc0
    constructor
    · exact ⟨false, by simp [checkpoints.is_alternative_block_allowed]⟩
    · intro b; simp [checkpoints.is_alternative_block_allowed]
  · have hst : ∃ cp ∈ s1.m_db.block_checkpoints, cp.height ≤ T := by
      rcases hstore with h | h
      · exact absurd h hc0
      · exact h
    have hfalse : decide (c > max (((immutable s1.m_db.block_checkpoints T).map
        checkpoint_t.height).getD 0) s1.m_immutable_height) = false := by
      rw [decide_eq_false_iff_not]
      have := le_max_right (((immutable s1.m_db.block_checkpoints T).map
        checkpoint_t.height).getD 0) s1.m_immutable_height
      omega
    constructor
    · rw [is_alternative_block_allowed_checked no_faults rfl rfl immutable s1 T c hc0 hst,
        hfalse]
      exact ⟨_, rfl⟩
    · intro b
      by_cases h1 : F db_op.get_checkpoints_range = false
      · by_cases h2 : F db_op.get_immutable_checkpoint = false
        · rw [is_alternative_block_allowed_checked F h1 h2 immutable s1 T c hc0 hst, hfalse]
          simp
        · obtain ⟨L, hL, hempty, hle⟩ := checkpoints.range_from_zero F h1 s1.m_db T
          unfold checkpoints.is_alternative_block_allowed
          rw [if_neg (fun h => hc0 h.symm), hL]
          dsimp only
          have hguard : ¬ (L.isEmpty = true ∨ T < (L.headD checkpoint_t.zero).height) := by
            cases L with
            | nil =>
              obtain ⟨cp, hcp, hh⟩ := hst
              have := (hempty.mp rfl) cp hcp
              omega
            | cons a t =>
              have := hle a (List.mem_cons_self a t)
              simp only [List.isEmpty_cons, Bool.false_eq_true, List.headD_cons, false_or]
              omega
          rw [if_neg hguard]
          simp only [Bool.not_eq_false] at h2
          simp [db_get_immutable_checkpoint, h2]
      · simp only [Bool.not_eq_false] at h1
        unfold checkpoints.is_alternative_block_allowed
        rw [if_neg (fun h => hc0 h.symm)]
        simp [db_get_checkpoints_range, h1]

theorem reorg_safety_witness :
    (∃ b, (checkpoints.is_alternative_block_allowed no_faults highest_checkpoint_at_or_below
        (checkpoints.mk
          (BlockchainDB.mk [checkpoint_t.mk checkpoint_type.hardcoded 200 null_hash [],
            checkpoint_t.mk checkpoint_type.hardcoded 100 null_hash []] false false)
          network_type.MAINNET 0 200) 300 150).1 = .ok (false, b)) ∧
    (∀ b, (checkpoints.is_alternative_block_allowed no_faults highest_checkpoint_at_or_below
        (checkpoints.mk
          (BlockchainDB.mk [checkpoint_t.mk checkpoint_type.hardcoded 200 null_hash [],
            checkpoint_t.mk checkpoint_type.hardcoded 100 null_hash []] false false)
          network_type.MAINNET 0 200) 300 150).1 ≠ .ok (true, b)) :=
  reorg_safety no_faults highest_checkpoint_at_or_below (service_nodes.mk 4 60)
    (checkpoints.mk
      (BlockchainDB.mk [checkpoint_t.mk checkpoint_type.hardcoded 100 null_hash []] false false)
      network_type.MAINNET 0 150)
    (checkpoints.mk
      (BlockchainDB.mk [checkpoint_t.mk checkpoint_type.hardcoded 200 null_hash [],
        checkpoint_t.mk checkpoint_type.hardcoded 100 null_hash []] false false)
      network_type.MAINNET 0 200)
    [ledger_call.update_checkpoint (checkpoint_t.mk checkpoint_type.hardcoded 200 null_hash []),
      ledger_call.is_in_checkpoint_zone 7,
      ledger_call.is_alternative_block_allowed 300 250]
    300 150 rfl (by decide)
    (Or.inr ⟨checkpoint_t.mk checkpoint_type.hardcoded 100 null_hash [], by decide, by decide⟩)

/-- C3: on a store without faults, for every ledger state, current top height `T` and candidate
height `c`, `is_alternative_block_allowed(T, c)` returns false if `c = 0`; otherwise true if the
store has no checkpoint at or below `T`; otherwise whether `c` exceeds the maximum of
`m_immutable_height` before the call and the height of the immutable checkpoint the store
reports for `T` (0 if none), and after the call `m_immutable_height` is that maximum. -/
theorem is_alternative_block_allowed_spec
    (immutable : List checkpoint_t → Nat → Option checkpoint_t) (s : checkpoints) (T c : Nat) :
    (c = 0 →
      checkpoints.is_alternative_block_allowed no_faults immutable s T c
        = (.ok (false, false), s)) ∧
    (c ≠ 0 → (∀ cp ∈ s.m_db.block_checkpoints, T < cp.height) →
      checkpoints.is_alternative_block_allowed no_faults immutable s T c
        = (.ok (true, false), s)) ∧
    (c ≠ 0 → (∃ cp ∈ s.m_db.block_checkpoints, cp.height ≤ T) →
      (checkpoints.is_alternative_block_allowed no_faults immutable s T c).1
        = .ok (decide (c > max (((immutable s.m_db.block_checkpoints T).map
            checkpoint_t.height).getD 0) s.m_immutable_height),
          ((immutable s.m_db.block_checkpoints T).map
            (fun cp => decide (cp.type = checkpoint_type.service_node))).getD false) ∧
      (checkpoints.is_alternative_block_allowed no_faults immutable s T c).2
        = { s with m_immutable_height := max (((immutable s.m_db.block_checkpoints T).map
            checkpoint_t.height).getD 0) s.m_immutable_height }) := by
  refine ⟨fun h => ?_, fun hc hnone => ?_, fun hc hsome => ?_⟩
  · subst h
    simp [checkpoints.is_alternative_block_allowed]
  · obtain ⟨L, hL, hempty, -⟩ := checkpoints.range_from_zero no_faults rfl s.m_db T
    have hnil : L = [] := hempty.mpr hnone
    subst hnil
    unfold checkpoints.is_alternative_block_allowed
    rw [if_neg (fun h => hc h.symm), hL]
    simp
  · rw [is_alternative_block_allowed_checked no_faults rfl rfl immutable s T c hc hsome]
    exact ⟨rfl, rfl⟩

theorem is_alternative_block_allowed_spec_witness :
    checkpoints.is_alternative_block_allowed no_faults highest_checkpoint_at_or_below
        (checkpoints.mk
          (BlockchainDB.mk [checkpoint_t.mk checkpoint_type.service_node 100 null_hash [9]]
            false false)
          network_type.MAINNET 0 40) 50 60
      = (.ok (true, false),
        checkpoints.mk
          (BlockchainDB.mk [checkpoint_t.mk checkpoint_type.service_node 100 null_hash [9]]
            false false)
          network_type.MAINNET 0 40) ∧
    (checkpoints.is_alternative_block_allowed no_faults highest_checkpoint_at_or_below
        (checkpoints.mk
          (BlockchainDB.mk [checkpoint_t.mk checkpoint_type.service_node 100 null_hash [9]]
            false false)
          network_type.MAINNET 0 40) 120 101).1 = .ok (true, true) :=
  ⟨(is_alternative_block_allowed_spec highest_checkpoint_at_or_below
      (checkpoints.mk
        (BlockchainDB.mk [checkpoint_t.mk checkpoint_type.service_node 100 null_hash [9]]
          false false)
        network_type.MAINNET 0 40) 50 60).2.1 (by decide) (by decide),
    ((is_alternative_block_allowed_spec highest_checkpoint_at_or_below
      (checkpoints.mk
        (BlockchainDB.mk [checkpoint_t.mk checkpoint_type.service_node 100 null_hash [9]]
          false false)
        network_type.MAINNET 0 40) 120 101).2.2 (by decide)
      ⟨checkpoint_t.mk checkpoint_type.service_node 100 null_hash [9], by decide,
        by decide⟩).1⟩

/-- C5, as stated, fails: on a store holding a checkpoint at height 100 with the null hash,
`update_checkpoint` of a record of height 100 with another hash returns true, and
`get_checkpoint(100)` afterwards returns the new record. -/
theorem update_checkpoint_overwrites_counterexample :
    checkpoints.get_checkpoint no_faults
        (checkpoints.mk
          (BlockchainDB.mk [checkpoint_t.mk checkpoint_type.hardcoded 100 null_hash []] false false)
          network_type.MAINNET 0 0) 100
      = some (checkpoint_t.mk checkpoint_type.hardcoded 100 null_hash []) ∧
    hash.mk 1 0 0 0 ≠ null_hash ∧
    (checkpoints.update_checkpoint no_faults
        (checkpoints.mk
          (BlockchainDB.mk [checkpoint_t.mk checkpoint_type.hardcoded 100 null_hash []] false false)
          network_type.MAINNET 0 0)
        (checkpoint_t.mk checkpoint_type.service_node 100 (hash.mk 1 0 0 0) [])).1 = .ok true ∧
    checkpoints.get_checkpoint no_faults
        (checkpoints.update_checkpoint no_faults
          (checkpoints.mk
            (BlockchainDB.mk [checkpoint_t.mk checkpoint_type.hardcoded 100 null_hash []] false
              false)
            network_type.MAINNET 0 0)
          (checkpoint_t.mk checkpoint_type.service_node 100 (hash.mk 1 0 0 0) [])).2 100
      = some (checkpoint_t.mk checkpoint_type.service_node 100 (hash.mk 1 0 0 0) []) :=
  ⟨by decide, by decide, rfl, by decide⟩

/-- C5 (amended): `update_checkpoint` assumes the record is valid and compares no hash: on a
store without faults, for every ledger state (in particular one holding a checkpoint at the
same height with another hash) and every record `c`, `update_checkpoint(c)` returns true and
`get_checkpoint(c.height)` afterwards returns `c`. -/
theorem update_checkpoint_stores (s : checkpoints) (c : checkpoint_t) :
    (checkpoints.update_checkpoint no_faults s c).1 = .ok true ∧
    checkpoints.get_checkpoint no_faults (checkpoints.update_checkpoint no_faults s c).2 c.height
      = some c := by
  rw [checkpoints.update_checkpoint_no_faults, checkpoints.get_checkpoint_no_faults]
  refine ⟨rfl, ?_⟩
  simp [List.find?_cons]

/-! ## Second group of claims : helper lemmas -/

/-- Which inputs of at least two and at most `DIFFICULTY_WINDOW_V2` samples make an `assert` of
`next_difficulty` fail: those with no work between the two ends of the trim range. -/
theorem next_difficulty_eq_none_iff (CUT : Nat) (ts cds : List Nat) (T : Nat)
    (hcut : 2 * CUT ≤ DIFFICULTY_WINDOW_V2 - 2) (hlen : ts.length = cds.length)
    (h2 : 2 ≤ ts.length) (hW : ts.length ≤ DIFFICULTY_WINDOW_V2) :
    next_difficulty CUT ts cds T = none ↔
      (cds.getD (cut_end CUT ts.length - 1) 0 + 2 ^ 128
        - cds.getD (cut_begin CUT ts.length) 0) % 2 ^ 128 = 0 := by
  have hcb := cut_bounds CUT ts.length hcut h2 hW
  unfold next_difficulty
  have hnb : decide (ts.length > DIFFICULTY_WINDOW_V2) = false := by
    rw [decide_eq_false_iff_not]; omega
  simp only [hnb, Bool.false_eq_true, if_false, ne_eq, difficulty_type_modulus]
  rw [if_neg (by simpa using hlen), if_neg (by omega), if_neg (by simpa using hW),
    if_neg (by simpa using hcb)]
  constructor
  · intro h
    by_contra hne
    rw [if_neg (not_not.mpr (Nat.pos_of_ne_zero hne))] at h
    split_ifs at h
  · intro h
    rw [if_pos (by rw [h]; exact Nat.lt_irrefl 0)]

theorem hash_value_fold (h : hash) (hh : h.wf) :
    [0, 1, 2, 3].foldl (fun hashVal i => ((hashVal <<< 64) % 2 ^ 512) ||| h.word (3 - i)) 0
      = h.value := by
  obtain ⟨h0, h1, h2, h3⟩ := hh
  have step : ∀ x w : Nat, x < 2 ^ 448 → w < 2 ^ 64 →
      ((x <<< 64) % 2 ^ 512) ||| w = x * 2 ^ 64 + w := by
    intro x w hx hw
    rw [Nat.shiftLeft_eq, Nat.mod_eq_of_lt (by omega), Nat.mul_comm,
      ← Nat.mul_add_lt_is_or hw]
  simp only [List.foldl, hash.word]
  rw [step 0 _ (by norm_num) h3, step _ _ (by omega) h2, step _ _ (by omega) h1,
    step _ _ (by omega) h0]
  unfold hash.value
  omega

theorem check_hash_128_spec (h : hash) (D : Nat) (hh : h.wf) (hD : D < 2 ^ 128) :
    check_hash_128 h D = decide (h.value * D ≤ 2 ^ 256 - 1) := by
  unfold check_hash_128
  rw [hash_value_fold h hh]
  obtain ⟨h0, h1, h2, h3⟩ := hh
  have hv : h.value ≤ 2 ^ 256 - 1 := by unfold hash.value; omega
  have hmul := Nat.mul_le_mul hv (show D ≤ 2 ^ 128 - 1 by omega)
  have hlt : h.value * D < 2 ^ 512 := by
    generalize h.value * D = p at *
    norm_num at hmul
    omega
  simp only [max256bit]
  rw [Nat.mod_eq_of_lt hlt]

theorem bool_eq_decide_of_iff (b : Bool) (P : Prop) [Decidable P] (h : b = true ↔ P) :
    b = decide P := by
  cases b <;> simp_all

/-! ## Claims on difficulty.cpp, second group -/

/-- C11, as stated, fails: the cumulative difficulties `[7, 7, 7]` are non-decreasing and as
many as the timestamps `[10, 20, 30]`, but `assert(total_work > 0)` fails. -/
theorem next_difficulty_flat_work_counterexample :
    2 * 10 ≤ DIFFICULTY_WINDOW_V2 - 2 ∧ [10, 20, 30].length = [7, 7, 7].length ∧
      2 ≤ [10, 20, 30].length ∧ [7, 7, 7].Sorted (· ≤ ·) ∧
      next_difficulty 10 [10, 20, 30] [7, 7, 7] 120 = none := by
  refine ⟨by decide, rfl, by decide, ?_, by decide⟩
  simp

/-- C11 (amended): for equally long inputs with at least two samples and 128-bit cumulative
difficulties, read through their first `DIFFICULTY_WINDOW_V2` entries `cw`, with `[b, e)` the
trim range: no assertion of `next_difficulty` fails and a value is returned exactly when
`cw[b]` and `cw[e-1]` differ; for non-decreasing cumulative difficulties that is
`cw[b] < cw[e-1]`, and with `cw[b] = cw[e-1]` the assertion `total_work > 0` fails. -/
theorem next_difficulty_returns_iff (CUT : Nat) (ts cds : List Nat) (T : Nat)
    (hcut : 2 * CUT ≤ DIFFICULTY_WINDOW_V2 - 2) (hlen : ts.length = cds.length)
    (h2 : 2 ≤ ts.length) (hcds : ∀ d ∈ cds, d < 2 ^ 128)
    (cw : List Nat) (hcw : cw = cds.take DIFFICULTY_WINDOW_V2)
    (b e : Nat) (hb : b = cut_begin CUT (min DIFFICULTY_WINDOW_V2 ts.length))
    (he : e = cut_end CUT (min DIFFICULTY_WINDOW_V2 ts.length)) :
    (next_difficulty CUT ts cds T).isSome = true ↔ cw.getD b 0 ≠ cw.getD (e - 1) 0 := by
  have hl : (ts.take DIFFICULTY_WINDOW_V2).length = (cds.take DIFFICULTY_WINDOW_V2).length := by
    rw [List.length_take, List.length_take, hlen]
  have hlt : (ts.take DIFFICULTY_WINDOW_V2).length = min DIFFICULTY_WINDOW_V2 ts.length :=
    List.length_take _ _
  have hl2 : 2 ≤ (ts.take DIFFICULTY_WINDOW_V2).length := by
    rw [hlt]; unfold DIFFICULTY_WINDOW_V2; omega
  have hlW : (ts.take DIFFICULTY_WINDOW_V2).length ≤ DIFFICULTY_WINDOW_V2 := by
    rw [hlt]; exact min_le_left _ _
  have hnone := next_difficulty_eq_none_iff CUT _ _ T hcut hl hl2 hlW
  rw [hlt, ← hb, ← he, ← hcw] at hnone
  rw [next_difficulty_take CUT ts cds T hlen, ← hcw]
  have hbd : ∀ i, cw.getD i 0 < 2 ^ 128 :=
    getD_lt_of_forall cw _ (by norm_num) (fun x hx =>
      hcds x (List.mem_of_mem_take (by rw [← hcw]; exact hx)))
  have h1 := hbd b
  have h3 := hbd (e - 1)
  rw [Option.isSome_iff_ne_none, ne_eq, hnone]
  omega

theorem next_difficulty_returns_iff_witness :
    (next_difficulty 10 [10, 20, 30] [7, 8, 9] 120).isSome = true
      ↔ [7, 8, 9].getD 0 0 ≠ [7, 8, 9].getD (3 - 1) 0 :=
  next_difficulty_returns_iff 10 [10, 20, 30] [7, 8, 9] 120 (by decide) rfl (by decide)
    (by decide) [7, 8, 9] rfl 0 3 (by decide) (by decide)

/-- C14: for fewer than 4 timestamps, every `target_seconds` and every flag setting,
`next_difficulty_v2` returns 1, whatever the arithmetic of `double`. -/
theorem next_difficulty_v2_bootstrap (A : double_arith) (ts cds : List Nat) (T : Nat)
    (use_old_lwma v12_initial_override : Bool) (h : ts.length < 4) :
    next_difficulty_v2 A ts cds T use_old_lwma v12_initial_override = 1 := by
  unfold next_difficulty_v2
  simp only [h, if_true]

theorem next_difficulty_v2_bootstrap_witness :
    next_difficulty_v2 exact_arith [5, 6, 7] [1, 2, 3] 120 true false = 1 :=
  next_difficulty_v2_bootstrap exact_arith [5, 6, 7] [1, 2, 3] 120 true false (by decide)

/-- C15: for every hash of four 64-bit words and every difficulty representable in 64 bits the
word-wise `check_hash` and the wide-integer `check_hash_128` agree. -/
theorem check_hash_eq_check_hash_128 (h : hash) (D : Nat) (hh : h.wf) (hD : D < 2 ^ 64) :
    check_hash h D = check_hash_128 h D := by
  rw [check_hash_128_spec h D hh (by omega)]
  exact bool_eq_decide_of_iff _ _ (check_hash_spec h D hh hD)

theorem check_hash_eq_check_hash_128_witness :
    check_hash (hash.mk 7 (2 ^ 64 - 1) 3 (2 ^ 60)) 17
      = check_hash_128 (hash.mk 7 (2 ^ 64 - 1) 3 (2 ^ 60)) 17 :=
  check_hash_eq_check_hash_128 (hash.mk 7 (2 ^ 64 - 1) 3 (2 ^ 60)) 17 (by decide) (by decide)

/-- With at least 4 timestamps the value of `next_difficulty_v2` is at most the wrapped cap
`100000 * uint64_t(target_seconds)`, and at least 1 when that cap is. -/
theorem next_difficulty_v2_capped (A : double_arith) (ts cds : List Nat) (T : Nat)
    (use_old_lwma v12_initial_override : Bool) (h4 : 4 ≤ ts.length) :
    next_difficulty_v2 A ts cds T use_old_lwma v12_initial_override
        ≤ (100000 * (T % 2 ^ 64)) % 2 ^ 64 ∧
      (1 ≤ (100000 * (T % 2 ^ 64)) % 2 ^ 64 →
        1 ≤ next_difficulty_v2 A ts cds T use_old_lwma v12_initial_override) := by
  unfold next_difficulty_v2
  rw [if_neg (by omega)]
  dsimp only
  constructor
  · exact min_le_right _ _
  · intro hcap
    have hpos : ∀ x : Nat, 1 ≤ (if x = 0 then 1 else x) := by
      intro x
      split_ifs with h0
      · exact le_refl 1
      · exact Nat.pos_of_ne_zero h0
    exact le_min (hpos _) hcap

theorem resize_length (v : List Nat) (n : Nat) : (resize v n).length = n := by
  unfold resize
  rw [List.length_append, List.length_take, List.length_replicate]
  omega

theorem resize_resize (v : List Nat) (n : Nat) : resize (resize v n) n = resize v n := by
  rw [resize_of_le (resize v n) n (by rw [resize_length]),
    List.take_of_length_le (by rw [resize_length])]

/-- With 60 or more timestamps `next_difficulty_v2` works on the two vectors cut to their first
`N + 1 = DIFFICULTY_WINDOW_V2` entries. -/
theorem next_difficulty_v2_resize (A : double_arith) (ts cds : List Nat) (T : Nat)
    (use_old_lwma v12_initial_override : Bool) (h : DIFFICULTY_WINDOW_V2 ≤ ts.length) :
    next_difficulty_v2 A ts cds T use_old_lwma v12_initial_override
      = next_difficulty_v2 A (resize ts DIFFICULTY_WINDOW_V2) (resize cds DIFFICULTY_WINDOW_V2) T
          use_old_lwma v12_initial_override := by
  have hW : DIFFICULTY_WINDOW_V2 - 1 + 1 = DIFFICULTY_WINDOW_V2 := rfl
  have h1 : ¬ ts.length < 4 := by unfold DIFFICULTY_WINDOW_V2 at h; omega
  have h2 : ¬ (resize ts DIFFICULTY_WINDOW_V2).length < 4 := by
    rw [resize_length]; decide
  have d1 : decide (ts.length - 1 < DIFFICULTY_WINDOW_V2 - 1) = false := by
    rw [decide_eq_false_iff_not]; unfold DIFFICULTY_WINDOW_V2 at *; omega
  have d2 : decide ((resize ts DIFFICULTY_WINDOW_V2).length - 1 < DIFFICULTY_WINDOW_V2 - 1)
      = false := by
    rw [resize_length]; decide
  unfold next_difficulty_v2
  simp only [h1, h2, d1, d2, if_false, Bool.false_eq_true, hW, resize_resize]

/-- C12, as stated, fails for a `target_seconds` whose cap wraps: with
`target_seconds = 2 ^ 59` the product `100000 * uint64_t(target_seconds)` is `3125 * 2 ^ 64`,
which is 0 in `uint64_t`, so the function returns `min(next_difficulty_v1, 0) = 0` on four
identical timestamps (and on every other input of at least four samples). -/
theorem next_difficulty_v2_cap_wraps_counterexample :
    4 ≤ [1000, 1000, 1000, 1000].length ∧
      [1000, 1000, 1000, 1000].length = [1, 2, 3, 4].length ∧ 1 ≤ 2 ^ 59 ∧ 2 ^ 59 < 2 ^ 64 ∧
      next_difficulty_v2 exact_arith [1000, 1000, 1000, 1000] [1, 2, 3, 4] (2 ^ 59) false false
        = 0 ∧
      ¬ 1 ≤ next_difficulty_v2 exact_arith [1000, 1000, 1000, 1000] [1, 2, 3, 4] (2 ^ 59)
        false false := by
  have hle := (next_difficulty_v2_capped exact_arith [1000, 1000, 1000, 1000] [1, 2, 3, 4]
    (2 ^ 59) false false (by decide)).1
  have hcap : (100000 * (2 ^ 59 % 2 ^ 64)) % 2 ^ 64 = 0 := by decide
  rw [hcap] at hle
  have h0 := Nat.le_zero.mp hle
  refine ⟨by decide, rfl, by decide, by decide, h0, ?_⟩
  rw [h0]
  decide

/-- C12 (amended): for every input with at least 4 samples, every `target_seconds >= 1` with
`100000 * target_seconds < 2 ^ 64`, both values of each flag and every arithmetic of `double`,
the value `r` returned by `next_difficulty_v2` satisfies `1 <= r <= 100000 * target_seconds`. -/
theorem next_difficulty_v2_bounds (A : double_arith) (ts cds : List Nat) (T : Nat)
    (use_old_lwma v12_initial_override : Bool) (h4 : 4 ≤ ts.length) (hT : 1 ≤ T)
    (hcap : 100000 * T < 2 ^ 64) :
    1 ≤ next_difficulty_v2 A ts cds T use_old_lwma v12_initial_override ∧
      next_difficulty_v2 A ts cds T use_old_lwma v12_initial_override ≤ 100000 * T := by
  have h := next_difficulty_v2_capped A ts cds T use_old_lwma v12_initial_override h4
  have e1 : T % 2 ^ 64 = T := Nat.mod_eq_of_lt (by omega)
  have e2 : (100000 * T) % 2 ^ 64 = 100000 * T := Nat.mod_eq_of_lt hcap
  rw [e1, e2] at h
  exact ⟨h.2 (by omega), h.1⟩

theorem next_difficulty_v2_bounds_witness :
    1 ≤ next_difficulty_v2 exact_arith [1000, 1000, 1000, 1000] [1, 2, 3, 4] 120 true false ∧
      next_difficulty_v2 exact_arith [1000, 1000, 1000, 1000] [1, 2, 3, 4] 120 true false
        ≤ 100000 * 120 :=
  next_difficulty_v2_bounds exact_arith [1000, 1000, 1000, 1000] [1, 2, 3, 4] 120 true false
    (by decide) (by decide) (by decide)

/-- C13 fails on the code: with `DIFFICULTY_WINDOW_V2` or more samples `next_difficulty_v2`
computes its result from the first (oldest) `N + 1 = DIFFICULTY_WINDOW_V2` samples.  Any two
inputs that agree on their first `DIFFICULTY_WINDOW_V2` timestamps and cumulative difficulties
give the same result, whatever the later, more recent samples are. -/
theorem next_difficulty_v2_reads_first_window (A : double_arith)
    (ts1 cds1 ts2 cds2 : List Nat) (T : Nat) (use_old_lwma v12_initial_override : Bool)
    (h1 : DIFFICULTY_WINDOW_V2 ≤ ts1.length) (h2 : DIFFICULTY_WINDOW_V2 ≤ ts2.length)
    (h3 : DIFFICULTY_WINDOW_V2 ≤ cds1.length) (h4 : DIFFICULTY_WINDOW_V2 ≤ cds2.length)
    (hts : ts1.take DIFFICULTY_WINDOW_V2 = ts2.take DIFFICULTY_WINDOW_V2)
    (hcds : cds1.take DIFFICULTY_WINDOW_V2 = cds2.take DIFFICULTY_WINDOW_V2) :
    next_difficulty_v2 A ts1 cds1 T use_old_lwma v12_initial_override
      = next_difficulty_v2 A ts2 cds2 T use_old_lwma v12_initial_override := by
  rw [next_difficulty_v2_resize A ts1 cds1 T _ _ h1, next_difficulty_v2_resize A ts2 cds2 T _ _ h2,
    resize_of_le _ _ h1, resize_of_le _ _ h2, resize_of_le _ _ h3, resize_of_le _ _ h4, hts,
    hcds]

theorem next_difficulty_v2_reads_first_window_witness :
    next_difficulty_v2 exact_arith (List.range 60 ++ [61]) (List.range 60 ++ [70]) 120 false
        false
      = next_difficulty_v2 exact_arith (List.range 60 ++ [5000]) (List.range 60 ++ [9000]) 120
        false false :=
  next_difficulty_v2_reads_first_window exact_arith (List.range 60 ++ [61])
    (List.range 60 ++ [70]) (List.range 60 ++ [5000]) (List.range 60 ++ [9000]) 120 false false
    (by decide) (by decide) (by decide) (by decide) (by decide) (by decide)

/-! ## hardfork.cpp : helper lemmas -/

/-- What one passed round of the loop of `is_ordered` says about two neighbouring entries. -/
theorem is_ordered_loop_cons (prev hf : hard_fork) (rest : List hard_fork)
    (h : is_ordered_loop prev (hf :: rest) = true) :
    (prev.version < hf.version ∨ (prev.version = hf.version ∧
        prev.snode_revision < hf.snode_revision)) ∧
      prev.height < hf.height ∧ prev.time ≤ hf.time ∧ is_ordered_loop hf rest = true := by
  unfold is_ordered_loop at h
  split_ifs at h with hc
  simp only [pair_le, decide_eq_true_eq, not_or, not_and, not_le, not_lt] at hc
  obtain ⟨⟨h1, h2⟩, h3, h4⟩ := hc
  refine ⟨?_, h3, h4, h⟩
  rcases Nat.lt_or_ge prev.version hf.version with hlt | hge
  · exact Or.inl hlt
  · have heq : hf.version = prev.version := by omega
    exact Or.inr ⟨heq.symm, h2 heq⟩

theorem is_ordered_loop_heights (rest : List hard_fork) :
    ∀ prev, is_ordered_loop prev rest = true → ∀ f ∈ rest, prev.height < f.height := by
  induction rest with
  | nil => intro prev _ f hf; cases hf
  | cons hf tl ih =>
    intro prev h f hmem
    obtain ⟨-, hh, -, htl⟩ := is_ordered_loop_cons prev hf tl h
    rcases List.mem_cons.mp hmem with rfl | hin
    · exact hh
    · exact lt_trans hh (ih hf htl f hin)

theorem is_ordered_loop_versions (rest : List hard_fork) :
    ∀ prev, is_ordered_loop prev rest = true → ∀ f ∈ rest, prev.version ≤ f.version := by
  induction rest with
  | nil => intro prev _ f hf; cases hf
  | cons hf tl ih =>
    intro prev h f hmem
    obtain ⟨hv, -, -, htl⟩ := is_ordered_loop_cons prev hf tl h
    have hle : prev.version ≤ hf.version := by omega
    rcases List.mem_cons.mp hmem with rfl | hin
    · exact hle
    · exact le_trans hle (ih hf htl f hin)

theorem is_ordered_cons (first : hard_fork) (rest : List hard_fork)
    (h : is_ordered (first :: rest) = true) :
    7 ≤ first.version ∧ is_ordered_loop first rest = true := by
  simp only [is_ordered] at h
  split_ifs at h with hv
  exact ⟨by omega, h⟩

/-- The loop of `get_network_version_revision`, entered after an entry `prev` at or below the
height, ends on the last entry at or below the height. -/
theorem network_version_revision_loop_spec (h : Nat) (rest : List hard_fork) :
    ∀ prev, is_ordered_loop prev rest = true → prev.height ≤ h →
      ∃ e, ((prev :: rest).filter (fun f => decide (f.height ≤ h))).getLast? = some e ∧
        network_version_revision_loop h rest (prev.version, prev.snode_revision)
          = (e.version, e.snode_revision) := by
  induction rest with
  | nil =>
    intro prev _ hp
    exact ⟨prev, by simp [List.filter_cons, hp], rfl⟩
  | cons hf tl ih =>
    intro prev hord hp
    obtain ⟨-, -, -, htl⟩ := is_ordered_loop_cons prev hf tl hord
    by_cases hle : hf.height ≤ h
    · obtain ⟨e, he, hres⟩ := ih hf htl hle
      refine ⟨e, ?_, ?_⟩
      · rw [List.filter_cons_of_pos (by simpa using hp)]
        rw [List.filter_cons_of_pos (by simpa using hle)] at he ⊢
        rw [List.getLast?_cons_cons]
        exact he
      · rw [network_version_revision_loop, if_pos hle]
        exact hres
    · refine ⟨prev, ?_, ?_⟩
      · have hnone : (hf :: tl).filter (fun f => decide (f.height ≤ h)) = [] := by
          rw [List.filter_eq_nil_iff]
          intro f hf'
          have hgt : hf.height ≤ f.height := by
            rcases List.mem_cons.mp hf' with rfl | hin
            · exact le_refl _
            · exact le_of_lt (is_ordered_loop_heights tl hf htl f hin)
          simp only [decide_eq_true_eq]
          omega
        rw [List.filter_cons_of_pos (by simpa using hp), hnone]
        rfl
      · rw [network_version_revision_loop, if_neg hle]

/-! ## Claims on hardfork.cpp -/

/-- C17: for every network table that passes `is_ordered` and every height `h` not below the
activation height of the first entry, `get_network_version_revision(network, h)` is the
(version, snode_revision) of the last table entry whose activation height is at most `h`. -/
theorem get_network_version_revision_last_entry (fakechain_hardforks : List hard_fork)
    (nettype : network_type) (h : Nat)
    (hord : is_ordered (get_hard_forks fakechain_hardforks nettype) = true)
    (hfirst : ∀ f, (get_hard_forks fakechain_hardforks nettype).head? = some f → f.height ≤ h) :
    ∃ e, ((get_hard_forks fakechain_hardforks nettype).filter
          (fun f => decide (f.height ≤ h))).getLast? = some e ∧
      get_network_version_revision fakechain_hardforks nettype h
        = (e.version, e.snode_revision) := by
  unfold get_network_version_revision
  cases htab : get_hard_forks fakechain_hardforks nettype with
  | nil => rw [htab] at hord; cases hord
  | cons first rest =>
    rw [htab] at hord hfirst
    have hf := hfirst first rfl
    obtain ⟨e, he, hres⟩ :=
      network_version_revision_loop_spec h rest first (is_ordered_cons first rest hord).2 hf
    refine ⟨e, he, ?_⟩
    rw [network_version_revision_loop, if_pos hf]
    exact hres

theorem get_network_version_revision_last_entry_witness :
    ∃ e, ((get_hard_forks [] network_type.TESTNET).filter
          (fun f => decide (f.height ≤ 600000))).getLast? = some e ∧
      get_network_version_revision [] network_type.TESTNET 600000
        = (e.version, e.snode_revision) :=
  get_network_version_revision_last_entry [] network_type.TESTNET 600000 (by decide)
    (by decide)

/-- C18, as stated, fails: `result` starts as `(0, 0)` and is returned unchanged when no entry
is at or below the height.  On the fakechain table with the single entry (7, 0) at height 10 the
lookup at height 5 gives version 0, and so does every lookup on an unknown network. -/
theorem get_network_version_revision_floor_counterexample :
    get_network_version_revision [hard_fork.mk 7 0 10 0] network_type.FAKECHAIN 5 = (0, 0) ∧
      5 < (hard_fork.mk 7 0 10 0).height ∧
      get_network_version_revision [] network_type.UNDEFINED 0 = (0, 0) ∧
      (get_network_version_revision [hard_fork.mk 7 0 10 0] network_type.FAKECHAIN 5).1 ≠ 7 := by
  decide

/-- C18 (amended): for every network table and every height that predates all entries (lower
than the activation height of the first entry, or the table is empty or the network unknown),
`get_network_version_revision` returns `(0, 0)`. -/
theorem get_network_version_revision_before_first (fakechain_hardforks : List hard_fork)
    (nettype : network_type) (h : Nat)
    (hpre : ∀ f, (get_hard_forks fakechain_hardforks nettype).head? = some f → h < f.height) :
    get_network_version_revision fakechain_hardforks nettype h = (0, 0) := by
  unfold get_network_version_revision
  cases htab : get_hard_forks fakechain_hardforks nettype with
  | nil => rfl
  | cons first rest =>
    rw [htab] at hpre
    have hf := hpre first rfl
    rw [network_version_revision_loop, if_neg (by omega)]

theorem get_network_version_revision_before_first_witness :
    get_network_version_revision [hard_fork.mk 7 0 10 0] network_type.FAKECHAIN 9 = (0, 0) :=
  get_network_version_revision_before_first [hard_fork.mk 7 0 10 0] network_type.FAKECHAIN 9
    (by decide)

/-- C19: on the mainnet table the lookup at height 0 has version 7, and at every height at or
beyond 130, the activation height of the last entry, it is the last entry's `(15, 0)`. -/
theorem get_network_version_revision_mainnet (fakechain_hardforks : List hard_fork) :
    (get_network_version_revision fakechain_hardforks network_type.MAINNET 0).1 = 7 ∧
      (mainnet_hard_forks.getLast?.map (fun e => (e.height, e.version, e.snode_revision))
        = some (130, 15, 0)) ∧
      ∀ h, 130 ≤ h →
        get_network_version_revision fakechain_hardforks network_type.MAINNET h = (15, 0) := by
  refine ⟨rfl, by decide, fun h hh => ?_⟩
  simp only [get_network_version_revision, get_hard_forks, if_true, mainnet_hard_forks,
    network_version_revision_loop]
  rw [if_pos (by omega), if_pos (by omega), if_pos (by omega), if_pos (by omega),
    if_pos (by omega), if_pos (by omega), if_pos (by omega), if_pos (by omega),
    if_pos (by omega)]

theorem get_network_version_revision_mainnet_witness :
    get_network_version_revision [] network_type.MAINNET 1000000 = (15, 0) :=
  (get_network_version_revision_mainnet []).2.2 1000000 (by decide)

/-- C20: each of the three static tables passes `is_ordered`; it is non-empty, its first
version is 7, the (version, snode_revision) pairs strictly increase lexicographically, the
activation heights strictly increase and the activation times do not decrease. -/
theorem static_tables_ordered :
    ∀ table ∈ [mainnet_hard_forks, testnet_hard_forks, devnet_hard_forks],
      is_ordered table = true ∧ table ≠ [] ∧ table.head?.map hard_fork.version = some 7 ∧
      table.Chain' (fun a b => a.version < b.version ∨
        (a.version = b.version ∧ a.snode_revision < b.snode_revision)) ∧
      table.Chain' (fun a b => a.height < b.height) ∧
      table.Chain' (fun a b => a.time ≤ b.time) := by
  intro table ht
  simp only [List.mem_cons, List.mem_singleton, List.not_mem_nil, or_false] at ht
  rcases ht with rfl | rfl | rfl
  · refine ⟨by decide, by decide, by decide, ?_, ?_, ?_⟩ <;> simp [mainnet_hard_forks]
  · refine ⟨by decide, by decide, by decide, ?_, ?_, ?_⟩ <;> simp [testnet_hard_forks]
  · refine ⟨by decide, by decide, by decide, ?_, ?_, ?_⟩ <;> simp [devnet_hard_forks]

theorem static_tables_ordered_witness :
    is_ordered testnet_hard_forks = true ∧ testnet_hard_forks ≠ [] ∧
      testnet_hard_forks.head?.map hard_fork.version = some 7 ∧
      testnet_hard_forks.Chain' (fun a b => a.version < b.version ∨
        (a.version = b.version ∧ a.snode_revision < b.snode_revision)) ∧
      testnet_hard_forks.Chain' (fun a b => a.height < b.height) ∧
      testnet_hard_forks.Chain' (fun a b => a.time ≤ b.time) :=
  static_tables_ordered testnet_hard_forks (by simp)

/-! ## hardfork.cpp : further helper lemmas -/

theorem hard_fork_ceil_loop_none (v : Nat) (table : List hard_fork)
    (h : ∀ e ∈ table, e.version < v) : hard_fork_ceil_loop v table = v := by
  induction table with
  | nil => rfl
  | cons it rest ih =>
    have h1 := h it (List.mem_cons_self it rest)
    rw [hard_fork_ceil_loop, if_neg (by omega)]
    exact ih (fun e he => h e (List.mem_cons_of_mem it he))

theorem hard_fork_ceil_loop_some (v : Nat) (rest : List hard_fork) :
    ∀ prev, is_ordered_loop prev rest = true → (∃ e ∈ prev :: rest, v ≤ e.version) →
      (∃ e ∈ prev :: rest, e.version = hard_fork_ceil_loop v (prev :: rest)) ∧
      v ≤ hard_fork_ceil_loop v (prev :: rest) ∧
      ∀ e ∈ prev :: rest, v ≤ e.version → hard_fork_ceil_loop v (prev :: rest) ≤ e.version := by
  induction rest with
  | nil =>
    intro prev _ hex
    obtain ⟨e, he, hv⟩ := hex
    rw [List.mem_singleton] at he
    subst he
    rw [hard_fork_ceil_loop, if_pos hv]
    exact ⟨⟨e, List.mem_singleton_self e, rfl⟩, hv, fun e' he' _ => by
      rw [List.mem_singleton] at he'; rw [he']⟩
  | cons hf tl ih =>
    intro prev hord hex
    have hvers := is_ordered_loop_versions (hf :: tl) prev hord
    obtain ⟨-, -, -, htl⟩ := is_ordered_loop_cons prev hf tl hord
    by_cases hp : v ≤ prev.version
    · rw [hard_fork_ceil_loop, if_pos hp]
      refine ⟨⟨prev, List.mem_cons_self _ _, rfl⟩, hp, fun e he _ => ?_⟩
      rcases List.mem_cons.mp he with rfl | hin
      · exact le_refl _
      · exact hvers e hin
    · have hex' : ∃ e ∈ hf :: tl, v ≤ e.version := by
        obtain ⟨e, he, hv⟩ := hex
        rcases List.mem_cons.mp he with rfl | hin
        · exact absurd hv hp
        · exact ⟨e, hin, hv⟩
      obtain ⟨⟨e, he, heq⟩, hle, hmin⟩ := ih hf htl hex'
      rw [hard_fork_ceil_loop, if_neg hp]
      refine ⟨⟨e, List.mem_cons_of_mem _ he, heq⟩, hle, fun e' he' hv' => ?_⟩
      rcases List.mem_cons.mp he' with rfl | hin
      · exact absurd hv' hp
      · exact hmin e' hin hv'

theorem ideal_block_version_loop_fst_above (h : Nat) (rest : List hard_fork) :
    ∀ a b, (∀ f ∈ rest, h < f.height) → (ideal_block_version_loop h rest (a, b)).1 = a := by
  induction rest with
  | nil => intro a b _; rfl
  | cons hf tl ih =>
    intro a b hall
    have h1 := hall hf (List.mem_cons_self hf tl)
    rw [ideal_block_version_loop, if_neg (by omega)]
    exact ih a hf.version (fun f hin => hall f (List.mem_cons_of_mem hf hin))

theorem ideal_block_version_loop_fst (h : Nat) (rest : List hard_fork) :
    ∀ prev b rv, is_ordered_loop prev rest = true →
      (ideal_block_version_loop h rest (prev.version, b)).1
        = (network_version_revision_loop h rest (prev.version, rv)).1 := by
  induction rest with
  | nil => intro prev b rv _; rfl
  | cons hf tl ih =>
    intro prev b rv hord
    obtain ⟨-, -, -, htl⟩ := is_ordered_loop_cons prev hf tl hord
    rw [ideal_block_version_loop, network_version_revision_loop]
    by_cases hle : hf.height ≤ h
    · rw [if_pos hle, if_pos hle]
      exact ih hf hf.version hf.snode_revision htl
    · rw [if_neg hle, if_neg hle]
      exact ideal_block_version_loop_fst_above h tl prev.version hf.version
        (fun f hin => by
          have := is_ordered_loop_heights tl hf htl f hin
          omega)

theorem ideal_block_version_loop_snd (h : Nat) (rest : List hard_fork) :
    ∀ a b, (ideal_block_version_loop h rest (a, b)).2
      = (rest.getLast?.map hard_fork.version).getD b := by
  induction rest with
  | nil => intro a b; rfl
  | cons hf tl ih =>
    intro a b
    rw [ideal_block_version_loop, ih]
    cases tl with
    | nil => rfl
    | cons x xs =>
      rw [List.getLast?_cons_cons, List.getLast?_eq_getLast _ (List.cons_ne_nil x xs)]
      rfl

/-! ## Claims on hardfork.cpp, second group -/

/-- C21: for every requested version `v`, `hard_fork_ceil(network, v)` is `v` itself when no
version of the table is at least `v` (also for an empty table), and on a table that passes
`is_ordered` with a version at least `v` it is the smallest such version of the table. -/
theorem hard_fork_ceil_spec (fakechain_hardforks : List hard_fork) (nettype : network_type)
    (v : Nat) :
    ((∀ e ∈ get_hard_forks fakechain_hardforks nettype, e.version < v) →
      hard_fork_ceil fakechain_hardforks nettype v = v) ∧
    (is_ordered (get_hard_forks fakechain_hardforks nettype) = true →
      (∃ e ∈ get_hard_forks fakechain_hardforks nettype, v ≤ e.version) →
      (∃ e ∈ get_hard_forks fakechain_hardforks nettype,
        e.version = hard_fork_ceil fakechain_hardforks nettype v) ∧
      v ≤ hard_fork_ceil fakechain_hardforks nettype v ∧
      ∀ e ∈ get_hard_forks fakechain_hardforks nettype, v ≤ e.version →
        hard_fork_ceil fakechain_hardforks nettype v ≤ e.version) := by
  unfold hard_fork_ceil
  refine ⟨hard_fork_ceil_loop_none v _, fun hord hex => ?_⟩
  cases htab : get_hard_forks fakechain_hardforks nettype with
  | nil => rw [htab] at hord; cases hord
  | cons first rest =>
    rw [htab] at hord hex
    exact hard_fork_ceil_loop_some v rest first (is_ordered_cons first rest hord).2 hex

theorem hard_fork_ceil_spec_witness :
    hard_fork_ceil [] network_type.DEVNET 19 = 19 ∧
      (∃ e ∈ get_hard_forks [] network_type.DEVNET,
        e.version = hard_fork_ceil [] network_type.DEVNET 8) ∧
      8 ≤ hard_fork_ceil [] network_type.DEVNET 8 :=
  ⟨(hard_fork_ceil_spec [] network_type.DEVNET 19).1 (by decide),
    ((hard_fork_ceil_spec [] network_type.DEVNET 8).2 (by decide)
      ⟨hard_fork.mk 11 0 2 1599848400, by decide, by decide⟩).1,
    ((hard_fork_ceil_spec [] network_type.DEVNET 8).2 (by decide)
      ⟨hard_fork.mk 11 0 2 1599848400, by decide, by decide⟩).2.1⟩

/-- C22 fails on the code for a version with more than one revision: on the testnet table
`get_hard_fork_heights(TESTNET, 18)` is `(578637, nullopt)`, the height of the entry 18.1,
while version 18 is already the active version from height 501750, the entry 18.0. -/
theorem get_hard_fork_heights_testnet_18 :
    get_hard_fork_heights [] network_type.TESTNET 18 = (some 578637, none) ∧
      (get_network_version_revision [] network_type.TESTNET 501750).1 = 18 ∧
      ¬ (578637 ≤ 501750) := by
  decide

/-- C23: for every network table that passes `is_ordered` and every height `h`,
`get_ideal_block_version(network, h)` is the pair of the version active at `h`, the first
component of `get_network_version_revision(network, h)`, and the version of the last entry of
the table. -/
theorem get_ideal_block_version_spec (fakechain_hardforks : List hard_fork)
    (nettype : network_type) (h : Nat)
    (hord : is_ordered (get_hard_forks fakechain_hardforks nettype) = true) :
    ∃ last, (get_hard_forks fakechain_hardforks nettype).getLast? = some last ∧
      get_ideal_block_version fakechain_hardforks nettype h
        = ((get_network_version_revision fakechain_hardforks nettype h).1, last.version) := by
  unfold get_ideal_block_version get_network_version_revision
  cases htab : get_hard_forks fakechain_hardforks nettype with
  | nil => rw [htab] at hord; cases hord
  | cons first rest =>
    rw [htab] at hord
    have hloop := (is_ordered_cons first rest hord).2
    refine ⟨(first :: rest).getLast (List.cons_ne_nil _ _),
      List.getLast?_eq_getLast _ _, ?_⟩
    apply Prod.ext
    · rw [ideal_block_version_loop, network_version_revision_loop]
      by_cases hle : first.height ≤ h
      · rw [if_pos hle, if_pos hle]
        exact ideal_block_version_loop_fst h rest first first.version first.snode_revision hloop
      · rw [if_neg hle, if_neg hle]
        exact ideal_block_version_loop_fst_above h rest 0 first.version
          (fun f hin => by
            have := is_ordered_loop_heights rest first hloop f hin
            omega)
    · rw [ideal_block_version_loop_snd, List.getLast?_eq_getLast _ (List.cons_ne_nil _ _)]
      rfl

theorem get_ideal_block_version_spec_witness :
    ∃ last, (get_hard_forks [] network_type.MAINNET).getLast? = some last ∧
      get_ideal_block_version [] network_type.MAINNET 119
        = ((get_network_version_revision [] network_type.MAINNET 119).1, last.version) :=
  get_ideal_block_version_spec [] network_type.MAINNET 119 (by decide)

/-! ## Checkpoint ledger : helper lemmas, second group -/

theorem highest_checkpoint_spec (records : List checkpoint_t) :
    (highest_checkpoint records = none → records = []) ∧
    (∀ t, highest_checkpoint records = some t →
      t ∈ records ∧ ∀ c ∈ records, c.height ≤ t.height) := by
  induction records with
  | nil => exact ⟨fun _ => rfl, fun t h => by cases h⟩
  | cons c cs ih =>
    obtain ⟨ih1, ih2⟩ := ih
    unfold highest_checkpoint
    cases hcs : highest_checkpoint cs with
    | none =>
      have hnil := ih1 hcs
      subst hnil
      refine ⟨fun h => (by cases h), fun t h => ?_⟩
      cases h
      exact ⟨List.mem_singleton_self _, fun c' hc' => by
        rw [List.mem_singleton] at hc'; rw [hc']⟩
    | some d =>
      obtain ⟨hd, hmax⟩ := ih2 d hcs
      refine ⟨fun h => ?_, fun t h => ?_⟩
      · dsimp only at h
        split_ifs at h
      · dsimp only at h
        split_ifs at h with hle
        · cases h
          refine ⟨List.mem_cons_self _ _, fun c' hc' => ?_⟩
          rcases List.mem_cons.mp hc' with rfl | hin
          · exact le_refl _
          · exact le_trans (hmax c' hin) hle
        · cases h
          refine ⟨List.mem_cons_of_mem _ hd, fun c' hc' => ?_⟩
          rcases List.mem_cons.mp hc' with rfl | hin
          · omega
          · exact hmax c' hin

namespace checkpoints

/-- Whatever the store faults, `update_checkpoint` leaves the records as they are or puts the
record in place of the one of its height. -/
theorem update_checkpoint_records (F : db_op → Bool) (s : checkpoints) (c : checkpoint_t) :
    (update_checkpoint F s c).2.m_db.block_checkpoints = s.m_db.block_checkpoints ∨
    (update_checkpoint F s c).2.m_db.block_checkpoints
      = c :: s.m_db.block_checkpoints.filter (fun x => decide (x.height ≠ c.height)) := by
  unfold update_checkpoint db_batch_start db_update_block_checkpoint db_batch_stop
  by_cases h1 : F db_op.batch_start = true <;> by_cases h2 : s.m_db.batch_active = true <;>
    by_cases h3 : F db_op.update_block_checkpoint = true <;>
    by_cases h4 : F db_op.batch_stop = true <;> simp [h1, h2, h3, h4]

/-- The loop of `block_added` keeps every record on the permanent-retention grid. -/
theorem cull_loop_keeps (F : db_op → Bool) (sn : service_nodes) (end_cull_height : Nat)
    (fuel : Nat) :
    ∀ (db : BlockchainDB) (cursor : Nat) (db1 : BlockchainDB) (cursor1 : Nat),
      cull_loop F sn end_cull_height fuel db cursor = some (db1, cursor1) →
      ∀ c ∈ db.block_checkpoints, c.height % sn.CHECKPOINT_STORE_PERSISTENTLY_INTERVAL = 0 →
        c ∈ db1.block_checkpoints := by
  induction fuel with
  | zero => intro db cursor db1 cursor1 h; cases h
  | succ n ih =>
    intro db cursor db1 cursor1 h c hc hgrid
    unfold cull_loop at h
    split_ifs at h with hlt hskip
    · exact ih _ _ _ _ h c hc hgrid
    · refine ih _ _ _ _ h c ?_ hgrid
      unfold db_remove_block_checkpoint
      by_cases hF : F db_op.remove_block_checkpoint = true
      · simpa [hF] using hc
      · simp only [hF, Bool.false_eq_true, if_false, List.mem_filter, decide_eq_true_eq]
        refine ⟨hc, fun heq => hskip ?_⟩
        rw [← heq]; exact hgrid
    · cases h
      exact hc

end checkpoints

/-- On a store without faults a successful `add_checkpoint` at a height without a record is
followed by `get_checkpoint` returning the hardcoded record with the parsed hash. -/
theorem add_checkpoint_fresh (s : checkpoints) (height : Nat) (hash_str difficulty_str : String)
    (h : hash) (hparse : hex_to_pod hash_str = some h)
    (hfree : checkpoints.get_checkpoint no_faults s height = none) :
    (checkpoints.add_checkpoint no_faults s height hash_str difficulty_str).1 = .ok true ∧
    checkpoints.get_checkpoint no_faults
        (checkpoints.add_checkpoint no_faults s height hash_str difficulty_str).2 height
      = some (checkpoint_t.mk checkpoint_type.hardcoded height h []) := by
  unfold checkpoints.add_checkpoint
  rw [hparse]
  dsimp only
  rw [hfree]
  dsimp only
  rw [checkpoints.update_checkpoint_no_faults, checkpoints.get_checkpoint_no_faults]
  refine ⟨rfl, ?_⟩
  simp [List.find?_cons, checkpoint_t.zero]

theorem init_loop_immutable_height (F : db_op → Bool) (table : List height_to_hash) :
    ∀ s, (checkpoints.init_loop F table s).2.m_immutable_height = s.m_immutable_height := by
  induction table with
  | nil => intro s; rfl
  | cons e rest ih =>
    intro s
    have hadd := checkpoints.add_checkpoint_immutable_height F s e.height e.hash e.difficulty
    unfold checkpoints.init_loop
    split <;> rename_i heq <;> rw [heq] at hadd
    · exact hadd
    · exact hadd
    · rw [ih]; exact hadd

/-! ## Claims on checkpoints.cpp, second group -/

/-- C24: after `init(MAINNET, store)` on a writable, empty store without faults, `init` returns
true and for every entry of `HARDCODED_MAINNET_CHECKPOINTS` the hash parses and
`get_checkpoint(height)` returns the hardcoded checkpoint with exactly that hash; and in general
a successful `add_checkpoint(h, hash, _)` at a height with no checkpoint is followed by
`get_checkpoint(h)` returning the hardcoded checkpoint with the parsed hash. -/
theorem init_seeding_round_trip :
    (checkpoints.init no_faults network_type.MAINNET (BlockchainDB.mk [] false false)).1
        = .ok true ∧
    (∀ e ∈ HARDCODED_MAINNET_CHECKPOINTS, ∃ h, hex_to_pod e.hash = some h ∧
      checkpoints.get_checkpoint no_faults
          (checkpoints.init no_faults network_type.MAINNET (BlockchainDB.mk [] false false)).2
          e.height
        = some (checkpoint_t.mk checkpoint_type.hardcoded e.height h [])) ∧
    (∀ (s : checkpoints) (height : Nat) (hash_str difficulty_str : String) (h : hash),
      hex_to_pod hash_str = some h → checkpoints.get_checkpoint no_faults s height = none →
      (checkpoints.add_checkpoint no_faults s height hash_str difficulty_str).1 = .ok true ∧
      checkpoints.get_checkpoint no_faults
          (checkpoints.add_checkpoint no_faults s height hash_str difficulty_str).2 height
        = some (checkpoint_t.mk checkpoint_type.hardcoded height h [])) := by
  refine ⟨rfl, ?_, fun s height hash_str difficulty_str h hp hf =>
    add_checkpoint_fresh s height hash_str difficulty_str h hp hf⟩
  have hall : HARDCODED_MAINNET_CHECKPOINTS.all (fun e =>
      match hex_to_pod e.hash with
      | none => false
      | some h => decide (checkpoints.get_checkpoint no_faults
          (checkpoints.init no_faults network_type.MAINNET (BlockchainDB.mk [] false false)).2
          e.height = some (checkpoint_t.mk checkpoint_type.hardcoded e.height h []))) = true := by
    decide
  intro e he
  have h1 := List.all_eq_true.mp hall e he
  cases hp : hex_to_pod e.hash with
  | none => rw [hp] at h1; cases h1
  | some h =>
    rw [hp] at h1
    exact ⟨h, rfl, of_decide_eq_true h1⟩

theorem init_seeding_round_trip_witness :
    ∃ h, hex_to_pod "6a6d8fe601d6c0497b8dad268f0ca9efa17ae8d5ef269f070e6b626263513acc" = some h ∧
      checkpoints.get_checkpoint no_faults
          (checkpoints.init no_faults network_type.MAINNET (BlockchainDB.mk [] false false)).2
          99704
        = some (checkpoint_t.mk checkpoint_type.hardcoded 99704 h []) :=
  init_seeding_round_trip.2.1
    (height_to_hash.mk 99704 "6a6d8fe601d6c0497b8dad268f0ca9efa17ae8d5ef269f070e6b626263513acc"
      "0x2480f7e86e50") (by decide)

/-- C26, as stated, fails for height 0 on a store without checkpoints: the top checkpoint
height defaults to 0, so `is_in_checkpoint_zone(0)` is true although no checkpoint is stored. -/
theorem is_in_checkpoint_zone_empty_counterexample :
    checkpoints.is_in_checkpoint_zone no_faults
        (checkpoints.mk (BlockchainDB.mk [] false false) network_type.MAINNET 0 0) 0
      = .ok true ∧
    ¬ ∃ c ∈ (BlockchainDB.mk [] false false).block_checkpoints, 0 ≤ c.height := by
  refine ⟨rfl, ?_⟩
  simp

/-- C26 (amended): on a store without faults, for every ledger state and height `h`,
`is_in_checkpoint_zone(h)` is true if and only if `h = 0` or the store holds a checkpoint whose
height is at least `h`; with no checkpoint stored it is true for `h = 0` only. -/
theorem is_in_checkpoint_zone_spec (s : checkpoints) (h : Nat) :
    ∃ b, checkpoints.is_in_checkpoint_zone no_faults s h = .ok b ∧
      (b = true ↔ (h = 0 ∨ ∃ c ∈ s.m_db.block_checkpoints, h ≤ c.height)) := by
  obtain ⟨hnone, hsome⟩ := highest_checkpoint_spec s.m_db.block_checkpoints
  unfold checkpoints.is_in_checkpoint_zone db_get_top_checkpoint
  simp only [no_faults, Bool.false_eq_true, if_false]
  cases htop : highest_checkpoint s.m_db.block_checkpoints with
  | none =>
    refine ⟨_, rfl, ?_⟩
    rw [hnone htop]
    simp
  | some t =>
    obtain ⟨ht, hmax⟩ := hsome t htop
    refine ⟨_, rfl, ?_⟩
    simp only [decide_eq_true_eq]
    constructor
    · intro hle
      exact Or.inr ⟨t, ht, hle⟩
    · rintro (h0 | ⟨c, hc, hle⟩)
      · omega
      · exact le_trans hle (hmax c hc)

/-- C27: every ledger operation other than `init`, under every pattern of store faults, leaves
`m_immutable_height` at least as large as before the call, and `init` leaves it at 0. -/
theorem immutable_height_monotone :
    (∀ (F : db_op → Bool) (immutable : List checkpoint_t → Nat → Option checkpoint_t)
        (sn : service_nodes) (s s1 : checkpoints) (call : ledger_call),
      call.state_after F immutable sn s = some s1 →
        s.m_immutable_height ≤ s1.m_immutable_height) ∧
    (∀ (F : db_op → Bool) (nettype : network_type) (db : BlockchainDB),
      (checkpoints.init F nettype db).2.m_immutable_height = 0) := by
  refine ⟨fun F immutable sn s s1 call h =>
    state_after_immutable_height F immutable sn s s1 call h, fun F nettype db => ?_⟩
  unfold checkpoints.init
  dsimp only
  split_ifs
  · rfl
  · rw [init_loop_immutable_height]
  · rfl

theorem immutable_height_monotone_witness :
    (checkpoints.mk (BlockchainDB.mk [] false false) network_type.MAINNET 0 5).m_immutable_height
      ≤ (checkpoints.mk (BlockchainDB.mk [] false false) network_type.MAINNET 0
          5).m_immutable_height :=
  immutable_height_monotone.1 no_faults highest_checkpoint_at_or_below (service_nodes.mk 4 60)
    _ _ (ledger_call.is_alternative_block_allowed 10 3) rfl

/-- C28, as stated, fails when the caller supplies a checkpoint at a permanent-retention
height: with `CHECKPOINT_STORE_PERSISTENTLY_INTERVAL = 60`, on a store without faults holding
the hardcoded checkpoint at height 60, `block_added` for a block of height 300 and version 12
with a supplied service-node checkpoint at height 60 carrying another hash returns true, and
the stored record is gone: `update_checkpoint` has put the supplied one in its place. -/
theorem block_added_persistent_replaced_counterexample :
    checkpoints.block_added no_faults highest_checkpoint_at_or_below (service_nodes.mk 4 60)
        (checkpoints.mk
          (BlockchainDB.mk [checkpoint_t.mk checkpoint_type.hardcoded 60 null_hash []] false
            false)
          network_type.MAINNET 0 0)
        (block.mk 300 12)
        (some (checkpoint_t.mk checkpoint_type.service_node 60 (hash.mk 1 0 0 0) []))
      = some (.ok true, checkpoints.mk
          (BlockchainDB.mk [checkpoint_t.mk checkpoint_type.service_node 60 (hash.mk 1 0 0 0) []]
            false false)
          network_type.MAINNET 60 0) ∧
    60 % (service_nodes.mk 4 60).CHECKPOINT_STORE_PERSISTENTLY_INTERVAL = 0 ∧
    checkpoint_t.mk checkpoint_type.hardcoded 60 null_hash []
      ∉ [checkpoint_t.mk checkpoint_type.service_node 60 (hash.mk 1 0 0 0) []] ∧
    ¬ ((block.mk 300 12).height < (service_nodes.mk 4 60).CHECKPOINT_STORE_PERSISTENTLY_INTERVAL
      ∨ (block.mk 300 12).major_version < network_version_12_checkpointing) :=
  ⟨rfl, by decide, by decide, by decide⟩

/-- C28 (amended): for every ledger state, block, optional checkpoint and pattern of store
faults, and every stored record whose height is a multiple of
`CHECKPOINT_STORE_PERSISTENTLY_INTERVAL`: when `block_added` returns, the record is still
stored if no checkpoint of that same height was supplied; if one was supplied, the record is
still stored or the supplied checkpoint is stored at its height; and the pruning loop of
`block_added` never removes the record. -/
theorem block_added_keeps_persistent (F : db_op → Bool)
    (immutable : List checkpoint_t → Nat → Option checkpoint_t) (sn : service_nodes)
    (s : checkpoints) (blk : block) (checkpoint : Option checkpoint_t)
    (r : Except db_exception Bool × checkpoints)
    (hret : checkpoints.block_added F immutable sn s blk checkpoint = some r)
    (c : checkpoint_t) (hc : c ∈ s.m_db.block_checkpoints)
    (hgrid : c.height % sn.CHECKPOINT_STORE_PERSISTENTLY_INTERVAL = 0) :
    ((∀ k, checkpoint = some k → k.height ≠ c.height) → c ∈ r.2.m_db.block_checkpoints) ∧
    (c ∈ r.2.m_db.block_checkpoints ∨
      ∃ k, checkpoint = some k ∧ k.height = c.height ∧ k ∈ r.2.m_db.block_checkpoints) ∧
    ∀ (end_cull_height fuel : Nat) (db : BlockchainDB) (cursor : Nat) (db1 : BlockchainDB)
      (cursor1 : Nat),
      checkpoints.cull_loop F sn end_cull_height fuel db cursor = some (db1, cursor1) →
      c ∈ db.block_checkpoints → c ∈ db1.block_checkpoints := by
  have hdisj : c ∈ r.2.m_db.block_checkpoints ∨
      ∃ k, checkpoint = some k ∧ k.height = c.height ∧ k ∈ r.2.m_db.block_checkpoints := by
    unfold checkpoints.block_added at hret
    dsimp only at hret
    split at hret
    · cases hret; exact Or.inl hc
    · split at hret
      · cases hret; exact Or.inl hc
      · split at hret
        · cases hret; exact Or.inl hc
        · split at hret
          · cases hret
          · rename_i db1 cursor1 hloop
            have hkeep : c ∈ db1.block_checkpoints :=
              checkpoints.cull_loop_keeps F sn _ _ _ _ _ _ hloop c hc hgrid
            split at hret
            · cases hret; exact Or.inl hkeep
            · rename_i k
              have hrec := checkpoints.update_checkpoint_records F
                (checkpoints.mk db1 s.m_nettype cursor1 s.m_immutable_height) k
              have hfinal : r.2 = (checkpoints.update_checkpoint F
                  (checkpoints.mk db1 s.m_nettype cursor1 s.m_immutable_height) k).2 := by
                split at hret <;> rename_i heq <;> cases hret <;> rw [heq]
              rw [hfinal]
              rcases hrec with hsame | hput
              · rw [hsame]; exact Or.inl hkeep
              · rw [hput]
                by_cases hk : k.height = c.height
                · exact Or.inr ⟨k, rfl, hk, List.mem_cons_self _ _⟩
                · refine Or.inl (List.mem_cons_of_mem _ ?_)
                  rw [List.mem_filter]
                  exact ⟨hkeep, by simpa using fun h => hk h.symm⟩
  refine ⟨fun hne => ?_, hdisj, fun E fuel db cursor db1 cursor1 hloop hin =>
    checkpoints.cull_loop_keeps F sn E fuel db cursor db1 cursor1 hloop c hin hgrid⟩
  rcases hdisj with hin | ⟨k, hk, hh, -⟩
  · exact hin
  · exact absurd hh (hne k hk)

theorem block_added_keeps_persistent_witness :
    checkpoint_t.mk checkpoint_type.hardcoded 60 null_hash []
        ∈ (checkpoints.mk
            (BlockchainDB.mk [checkpoint_t.mk checkpoint_type.service_node 64 null_hash [],
              checkpoint_t.mk checkpoint_type.hardcoded 60 null_hash []] false false)
            network_type.MAINNET 60 0).m_db.block_checkpoints :=
  (block_added_keeps_persistent no_faults highest_checkpoint_at_or_below (service_nodes.mk 4 60)
    (checkpoints.mk
      (BlockchainDB.mk [checkpoint_t.mk checkpoint_type.hardcoded 60 null_hash [],
        checkpoint_t.mk checkpoint_type.service_node 8 null_hash []] false false)
      network_type.MAINNET 0 0)
    (block.mk 300 12) (some (checkpoint_t.mk checkpoint_type.service_node 64 null_hash []))
    (.ok true, checkpoints.mk
      (BlockchainDB.mk [checkpoint_t.mk checkpoint_type.service_node 64 null_hash [],
        checkpoint_t.mk checkpoint_type.hardcoded 60 null_hash []] false false)
      network_type.MAINNET 60 0)
    rfl (checkpoint_t.mk checkpoint_type.hardcoded 60 null_hash []) (by decide) (by decide)).1
    (fun k hk => by cases hk; decide)

/-! ## block_added : helper lemmas -/

namespace checkpoints

/-- The value of `block_added` past the height and version threshold on a store without
faults, in terms of its loop. -/
theorem block_added_past_threshold
    (immutable : List checkpoint_t → Nat → Option checkpoint_t) (sn : service_nodes)
    (s : checkpoints) (blk : block) (checkpoint : Option checkpoint_t)
    (hthr : ¬ (blk.height < sn.CHECKPOINT_STORE_PERSISTENTLY_INTERVAL
      ∨ blk.major_version < network_version_12_checkpointing)) :
    block_added no_faults immutable sn s blk checkpoint
      = match cull_loop no_faults sn
            (end_cull_height (immutable s.m_db.block_checkpoints ((blk.height + 1) % 2 ^ 64)))
            (2 ^ 64 + 1) s.m_db
            (max s.m_last_cull_height (start_cull_height sn
              (end_cull_height
                (immutable s.m_db.block_checkpoints ((blk.height + 1) % 2 ^ 64))))) with
        | none => none
        | some (db, cursor) =>
          match checkpoint with
          | none =>
            some (.ok true, checkpoints.mk db s.m_nettype cursor s.m_immutable_height)
          | some c =>
            some (.ok true, (update_checkpoint no_faults
              (checkpoints.mk db s.m_nettype cursor s.m_immutable_height) c).2) := by
  have himm : ∀ x, db_get_immutable_checkpoint no_faults immutable s.m_db x
      = .ok (immutable s.m_db.block_checkpoints x) := fun _ => rfl
  have htxn : db_txn_guard no_faults = .ok () := rfl
  unfold block_added
  simp only [hthr, if_false, himm, htxn, end_cull_height, start_cull_height]
  split
  · rfl
  · cases checkpoint with
    | none => rfl
    | some c =>
      simp only
      rw [update_checkpoint_no_faults]

end checkpoints

namespace checkpoints

theorem cull_loop_stop (F : db_op → Bool) (sn : service_nodes) (E fuel : Nat)
    (db : BlockchainDB) (c : Nat) (h : ¬ c < E) :
    cull_loop F sn E (fuel + 1) db c = some (db, c) := by
  rw [cull_loop, if_neg h]

/-- When the loop of `block_added` is left the cursor has reached `end_cull_height`, and it
has moved only if it started below. -/
theorem cull_loop_exit (F : db_op → Bool) (sn : service_nodes) (E fuel : Nat) :
    ∀ (db : BlockchainDB) (c : Nat) (db1 : BlockchainDB) (c1 : Nat),
      cull_loop F sn E fuel db c = some (db1, c1) →
      E ≤ c1 ∧ (c < E ∨ (c1 = c ∧ db1 = db)) := by
  induction fuel with
  | zero => intro db c db1 c1 h; cases h
  | succ n ih =>
    intro db c db1 c1 h
    unfold cull_loop at h
    by_cases hlt : c < E
    · rw [if_pos hlt] at h
      exact ⟨(ih _ _ _ _ h).1, Or.inl hlt⟩
    · rw [if_neg hlt] at h
      cases h
      exact ⟨by omega, Or.inr ⟨rfl, rfl⟩⟩

/-- On a store without faults, with a positive interval and no wrap of the cursor, the loop of
`block_added` ends, removes nothing but records, and leaves no record at a height its cursor
visits off the permanent-retention grid. -/
theorem cull_loop_run (sn : service_nodes) (E : Nat) (hI : 1 ≤ sn.CHECKPOINT_INTERVAL)
    (hE : E + sn.CHECKPOINT_INTERVAL ≤ 2 ^ 64) (fuel : Nat) :
    ∀ (db : BlockchainDB) (c : Nat), E - c < fuel →
      ∃ db1 c1, cull_loop no_faults sn E fuel db c = some (db1, c1) ∧
        (∀ x ∈ db1.block_checkpoints, x ∈ db.block_checkpoints) ∧
        ∀ k, c + k * sn.CHECKPOINT_INTERVAL < E →
          (c + k * sn.CHECKPOINT_INTERVAL) % sn.CHECKPOINT_STORE_PERSISTENTLY_INTERVAL ≠ 0 →
          ∀ x ∈ db1.block_checkpoints, x.height ≠ c + k * sn.CHECKPOINT_INTERVAL := by
  induction fuel with
  | zero => intro db c h; omega
  | succ n ih =>
    intro db c hfuel
    by_cases hlt : c < E
    · have hnext : (c + sn.CHECKPOINT_INTERVAL) % 2 ^ 64 = c + sn.CHECKPOINT_INTERVAL :=
        Nat.mod_eq_of_lt (by omega)
      obtain ⟨dbm, hdbm, hsub0, hrem0⟩ : ∃ dbm : BlockchainDB,
          dbm = (if c % sn.CHECKPOINT_STORE_PERSISTENTLY_INTERVAL = 0 then db
            else
              match db_remove_block_checkpoint no_faults db c with
              | .error _ => db
              | .ok removed => removed) ∧
          (∀ x ∈ dbm.block_checkpoints, x ∈ db.block_checkpoints) ∧
          (c % sn.CHECKPOINT_STORE_PERSISTENTLY_INTERVAL ≠ 0 →
            ∀ x ∈ dbm.block_checkpoints, x.height ≠ c) := by
        refine ⟨_, rfl, ?_, ?_⟩
        · intro x hx
          split_ifs at hx with hskip
          · exact hx
          · simp only [db_remove_block_checkpoint, no_faults, Bool.false_eq_true, if_false,
              List.mem_filter] at hx
            exact hx.1
        · intro hskip x hx
          rw [if_neg hskip] at hx
          simp only [db_remove_block_checkpoint, no_faults, Bool.false_eq_true, if_false,
            List.mem_filter, decide_eq_true_eq] at hx
          exact hx.2
      obtain ⟨db1, c1, hrun, hsub, hrem⟩ := ih dbm (c + sn.CHECKPOINT_INTERVAL) (by omega)
      refine ⟨db1, c1, ?_, fun x hx => hsub0 x (hsub x hx), ?_⟩
      · rw [cull_loop, if_pos hlt, hnext, ← hdbm]
        exact hrun
      · intro k hk hgrid x hx
        cases k with
        | zero =>
          simp only [Nat.zero_mul, Nat.add_zero] at hgrid ⊢
          exact hrem0 hgrid x (hsub x hx)
        | succ j =>
          have e : c + (j + 1) * sn.CHECKPOINT_INTERVAL
              = c + sn.CHECKPOINT_INTERVAL + j * sn.CHECKPOINT_INTERVAL := by ring
          rw [e] at hk hgrid ⊢
          exact hrem j hk hgrid x hx
    · refine ⟨db, c, cull_loop_stop no_faults sn E n db c hlt, fun x hx => hx, ?_⟩
      intro k hk
      have : c ≤ c + k * sn.CHECKPOINT_INTERVAL := Nat.le_add_right _ _
      omega

end checkpoints

/-! ## Claims on block_added -/

/-- C29: on a store without faults, if `block_added` with no supplied checkpoint returned and
is called again with the same block while the immutable-checkpoint lookup of the store answers
the same, the second call returns true and leaves the store and `m_last_cull_height` exactly as
the first call left them; past the threshold its loop condition is false on entry, so no
`remove_block_checkpoint` is issued. -/
theorem block_added_idempotent
    (immutable : List checkpoint_t → Nat → Option checkpoint_t) (sn : service_nodes)
    (s s1 : checkpoints) (blk : block)
    (h1 : checkpoints.block_added no_faults immutable sn s blk none = some (.ok true, s1))
    (hsame : immutable s1.m_db.block_checkpoints ((blk.height + 1) % 2 ^ 64)
      = immutable s.m_db.block_checkpoints ((blk.height + 1) % 2 ^ 64)) :
    checkpoints.block_added no_faults immutable sn s1 blk none = some (.ok true, s1) ∧
      ((blk.height < sn.CHECKPOINT_STORE_PERSISTENTLY_INTERVAL
          ∨ blk.major_version < network_version_12_checkpointing) ∨
        ¬ s1.m_last_cull_height
          < checkpoints.end_cull_height (immutable s1.m_db.block_checkpoints ((blk.height + 1) % 2 ^ 64))) := by
  by_cases hthr : blk.height < sn.CHECKPOINT_STORE_PERSISTENTLY_INTERVAL
      ∨ blk.major_version < network_version_12_checkpointing
  · refine ⟨?_, Or.inl hthr⟩
    unfold checkpoints.block_added
    simp only [hthr, if_true]
  · rw [checkpoints.block_added_past_threshold immutable sn s blk none hthr] at h1
    rw [checkpoints.block_added_past_threshold immutable sn s1 blk none hthr, hsame]
    cases hloop : checkpoints.cull_loop no_faults sn
        (checkpoints.end_cull_height (immutable s.m_db.block_checkpoints ((blk.height + 1) % 2 ^ 64)))
        (2 ^ 64 + 1) s.m_db
        (max s.m_last_cull_height (checkpoints.start_cull_height sn
          (checkpoints.end_cull_height
            (immutable s.m_db.block_checkpoints ((blk.height + 1) % 2 ^ 64))))) with
    | none => rw [hloop] at h1; cases h1
    | some p =>
      obtain ⟨db, cursor⟩ := p
      rw [hloop] at h1
      simp only [Option.some.injEq, Prod.mk.injEq, true_and] at h1
      subst h1
      obtain ⟨hge, hmove⟩ := checkpoints.cull_loop_exit no_faults sn _ _ _ _ _ _ hloop
      have hstart : checkpoints.start_cull_height sn
          (checkpoints.end_cull_height (immutable s.m_db.block_checkpoints ((blk.height + 1) % 2 ^ 64)))
            ≤ cursor := by
        have hmax := le_max_right s.m_last_cull_height (checkpoints.start_cull_height sn
          (checkpoints.end_cull_height (immutable s.m_db.block_checkpoints ((blk.height + 1) % 2 ^ 64))))
        rcases hmove with hlt | ⟨heq, -⟩
        · omega
        · omega
      dsimp only
      rw [max_eq_left hstart, checkpoints.cull_loop_stop no_faults sn _ (2 ^ 64) db cursor
        (by omega)]
      exact ⟨rfl, Or.inr (by omega)⟩

theorem block_added_idempotent_witness :
    checkpoints.block_added no_faults highest_checkpoint_at_or_below (service_nodes.mk 4 60)
        (checkpoints.mk
          (BlockchainDB.mk [checkpoint_t.mk checkpoint_type.hardcoded 60 null_hash []] false
            false)
          network_type.MAINNET 60 0)
        (block.mk 300 12) none
      = some (.ok true, checkpoints.mk
          (BlockchainDB.mk [checkpoint_t.mk checkpoint_type.hardcoded 60 null_hash []] false
            false)
          network_type.MAINNET 60 0) :=
  (block_added_idempotent highest_checkpoint_at_or_below (service_nodes.mk 4 60)
    (checkpoints.mk
      (BlockchainDB.mk [checkpoint_t.mk checkpoint_type.hardcoded 60 null_hash [],
        checkpoint_t.mk checkpoint_type.service_node 8 null_hash []] false false)
      network_type.MAINNET 0 0)
    (checkpoints.mk
      (BlockchainDB.mk [checkpoint_t.mk checkpoint_type.hardcoded 60 null_hash []] false false)
      network_type.MAINNET 60 0)
    (block.mk 300 12) rfl rfl).1

/-- C40: for every block with a height below `CHECKPOINT_STORE_PERSISTENTLY_INTERVAL` or a
major version below 12, for every ledger state, every pattern of store faults and every
supplied checkpoint (or none), `block_added` returns true and leaves the whole ledger state,
the store with `m_last_cull_height` and `m_immutable_height`, as it was. -/
theorem block_added_below_threshold (F : db_op → Bool)
    (immutable : List checkpoint_t → Nat → Option checkpoint_t) (sn : service_nodes)
    (s : checkpoints) (blk : block) (checkpoint : Option checkpoint_t)
    (hlow : blk.height < sn.CHECKPOINT_STORE_PERSISTENTLY_INTERVAL
      ∨ blk.major_version < network_version_12_checkpointing) :
    checkpoints.block_added F immutable sn s blk checkpoint = some (.ok true, s) := by
  unfold checkpoints.block_added
  simp only [hlow, if_true]

theorem block_added_below_threshold_witness :
    checkpoints.block_added (fun _ => true) highest_checkpoint_at_or_below
        (service_nodes.mk 4 60)
        (checkpoints.mk (BlockchainDB.mk [] false false) network_type.MAINNET 0 0)
        (block.mk 59 12) (some (checkpoint_t.mk checkpoint_type.service_node 56 null_hash []))
      = some (.ok true,
          checkpoints.mk (BlockchainDB.mk [] false false) network_type.MAINNET 0 0) :=
  block_added_below_threshold (fun _ => true) highest_checkpoint_at_or_below
    (service_nodes.mk 4 60)
    (checkpoints.mk (BlockchainDB.mk [] false false) network_type.MAINNET 0 0)
    (block.mk 59 12) (some (checkpoint_t.mk checkpoint_type.service_node 56 null_hash []))
    (Or.inl (by decide))

/-- C31: on a store without faults, for every block past the height and version threshold and
every supplied checkpoint `c`: whenever `block_added` returns, it returns true and
`get_checkpoint(c.height)` afterwards yields `c`; and it does return when
`CHECKPOINT_INTERVAL >= 1` and the loop cursor cannot wrap
(`end_cull_height + CHECKPOINT_INTERVAL <= 2 ^ 64`). -/
theorem block_added_stores_checkpoint
    (immutable : List checkpoint_t → Nat → Option checkpoint_t) (sn : service_nodes)
    (s : checkpoints) (blk : block) (c : checkpoint_t)
    (hthr : ¬ (blk.height < sn.CHECKPOINT_STORE_PERSISTENTLY_INTERVAL
      ∨ blk.major_version < network_version_12_checkpointing)) :
    (∀ r, checkpoints.block_added no_faults immutable sn s blk (some c) = some r →
      r.1 = .ok true ∧ checkpoints.get_checkpoint no_faults r.2 c.height = some c) ∧
    (1 ≤ sn.CHECKPOINT_INTERVAL →
      checkpoints.end_cull_height (immutable s.m_db.block_checkpoints ((blk.height + 1) % 2 ^ 64))
        + sn.CHECKPOINT_INTERVAL ≤ 2 ^ 64 →
      ∃ r, checkpoints.block_added no_faults immutable sn s blk (some c) = some r) := by
  rw [checkpoints.block_added_past_threshold immutable sn s blk (some c) hthr]
  constructor
  · intro r hr
    split at hr
    · cases hr
    · rename_i db cursor hloop
      dsimp only at hr
      cases hr
      refine ⟨rfl, ?_⟩
      rw [checkpoints.update_checkpoint_no_faults, checkpoints.get_checkpoint_no_faults]
      simp [List.find?_cons]
  · intro hI hE
    obtain ⟨db1, c1, hrun, -, -⟩ := checkpoints.cull_loop_run sn _ hI hE (2 ^ 64 + 1) s.m_db
      (max s.m_last_cull_height (checkpoints.start_cull_height sn
        (checkpoints.end_cull_height
          (immutable s.m_db.block_checkpoints ((blk.height + 1) % 2 ^ 64)))))
      (by omega)
    rw [hrun]
    exact ⟨_, rfl⟩

theorem block_added_stores_checkpoint_witness :
    ¬ ((block.mk 300 12).height < (service_nodes.mk 4 60).CHECKPOINT_STORE_PERSISTENTLY_INTERVAL
      ∨ (block.mk 300 12).major_version < network_version_12_checkpointing) ∧
    checkpoints.get_checkpoint no_faults
        (checkpoints.mk
          (BlockchainDB.mk [checkpoint_t.mk checkpoint_type.service_node 204 null_hash [7],
            checkpoint_t.mk checkpoint_type.hardcoded 200 null_hash []] false false)
          network_type.MAINNET 200 0) 204
      = some (checkpoint_t.mk checkpoint_type.service_node 204 null_hash [7]) :=
  ⟨by decide,
    ((block_added_stores_checkpoint highest_checkpoint_at_or_below (service_nodes.mk 4 60)
      (checkpoints.mk
        (BlockchainDB.mk [checkpoint_t.mk checkpoint_type.hardcoded 200 null_hash [],
          checkpoint_t.mk checkpoint_type.service_node 148 null_hash []] false false)
        network_type.MAINNET 0 0)
      (block.mk 300 12) (checkpoint_t.mk checkpoint_type.service_node 204 null_hash [7])
      (by decide)).1
      (.ok true, checkpoints.mk
        (BlockchainDB.mk [checkpoint_t.mk checkpoint_type.service_node 204 null_hash [7],
          checkpoint_t.mk checkpoint_type.hardcoded 200 null_hash []] false false)
        network_type.MAINNET 200 0) rfl).2⟩

/-- C36: given the static assertion `2 * DIFFICULTY_CUT <= DIFFICULTY_WINDOW_V2 - 2`, for every
window of `L` samples with `2 <= L <= W = DIFFICULTY_WINDOW_V2` the trim range satisfies
`cut_begin + 2 <= cut_end <= L`, the assertion that closes the trim; hence the four indexed
reads, at `cut_end - 1` and `cut_begin` of the sorted timestamps and of the cumulative
difficulties, are in bounds for inputs of that length, and whenever `L > W - 2 * CUT` the range
holds exactly `W - 2 * CUT` samples. -/
theorem trim_bounds_valid (CUT L : Nat) (hcut : 2 * CUT ≤ DIFFICULTY_WINDOW_V2 - 2)
    (h2 : 2 ≤ L) (hW : L ≤ DIFFICULTY_WINDOW_V2) :
    (cut_begin CUT L + 2 ≤ cut_end CUT L ∧ cut_end CUT L ≤ L) ∧
    (∀ ts cds : List Nat, ts.length = L → cds.length = L →
      cut_end CUT L - 1 < (sort ts).length ∧ cut_begin CUT L < (sort ts).length ∧
      cut_end CUT L - 1 < cds.length ∧ cut_begin CUT L < cds.length) ∧
    (DIFFICULTY_WINDOW_V2 - 2 * CUT < L →
      cut_end CUT L - cut_begin CUT L = DIFFICULTY_WINDOW_V2 - 2 * CUT) := by
  have hb := cut_bounds CUT L hcut h2 hW
  refine ⟨hb, fun ts cds hts hcds => ?_, fun hbig => ?_⟩
  · rw [sort_length, hts, hcds]
    omega
  · unfold cut_end
    rw [if_neg (by omega)]
    omega

theorem trim_bounds_valid_witness :
    (cut_begin 10 50 + 2 ≤ cut_end 10 50 ∧ cut_end 10 50 ≤ 50) ∧
    (∀ ts cds : List Nat, ts.length = 50 → cds.length = 50 →
      cut_end 10 50 - 1 < (sort ts).length ∧ cut_begin 10 50 < (sort ts).length ∧
      cut_end 10 50 - 1 < cds.length ∧ cut_begin 10 50 < cds.length) ∧
    (DIFFICULTY_WINDOW_V2 - 2 * 10 < 50 →
      cut_end 10 50 - cut_begin 10 50 = DIFFICULTY_WINDOW_V2 - 2 * 10) :=
  trim_bounds_valid 10 50 (by decide) (by decide) (by decide)

/-- C37: for timestamps and cumulative difficulties of equal length with more than
`W = DIFFICULTY_WINDOW_V2` samples, `next_difficulty` gives what it gives on the first `W`
timestamps and the first `W` cumulative difficulties; two such pairs of inputs that agree on
their first `W` entries give the same result. -/
theorem next_difficulty_oversized (CUT : Nat) (ts cds : List Nat) (T : Nat)
    (hlen : ts.length = cds.length) (hbig : DIFFICULTY_WINDOW_V2 < ts.length) :
    (ts.take DIFFICULTY_WINDOW_V2).length = DIFFICULTY_WINDOW_V2 ∧
    (cds.take DIFFICULTY_WINDOW_V2).length = DIFFICULTY_WINDOW_V2 ∧
    next_difficulty CUT ts cds T
      = next_difficulty CUT (ts.take DIFFICULTY_WINDOW_V2) (cds.take DIFFICULTY_WINDOW_V2) T ∧
    ∀ ts2 cds2 : List Nat, ts2.length = cds2.length → DIFFICULTY_WINDOW_V2 < ts2.length →
      ts2.take DIFFICULTY_WINDOW_V2 = ts.take DIFFICULTY_WINDOW_V2 →
      cds2.take DIFFICULTY_WINDOW_V2 = cds.take DIFFICULTY_WINDOW_V2 →
      next_difficulty CUT ts2 cds2 T = next_difficulty CUT ts cds T := by
  refine ⟨by rw [List.length_take]; omega, by rw [List.length_take]; omega,
    next_difficulty_take CUT ts cds T hlen, fun ts2 cds2 hlen2 _ h1 h2 => ?_⟩
  rw [next_difficulty_take CUT ts2 cds2 T hlen2, next_difficulty_take CUT ts cds T hlen, h1, h2]

theorem next_difficulty_oversized_witness :
    next_difficulty 10 ((List.range 61).map (fun i => 1000 + 120 * i))
        ((List.range 61).map (fun i => 5 + 7 * i)) 120
      = next_difficulty 10
          (((List.range 61).map (fun i => 1000 + 120 * i)).take DIFFICULTY_WINDOW_V2)
          (((List.range 61).map (fun i => 5 + 7 * i)).take DIFFICULTY_WINDOW_V2) 120 :=
  (next_difficulty_oversized 10 ((List.range 61).map (fun i => 1000 + 120 * i))
    ((List.range 61).map (fun i => 5 + 7 * i)) 120 (by simp)
    (by simp [DIFFICULTY_WINDOW_V2])).2.2.1

/-- C34: for timestamps and cumulative difficulties of equal length with at most
`DIFFICULTY_WINDOW_V2` samples, putting any rearrangement of the timestamps in their place and
leaving the cumulative difficulties where they are does not change the result of
`next_difficulty`: the timestamps are sorted on their own and the cumulative difficulties are
read at their original positions. -/
theorem next_difficulty_timestamp_order (CUT : Nat) (ts ts2 cds : List Nat) (T : Nat)
    (hlen : ts.length = cds.length) (hW : ts.length ≤ DIFFICULTY_WINDOW_V2)
    (hperm : ts2.Perm ts) :
    next_difficulty CUT ts2 cds T = next_difficulty CUT ts cds T := by
  have hsort : sort ts2 = sort ts :=
    sort_unique ts2 (sort ts) ((sort_perm ts).trans hperm.symm) (sort_sorted ts)
  have hl : ts2.length = ts.length := hperm.length_eq
  have hnb : decide (ts.length > DIFFICULTY_WINDOW_V2) = false := by
    rw [decide_eq_false_iff_not]; omega
  unfold next_difficulty
  simp only [hl, hnb, Bool.false_eq_true, if_false, hsort]

theorem next_difficulty_timestamp_order_witness :
    next_difficulty 10 [30, 10, 20] [5, 9, 14] 120 = next_difficulty 10 [10, 20, 30] [5, 9, 14] 120 :=
  next_difficulty_timestamp_order 10 [10, 20, 30] [30, 10, 20] [5, 9, 14] 120 rfl (by decide)
    (by decide)

/-! ## hardfork.cpp : order of the active version, and the range of a version -/

/-- Under the ordering of the table the loop of `get_network_version_revision` never ends
below the pair it is entered with. -/
theorem network_version_revision_loop_ge (h : Nat) (rest : List hard_fork) :
    ∀ prev, is_ordered_loop prev rest = true →
      prev.version < (network_version_revision_loop h rest
          (prev.version, prev.snode_revision)).1 ∨
        (prev.version = (network_version_revision_loop h rest
            (prev.version, prev.snode_revision)).1 ∧
          prev.snode_revision ≤ (network_version_revision_loop h rest
            (prev.version, prev.snode_revision)).2) := by
  induction rest with
  | nil => intro prev _; exact Or.inr ⟨rfl, le_refl _⟩
  | cons hf tl ih =>
    intro prev hord
    obtain ⟨hv, -, -, htl⟩ := is_ordered_loop_cons prev hf tl hord
    rw [network_version_revision_loop]
    by_cases hle : hf.height ≤ h
    · rw [if_pos hle]
      have := ih hf htl
      omega
    · rw [if_neg hle]
      exact Or.inr ⟨rfl, le_refl _⟩

theorem network_version_revision_loop_mono (h1 h2 : Nat) (h12 : h1 ≤ h2)
    (rest : List hard_fork) :
    ∀ prev, is_ordered_loop prev rest = true →
      (network_version_revision_loop h1 rest (prev.version, prev.snode_revision)).1
          < (network_version_revision_loop h2 rest (prev.version, prev.snode_revision)).1 ∨
        ((network_version_revision_loop h1 rest (prev.version, prev.snode_revision)).1
            = (network_version_revision_loop h2 rest (prev.version, prev.snode_revision)).1 ∧
          (network_version_revision_loop h1 rest (prev.version, prev.snode_revision)).2
            ≤ (network_version_revision_loop h2 rest
                (prev.version, prev.snode_revision)).2) := by
  induction rest with
  | nil => intro prev _; exact Or.inr ⟨rfl, le_refl _⟩
  | cons hf tl ih =>
    intro prev hord
    obtain ⟨hv, -, -, htl⟩ := is_ordered_loop_cons prev hf tl hord
    rw [network_version_revision_loop, network_version_revision_loop]
    by_cases hle1 : hf.height ≤ h1
    · rw [if_pos hle1, if_pos (le_trans hle1 h12)]
      exact ih hf htl
    · rw [if_neg hle1]
      by_cases hle2 : hf.height ≤ h2
      · rw [if_pos hle2]
        have := network_version_revision_loop_ge h2 tl hf htl
        dsimp only
        omega
      · rw [if_neg hle2]
        exact Or.inr ⟨rfl, le_refl _⟩

/-- C38: for every network table that passes `is_ordered` and all heights `h1 <= h2`, the pair
`get_network_version_revision(network, h1)` is at most
`get_network_version_revision(network, h2)` in the lexicographic order of
(version, revision). -/
theorem get_network_version_revision_monotone (fakechain_hardforks : List hard_fork)
    (nettype : network_type) (h1 h2 : Nat)
    (hord : is_ordered (get_hard_forks fakechain_hardforks nettype) = true) (h12 : h1 ≤ h2) :
    (get_network_version_revision fakechain_hardforks nettype h1).1
        < (get_network_version_revision fakechain_hardforks nettype h2).1 ∨
      ((get_network_version_revision fakechain_hardforks nettype h1).1
          = (get_network_version_revision fakechain_hardforks nettype h2).1 ∧
        (get_network_version_revision fakechain_hardforks nettype h1).2
          ≤ (get_network_version_revision fakechain_hardforks nettype h2).2) := by
  unfold get_network_version_revision
  cases htab : get_hard_forks fakechain_hardforks nettype with
  | nil => rw [htab] at hord; cases hord
  | cons first rest =>
    rw [htab] at hord
    obtain ⟨h7, hloop⟩ := is_ordered_cons first rest hord
    rw [network_version_revision_loop, network_version_revision_loop]
    by_cases hle1 : first.height ≤ h1
    · rw [if_pos hle1, if_pos (le_trans hle1 h12)]
      exact network_version_revision_loop_mono h1 h2 h12 rest first hloop
    · rw [if_neg hle1]
      by_cases hle2 : first.height ≤ h2
      · rw [if_pos hle2]
        have := network_version_revision_loop_ge h2 rest first hloop
        dsimp only
        omega
      · rw [if_neg hle2]
        exact Or.inr ⟨rfl, le_refl _⟩

theorem get_network_version_revision_monotone_witness :
    (get_network_version_revision [] network_type.TESTNET 501750).1
        < (get_network_version_revision [] network_type.TESTNET 578637).1 ∨
      ((get_network_version_revision [] network_type.TESTNET 501750).1
          = (get_network_version_revision [] network_type.TESTNET 578637).1 ∧
        (get_network_version_revision [] network_type.TESTNET 501750).2
          ≤ (get_network_version_revision [] network_type.TESTNET 578637).2) :=
  get_network_version_revision_monotone [] network_type.TESTNET 501750 578637 (by decide)
    (by decide)

/-- The loop of `get_hard_fork_heights`, entered right after an entry `prev` of the wanted
version with `found.first` set to its height. -/
theorem hard_fork_heights_loop_found (v : Nat) (rest : List hard_fork) :
    ∀ prev, is_ordered_loop prev rest = true → prev.version = v →
      (∀ f ∈ rest, f.height < 2 ^ 64) →
      ∃ first, (hard_fork_heights_loop v rest (some prev.height, none)).1 = some first ∧
        prev.height ≤ first ∧
        (∀ last, (hard_fork_heights_loop v rest (some prev.height, none)).2 = some last →
          first ≤ last) ∧
        ∀ h, first ≤ h →
          (∀ last, (hard_fork_heights_loop v rest (some prev.height, none)).2 = some last →
            h ≤ last) →
          (network_version_revision_loop h rest (prev.version, prev.snode_revision)).1 = v := by
  induction rest with
  | nil =>
    intro prev _ hv _
    exact ⟨prev.height, rfl, le_refl _, fun last hl => (by cases hl), fun h _ _ => hv⟩
  | cons it tl ih =>
    intro prev hord hv hb
    obtain ⟨hvers, hh, -, htl⟩ := is_ordered_loop_cons prev it tl hord
    have hit := hb it (List.mem_cons_self it tl)
    by_cases hgt : it.version > v
    · have hm : (it.height + 2 ^ 64 - 1) % 2 ^ 64 = it.height - 1 := by omega
      have hres : hard_fork_heights_loop v (it :: tl) (some prev.height, none)
          = (some prev.height, some (it.height - 1)) := by
        rw [hard_fork_heights_loop, if_pos hgt, hm]
        rfl
      rw [hres]
      refine ⟨prev.height, rfl, le_refl _, fun last hl => ?_, fun h h1 h2 => ?_⟩
      · cases hl; omega
      · have := h2 (it.height - 1) rfl
        rw [network_version_revision_loop, if_neg (by omega)]
        exact hv
    · have heq : it.version = v := by omega
      have hres : hard_fork_heights_loop v (it :: tl) (some prev.height, none)
          = hard_fork_heights_loop v tl (some it.height, none) := by
        rw [hard_fork_heights_loop, if_neg hgt, if_pos heq]
      rw [hres]
      obtain ⟨first, hf1, hf2, hf3, hf4⟩ :=
        ih it htl heq (fun f hf => hb f (List.mem_cons_of_mem it hf))
      refine ⟨first, hf1, by omega, hf3, fun h h1 h2 => ?_⟩
      rw [network_version_revision_loop, if_pos (by omega)]
      exact hf4 h h1 h2

/-- The loop of `get_hard_fork_heights` before it has met an entry of the wanted version. -/
theorem hard_fork_heights_loop_search (v : Nat) (rest : List hard_fork) :
    ∀ prev res, is_ordered_loop prev rest = true → (∀ f ∈ rest, f.height < 2 ^ 64) →
      ∀ first, (hard_fork_heights_loop v rest (none, none)).1 = some first →
        prev.height < first ∧
        (∀ last, (hard_fork_heights_loop v rest (none, none)).2 = some last → first ≤ last) ∧
        ∀ h, first ≤ h →
          (∀ last, (hard_fork_heights_loop v rest (none, none)).2 = some last → h ≤ last) →
          (network_version_revision_loop h rest res).1 = v := by
  induction rest with
  | nil => intro prev res _ _ first hf; cases hf
  | cons it tl ih =>
    intro prev res hord hb first hfirst
    obtain ⟨-, hh, -, htl⟩ := is_ordered_loop_cons prev it tl hord
    have hbtl : ∀ f ∈ tl, f.height < 2 ^ 64 := fun f hf => hb f (List.mem_cons_of_mem it hf)
    by_cases hgt : it.version > v
    · rw [hard_fork_heights_loop, if_pos hgt] at hfirst
      cases hfirst
    · by_cases heq : it.version = v
      · have hres : hard_fork_heights_loop v (it :: tl) (none, none)
            = hard_fork_heights_loop v tl (some it.height, none) := by
          rw [hard_fork_heights_loop, if_neg hgt, if_pos heq]
        rw [hres] at hfirst ⊢
        obtain ⟨first1, hf1, hf2, hf3, hf4⟩ := hard_fork_heights_loop_found v tl it htl heq hbtl
        rw [hf1] at hfirst
        cases hfirst
        refine ⟨by omega, hf3, fun h h1 h2 => ?_⟩
        rw [network_version_revision_loop, if_pos (by omega)]
        exact hf4 h h1 h2
      · have hres : hard_fork_heights_loop v (it :: tl) (none, none)
            = hard_fork_heights_loop v tl (none, none) := by
          rw [hard_fork_heights_loop, if_neg hgt, if_neg heq]
        rw [hres] at hfirst ⊢
        obtain ⟨hf2, hf3, hf4⟩ := ih it (it.version, it.snode_revision) htl hbtl first hfirst
        refine ⟨by omega, hf3, fun h h1 h2 => ?_⟩
        rw [network_version_revision_loop, if_pos (by omega)]
        exact hf4 h h1 h2

/-- C39: for every network table that passes `is_ordered` (activation heights being 64-bit
values) and every version `v`: if `get_hard_fork_heights(network, v)` is `(first, last)` with
`first` present, then `first <= last` when `last` is present, and at every height `h` with
`first <= h`, and `h <= last` when `last` is present, the active version, the first component
of `get_network_version_revision(network, h)`, is `v`. -/
theorem get_hard_fork_heights_sound (fakechain_hardforks : List hard_fork)
    (nettype : network_type) (v first : Nat)
    (hord : is_ordered (get_hard_forks fakechain_hardforks nettype) = true)
    (hbound : ∀ f ∈ get_hard_forks fakechain_hardforks nettype, f.height < 2 ^ 64)
    (hfirst : (get_hard_fork_heights fakechain_hardforks nettype v).1 = some first) :
    (∀ last, (get_hard_fork_heights fakechain_hardforks nettype v).2 = some last →
      first ≤ last) ∧
    ∀ h, first ≤ h →
      (∀ last, (get_hard_fork_heights fakechain_hardforks nettype v).2 = some last →
        h ≤ last) →
      (get_network_version_revision fakechain_hardforks nettype h).1 = v := by
  unfold get_hard_fork_heights at hfirst ⊢
  unfold get_network_version_revision
  cases htab : get_hard_forks fakechain_hardforks nettype with
  | nil => rw [htab] at hord; cases hord
  | cons it tl =>
    rw [htab] at hord hbound hfirst
    obtain ⟨-, htl⟩ := is_ordered_cons it tl hord
    have hbtl : ∀ f ∈ tl, f.height < 2 ^ 64 := fun f hf => hbound f (List.mem_cons_of_mem it hf)
    by_cases hgt : it.version > v
    · rw [hard_fork_heights_loop, if_pos hgt] at hfirst
      cases hfirst
    · by_cases heq : it.version = v
      · have hres : hard_fork_heights_loop v (it :: tl) (none, none)
            = hard_fork_heights_loop v tl (some it.height, none) := by
          rw [hard_fork_heights_loop, if_neg hgt, if_pos heq]
        rw [hres] at hfirst ⊢
        obtain ⟨first1, hf1, hf2, hf3, hf4⟩ := hard_fork_heights_loop_found v tl it htl heq hbtl
        rw [hf1] at hfirst
        cases hfirst
        refine ⟨hf3, fun h h1 h2 => ?_⟩
        rw [network_version_revision_loop, if_pos (by omega)]
        exact hf4 h h1 h2
      · have hres : hard_fork_heights_loop v (it :: tl) (none, none)
            = hard_fork_heights_loop v tl (none, none) := by
          rw [hard_fork_heights_loop, if_neg hgt, if_neg heq]
        rw [hres] at hfirst ⊢
        obtain ⟨hf2, hf3, hf4⟩ :=
          hard_fork_heights_loop_search v tl it (it.version, it.snode_revision) htl hbtl first
            hfirst
        refine ⟨hf3, fun h h1 h2 => ?_⟩
        rw [network_version_revision_loop, if_pos (by omega)]
        exact hf4 h h1 h2

theorem get_hard_fork_heights_sound_witness :
    get_hard_fork_heights [] network_type.MAINNET 12 = (some 120, some 124) ∧
      (get_network_version_revision [] network_type.MAINNET 122).1 = 12 :=
  ⟨by decide,
    (get_hard_fork_heights_sound [] network_type.MAINNET 12 120 (by decide) (by decide)
      (by decide)).2 122 (by decide) (fun last hl => by
        have h124 : last = 124 := by
          have e : (get_hard_fork_heights [] network_type.MAINNET 12).2 = some 124 := by decide
          rw [e] at hl
          exact (Option.some.inj hl).symm
        omega)⟩

/-! ## blockchain_detached : helper lemmas -/

namespace checkpoints

/-- The loop of `blockchain_detached` applies its body to the counter values of
`detach_loop_heights`, one after the other. -/
theorem detach_loop_eq (F : db_op → Bool) (sn : service_nodes) (height : Nat) (fuel : Nat) :
    ∀ (db : BlockchainDB) (d : Nat),
      detach_loop F sn height fuel db d
        = (detach_loop_heights sn height fuel d).map
            (fun hs => hs.foldl (detach_step F) db) := by
  induction fuel with
  | zero => intro db d; rfl
  | succ n ih =>
    intro db d
    unfold detach_loop detach_loop_heights
    by_cases hc : d ≥ height ∧ d ≥ sn.CHECKPOINT_INTERVAL
    · rw [if_pos hc, if_pos hc]
      dsimp only
      rw [ih]
      cases detach_loop_heights sn height n
          ((d + 2 ^ 64 - sn.CHECKPOINT_INTERVAL % 2 ^ 64) % 2 ^ 64) with
      | none => rfl
      | some later => rfl
    · rw [if_neg hc, if_neg hc]
      rfl

/-- One round of the loop removes nothing but the record at the counter. -/
theorem detach_step_mem (F : db_op → Bool) (db : BlockchainDB) (d : Nat) (x : checkpoint_t) :
    (x ∈ (detach_step F db d).block_checkpoints → x ∈ db.block_checkpoints) ∧
    (x ∈ db.block_checkpoints → x.height ≠ d → x ∈ (detach_step F db d).block_checkpoints) ∧
    (F db_op.remove_block_checkpoint = false →
      x ∈ (detach_step F db d).block_checkpoints → x.height ≠ d) := by
  unfold detach_step db_remove_block_checkpoint
  by_cases hF : F db_op.remove_block_checkpoint = true
  · simp only [hF, if_true]
    exact ⟨fun h => h, fun h _ => h, fun h => by cases h⟩
  · simp only [hF, Bool.false_eq_true, if_false, List.mem_filter, decide_eq_true_eq]
    exact ⟨fun h => h.1, fun h1 h2 => ⟨h1, h2⟩, fun _ h => h.2⟩

theorem detach_steps_mem (F : db_op → Bool) (hs : List Nat) :
    ∀ (db : BlockchainDB) (x : checkpoint_t),
      (x ∈ (hs.foldl (detach_step F) db).block_checkpoints → x ∈ db.block_checkpoints) ∧
      (x ∈ db.block_checkpoints → x.height ∉ hs →
        x ∈ (hs.foldl (detach_step F) db).block_checkpoints) ∧
      (F db_op.remove_block_checkpoint = false →
        x ∈ (hs.foldl (detach_step F) db).block_checkpoints → x.height ∉ hs) := by
  induction hs with
  | nil =>
    intro db x
    exact ⟨fun h => h, fun h _ => h, fun _ _ => List.not_mem_nil _⟩
  | cons d tl ih =>
    intro db x
    obtain ⟨i1, i2, i3⟩ := ih (detach_step F db d) x
    obtain ⟨s1, s2, s3⟩ := detach_step_mem F db d x
    rw [List.foldl_cons]
    refine ⟨fun h => s1 (i1 h), fun h hn => ?_, fun hF h => ?_⟩
    · rw [List.mem_cons, not_or] at hn
      exact i2 (s2 h hn.1) hn.2
    · rw [List.mem_cons, not_or]
      exact ⟨s3 hF (i1 h), i3 hF h⟩

/-- With a positive interval the loop of `blockchain_detached` ends: its counter goes down by
exactly the interval each round, without wrapping, and visits the heights
`d - k * CHECKPOINT_INTERVAL` that are at least `height` and at least the interval. -/
theorem detach_loop_heights_run (sn : service_nodes) (height : Nat)
    (hI : 1 ≤ sn.CHECKPOINT_INTERVAL) (fuel : Nat) :
    ∀ d, d < 2 ^ 64 → d < fuel →
      ∃ hs, detach_loop_heights sn height fuel d = some hs ∧
        hs.length ≤ d / sn.CHECKPOINT_INTERVAL ∧
        (∀ k, k < hs.length →
          k * sn.CHECKPOINT_INTERVAL ≤ d ∧ hs.getD k 0 = d - k * sn.CHECKPOINT_INTERVAL ∧
          height ≤ d - k * sn.CHECKPOINT_INTERVAL ∧
          sn.CHECKPOINT_INTERVAL ≤ d - k * sn.CHECKPOINT_INTERVAL) ∧
        ∀ k, k * sn.CHECKPOINT_INTERVAL ≤ d → height ≤ d - k * sn.CHECKPOINT_INTERVAL →
          sn.CHECKPOINT_INTERVAL ≤ d - k * sn.CHECKPOINT_INTERVAL →
          d - k * sn.CHECKPOINT_INTERVAL ∈ hs := by
  induction fuel with
  | zero => intro d _ h; omega
  | succ n ih =>
    intro d hd hfuel
    unfold detach_loop_heights
    by_cases hc : d ≥ height ∧ d ≥ sn.CHECKPOINT_INTERVAL
    · have hnext : (d + 2 ^ 64 - sn.CHECKPOINT_INTERVAL % 2 ^ 64) % 2 ^ 64
          = d - sn.CHECKPOINT_INTERVAL := by
        have : sn.CHECKPOINT_INTERVAL % 2 ^ 64 = sn.CHECKPOINT_INTERVAL :=
          Nat.mod_eq_of_lt (by omega)
        rw [this]
        omega
      rw [if_pos hc, hnext]
      obtain ⟨later, hrun, hlen, hvis, hall⟩ := ih (d - sn.CHECKPOINT_INTERVAL) (by omega)
        (by omega)
      rw [hrun]
      refine ⟨d :: later, rfl, ?_, ?_, ?_⟩
      · have hdiv : (d - sn.CHECKPOINT_INTERVAL) / sn.CHECKPOINT_INTERVAL + 1
            = d / sn.CHECKPOINT_INTERVAL := by
          rw [← Nat.add_div_right _ (by omega : 0 < sn.CHECKPOINT_INTERVAL)]
          congr 1
          omega
        rw [List.length_cons]
        omega
      · intro k hk
        cases k with
        | zero =>
          simp only [Nat.zero_mul, Nat.sub_zero, List.getD_cons_zero]
          exact ⟨Nat.zero_le _, trivial, hc.1, hc.2⟩
        | succ j =>
          rw [List.length_cons] at hk
          obtain ⟨v1, v2, v3, v4⟩ := hvis j (by omega)
          rw [List.getD_cons_succ, v2, Nat.succ_mul]
          generalize j * sn.CHECKPOINT_INTERVAL = p at *
          omega
      · intro k hk1 hk2 hk3
        cases k with
        | zero =>
          simp only [Nat.zero_mul, Nat.sub_zero]
          exact List.mem_cons_self _ _
        | succ j =>
          rw [Nat.succ_mul] at hk1 hk2 hk3 ⊢
          have hin := hall j (by generalize j * sn.CHECKPOINT_INTERVAL = p at *; omega)
            (by generalize j * sn.CHECKPOINT_INTERVAL = p at *; omega)
            (by generalize j * sn.CHECKPOINT_INTERVAL = p at *; omega)
          have e : d - (j * sn.CHECKPOINT_INTERVAL + sn.CHECKPOINT_INTERVAL)
              = d - sn.CHECKPOINT_INTERVAL - j * sn.CHECKPOINT_INTERVAL := by
            generalize j * sn.CHECKPOINT_INTERVAL = p at *
            omega
          rw [e]
          exact List.mem_cons_of_mem _ hin
    · rw [if_neg hc]
      refine ⟨[], rfl, Nat.zero_le _, fun k hk => (by cases hk), fun k hk1 hk2 hk3 => ?_⟩
      exfalso
      apply hc
      constructor <;> omega

end checkpoints

namespace checkpoints

/-- The value of `blockchain_detached` on a store without faults, in terms of its loop. -/
theorem blockchain_detached_no_faults (sn : service_nodes) (s : checkpoints) (height : Nat) :
    blockchain_detached no_faults sn s height
      = match highest_checkpoint s.m_db.block_checkpoints with
        | none =>
          some (.ok (), checkpoints.mk s.m_db s.m_nettype (min s.m_last_cull_height height)
            s.m_immutable_height)
        | some top_checkpoint =>
          (detach_loop no_faults sn height (2 ^ 64 + 1) s.m_db top_checkpoint.height).map
            (fun db => (.ok (), checkpoints.mk db s.m_nettype (min s.m_last_cull_height height)
              s.m_immutable_height)) := by
  have htop : db_get_top_checkpoint no_faults s.m_db
      = .ok (highest_checkpoint s.m_db.block_checkpoints) := rfl
  have htxn : db_txn_guard no_faults = .ok () := rfl
  unfold blockchain_detached
  simp only [htxn, htop]
  cases highest_checkpoint s.m_db.block_checkpoints with
  | none => rfl
  | some top =>
    simp only
    cases detach_loop no_faults sn height (2 ^ 64 + 1) s.m_db top.height <;> rfl

/-- For every pattern of store faults `blockchain_detached` ends when the interval is positive
and the stored heights are 64-bit values; it leaves the store as it was or as the rounds of its
loop leave it, and sets `m_last_cull_height` to the smaller of its old value and `height`. -/
theorem blockchain_detached_run (F : db_op → Bool) (sn : service_nodes) (s : checkpoints)
    (height : Nat) (hI : 1 ≤ sn.CHECKPOINT_INTERVAL)
    (hrec : ∀ c ∈ s.m_db.block_checkpoints, c.height < 2 ^ 64) :
    ∃ r db1, blockchain_detached F sn s height
        = some (r, checkpoints.mk db1 s.m_nettype (min s.m_last_cull_height height)
            s.m_immutable_height) ∧
      (db1 = s.m_db ∨ ∃ top hs, highest_checkpoint s.m_db.block_checkpoints = some top ∧
        detach_loop_heights sn height (2 ^ 64 + 1) top.height = some hs ∧
        db1 = hs.foldl (detach_step F) s.m_db) := by
  unfold blockchain_detached
  cases db_txn_guard F with
  | error e => exact ⟨_, _, rfl, Or.inl rfl⟩
  | ok u =>
    dsimp only
    unfold db_get_top_checkpoint
    by_cases hF : F db_op.get_top_checkpoint = true
    · rw [if_pos hF]
      exact ⟨_, _, rfl, Or.inl rfl⟩
    · rw [if_neg hF]
      cases htop : highest_checkpoint s.m_db.block_checkpoints with
      | none => exact ⟨_, _, rfl, Or.inl rfl⟩
      | some top =>
        dsimp only
        have hmem := ((highest_checkpoint_spec s.m_db.block_checkpoints).2 top htop).1
        obtain ⟨hs, hrun, -, -, -⟩ := detach_loop_heights_run sn height hI (2 ^ 64 + 1)
          top.height (hrec top hmem) (by have := hrec top hmem; omega)
        rw [detach_loop_eq, hrun]
        exact ⟨_, _, rfl, Or.inr ⟨top, hs, rfl, hrun, rfl⟩⟩

end checkpoints

/-! ## Claims on blockchain_detached -/

/-- C35: for every top checkpoint height (a 64-bit value), every detach height and every
`CHECKPOINT_INTERVAL >= 1` the loop of `blockchain_detached` ends; it runs at most
`top / CHECKPOINT_INTERVAL + 1` rounds; in round `k` the counter `delete_height` is
`top - k * CHECKPOINT_INTERVAL` with `k * CHECKPOINT_INTERVAL <= top`, it is at least
`max(height, CHECKPOINT_INTERVAL)`, and the wrapping subtraction of the interval from it is the
exact one; whatever the store faults, the store is left as these rounds leave it and every
record below the detach height is still stored; and `blockchain_detached` itself returns or
lets a store exception escape, with every record below the detach height still stored. -/
theorem blockchain_detached_loop_terminates (sn : service_nodes) (height top : Nat)
    (hI : 1 ≤ sn.CHECKPOINT_INTERVAL) (htop : top < 2 ^ 64) :
    (∃ hs, checkpoints.detach_loop_heights sn height (2 ^ 64 + 1) top = some hs ∧
      hs.length ≤ top / sn.CHECKPOINT_INTERVAL + 1 ∧
      (∀ k, k < hs.length →
        k * sn.CHECKPOINT_INTERVAL ≤ top ∧
        hs.getD k 0 = top - k * sn.CHECKPOINT_INTERVAL ∧
        max height sn.CHECKPOINT_INTERVAL ≤ hs.getD k 0 ∧
        (hs.getD k 0 + 2 ^ 64 - sn.CHECKPOINT_INTERVAL % 2 ^ 64) % 2 ^ 64
            + sn.CHECKPOINT_INTERVAL = hs.getD k 0) ∧
      ∀ (F : db_op → Bool) (db : BlockchainDB),
        checkpoints.detach_loop F sn height (2 ^ 64 + 1) db top
          = some (hs.foldl (checkpoints.detach_step F) db) ∧
        ∀ x ∈ db.block_checkpoints, x.height < height →
          x ∈ (hs.foldl (checkpoints.detach_step F) db).block_checkpoints) ∧
    ∀ (F : db_op → Bool) (s : checkpoints),
      (∀ c ∈ s.m_db.block_checkpoints, c.height < 2 ^ 64) →
      ∃ r, checkpoints.blockchain_detached F sn s height = some r ∧
        ∀ x ∈ s.m_db.block_checkpoints, x.height < height → x ∈ r.2.m_db.block_checkpoints := by
  have hkeep : ∀ (F : db_op → Bool) (db : BlockchainDB) (t : Nat) (hs : List Nat),
      checkpoints.detach_loop_heights sn height (2 ^ 64 + 1) t = some hs → t < 2 ^ 64 →
      ∀ x ∈ db.block_checkpoints, x.height < height →
        x ∈ (hs.foldl (checkpoints.detach_step F) db).block_checkpoints := by
    intro F db t hs hrun ht x hx hlow
    obtain ⟨hs1, hrun1, -, hvis, -⟩ := checkpoints.detach_loop_heights_run sn height hI
      (2 ^ 64 + 1) t ht (by omega)
    rw [hrun] at hrun1
    cases hrun1
    refine (checkpoints.detach_steps_mem F hs db x).2.1 hx (fun hin => ?_)
    obtain ⟨k, hk, hget⟩ := List.getElem_of_mem hin
    obtain ⟨-, v2, v3, -⟩ := hvis k hk
    rw [List.getD_eq_getElem _ _ hk, hget] at v2
    omega
  constructor
  · obtain ⟨hs, hrun, hlen, hvis, -⟩ := checkpoints.detach_loop_heights_run sn height hI
      (2 ^ 64 + 1) top htop (by omega)
    refine ⟨hs, hrun, by omega, fun k hk => ?_, fun F db => ?_⟩
    · obtain ⟨v1, v2, v3, v4⟩ := hvis k hk
      have hmod : sn.CHECKPOINT_INTERVAL % 2 ^ 64 = sn.CHECKPOINT_INTERVAL :=
        Nat.mod_eq_of_lt (by omega)
      rw [v2, hmod]
      refine ⟨v1, rfl, max_le v3 v4, ?_⟩
      generalize k * sn.CHECKPOINT_INTERVAL = p at *
      omega
    · refine ⟨?_, hkeep F db top hs hrun htop⟩
      rw [checkpoints.detach_loop_eq, hrun]
      rfl
  · intro F s hrec
    obtain ⟨r, db1, hret, hdb⟩ := checkpoints.blockchain_detached_run F sn s height hI hrec
    refine ⟨_, hret, fun x hx hlow => ?_⟩
    rcases hdb with rfl | ⟨t, hs, htopc, hrun, rfl⟩
    · exact hx
    · have hmem := ((highest_checkpoint_spec s.m_db.block_checkpoints).2 t htopc).1
      exact hkeep F s.m_db t.height hs hrun (hrec t hmem) x hx hlow

theorem blockchain_detached_loop_terminates_witness :
    checkpoints.detach_loop_heights (service_nodes.mk 4 60) 10 (2 ^ 64 + 1) 20
        = some [20, 16, 12] ∧
      ∃ r, checkpoints.blockchain_detached no_faults (service_nodes.mk 4 60)
          (checkpoints.mk
            (BlockchainDB.mk [checkpoint_t.mk checkpoint_type.service_node 20 null_hash [],
              checkpoint_t.mk checkpoint_type.service_node 8 null_hash []] false false)
            network_type.MAINNET 0 0) 10 = some r ∧
        ∀ x ∈ [checkpoint_t.mk checkpoint_type.service_node 20 null_hash [],
            checkpoint_t.mk checkpoint_type.service_node 8 null_hash []],
          x.height < 10 → x ∈ r.2.m_db.block_checkpoints :=
  ⟨by decide,
    (blockchain_detached_loop_terminates (service_nodes.mk 4 60) 10 20 (by decide)
      (by decide)).2 no_faults
      (checkpoints.mk
        (BlockchainDB.mk [checkpoint_t.mk checkpoint_type.service_node 20 null_hash [],
          checkpoint_t.mk checkpoint_type.service_node 8 null_hash []] false false)
        network_type.MAINNET 0 0)
      (by decide)⟩

/-- C32, as stated, fails: with `CHECKPOINT_INTERVAL = 4`, on a store without faults holding
checkpoints at heights 8 and 0, `blockchain_detached(0)` removes the records at 8 and 4 and
stops at 0, which is below the interval: the record at height 0, a multiple of 4 and not below
the detach height, is still stored.  And on a store holding checkpoints at heights 6 and 4,
`blockchain_detached(3)` visits 6 and stops at 2: the record at height 4 is still stored. -/
theorem blockchain_detached_grid_counterexample :
    checkpoints.blockchain_detached no_faults (service_nodes.mk 4 60)
        (checkpoints.mk
          (BlockchainDB.mk [checkpoint_t.mk checkpoint_type.service_node 8 null_hash [],
            checkpoint_t.mk checkpoint_type.hardcoded 0 null_hash []] false false)
          network_type.MAINNET 100 0) 0
      = some (.ok (), checkpoints.mk
          (BlockchainDB.mk [checkpoint_t.mk checkpoint_type.hardcoded 0 null_hash []] false false)
          network_type.MAINNET 0 0) ∧
    0 % (service_nodes.mk 4 60).CHECKPOINT_INTERVAL = 0 ∧ 0 ≥ 0 ∧
    checkpoints.blockchain_detached no_faults (service_nodes.mk 4 60)
        (checkpoints.mk
          (BlockchainDB.mk [checkpoint_t.mk checkpoint_type.hardcoded 6 null_hash [],
            checkpoint_t.mk checkpoint_type.service_node 4 null_hash []] false false)
          network_type.MAINNET 100 0) 3
      = some (.ok (), checkpoints.mk
          (BlockchainDB.mk [checkpoint_t.mk checkpoint_type.service_node 4 null_hash []] false
            false)
          network_type.MAINNET 3 0) ∧
    4 % (service_nodes.mk 4 60).CHECKPOINT_INTERVAL = 0 ∧ 4 ≥ 3 :=
  ⟨rfl, by decide, by decide, rfl, by decide, by decide⟩

/-- C32 (amended): on a store without faults whose checkpoint heights are 64-bit values, with
`CHECKPOINT_INTERVAL >= 1`, `blockchain_detached(height)` returns, `m_last_cull_height` becomes
`min(previous m_last_cull_height, height)`, no record is added, and afterwards the store holds
no checkpoint at a height `h >= height` with `h >= CHECKPOINT_INTERVAL` that lies a multiple of
`CHECKPOINT_INTERVAL` below the top checkpoint of before the call; when that top checkpoint is
on the checkpoint-interval grid these are the multiples of `CHECKPOINT_INTERVAL` that are at
least `max(height, CHECKPOINT_INTERVAL)`. -/
theorem blockchain_detached_removes (sn : service_nodes) (s : checkpoints) (height : Nat)
    (hI : 1 ≤ sn.CHECKPOINT_INTERVAL)
    (hrec : ∀ c ∈ s.m_db.block_checkpoints, c.height < 2 ^ 64) :
    ∃ s1, checkpoints.blockchain_detached no_faults sn s height = some (.ok (), s1) ∧
      s1.m_last_cull_height = min s.m_last_cull_height height ∧
      (∀ x ∈ s1.m_db.block_checkpoints, x ∈ s.m_db.block_checkpoints) ∧
      ∀ top, highest_checkpoint s.m_db.block_checkpoints = some top →
        (∀ x ∈ s1.m_db.block_checkpoints, height ≤ x.height →
          sn.CHECKPOINT_INTERVAL ≤ x.height →
          (top.height - x.height) % sn.CHECKPOINT_INTERVAL ≠ 0) ∧
        (top.height % sn.CHECKPOINT_INTERVAL = 0 →
          ∀ x ∈ s1.m_db.block_checkpoints, height ≤ x.height →
            sn.CHECKPOINT_INTERVAL ≤ x.height → x.height % sn.CHECKPOINT_INTERVAL ≠ 0) := by
  rw [checkpoints.blockchain_detached_no_faults]
  cases htopc : highest_checkpoint s.m_db.block_checkpoints with
  | none =>
    exact ⟨_, rfl, rfl, fun x hx => hx, fun top h => by cases h⟩
  | some t =>
    obtain ⟨hmem, hmax⟩ := (highest_checkpoint_spec s.m_db.block_checkpoints).2 t htopc
    obtain ⟨hs, hrun, -, -, hall⟩ := checkpoints.detach_loop_heights_run sn height hI
      (2 ^ 64 + 1) t.height (hrec t hmem) (by have := hrec t hmem; omega)
    dsimp only
    rw [checkpoints.detach_loop_eq, hrun]
    have hgone : ∀ x ∈ (hs.foldl (checkpoints.detach_step no_faults) s.m_db).block_checkpoints,
        height ≤ x.height → sn.CHECKPOINT_INTERVAL ≤ x.height →
        (t.height - x.height) % sn.CHECKPOINT_INTERVAL ≠ 0 := by
      intro x hx h1 h2 hmod
      obtain ⟨m1, -, m3⟩ := checkpoints.detach_steps_mem no_faults hs s.m_db x
      have hle := hmax x (m1 hx)
      have hk := Nat.div_mul_cancel (Nat.dvd_of_mod_eq_zero hmod)
      have hin := hall ((t.height - x.height) / sn.CHECKPOINT_INTERVAL) (by rw [hk]; omega)
        (by rw [hk]; omega) (by rw [hk]; omega)
      rw [hk] at hin
      have e : t.height - (t.height - x.height) = x.height := by omega
      rw [e] at hin
      exact m3 rfl hx hin
    refine ⟨_, rfl, rfl, fun x hx => (checkpoints.detach_steps_mem no_faults hs s.m_db x).1 hx,
      fun top h => ?_⟩
    cases h
    refine ⟨hgone, fun hgrid x hx h1 h2 hx0 => hgone x hx h1 h2 ?_⟩
    exact Nat.sub_mod_eq_zero_of_mod_eq (by rw [hgrid, hx0])

theorem blockchain_detached_removes_witness :
    ∃ s1, checkpoints.blockchain_detached no_faults (service_nodes.mk 4 60)
        (checkpoints.mk
          (BlockchainDB.mk [checkpoint_t.mk checkpoint_type.service_node 20 null_hash [],
            checkpoint_t.mk checkpoint_type.service_node 12 null_hash [],
            checkpoint_t.mk checkpoint_type.service_node 8 null_hash []] false false)
          network_type.MAINNET 16 0) 10 = some (.ok (), s1) ∧
      s1.m_last_cull_height = min 16 10 ∧
      (∀ x ∈ s1.m_db.block_checkpoints,
        x ∈ [checkpoint_t.mk checkpoint_type.service_node 20 null_hash [],
            checkpoint_t.mk checkpoint_type.service_node 12 null_hash [],
            checkpoint_t.mk checkpoint_type.service_node 8 null_hash []]) ∧
      ∀ top, highest_checkpoint [checkpoint_t.mk checkpoint_type.service_node 20 null_hash [],
            checkpoint_t.mk checkpoint_type.service_node 12 null_hash [],
            checkpoint_t.mk checkpoint_type.service_node 8 null_hash []] = some top →
        (∀ x ∈ s1.m_db.block_checkpoints, 10 ≤ x.height → 4 ≤ x.height →
          (top.height - x.height) % 4 ≠ 0) ∧
        (top.height % 4 = 0 →
          ∀ x ∈ s1.m_db.block_checkpoints, 10 ≤ x.height → 4 ≤ x.height →
            x.height % 4 ≠ 0) :=
  blockchain_detached_removes (service_nodes.mk 4 60)
    (checkpoints.mk
      (BlockchainDB.mk [checkpoint_t.mk checkpoint_type.service_node 20 null_hash [],
        checkpoint_t.mk checkpoint_type.service_node 12 null_hash [],
        checkpoint_t.mk checkpoint_type.service_node 8 null_hash []] false false)
      network_type.MAINNET 16 0) 10 (by decide) (by decide)

/-! ## Store faults at the boundary of the ledger -/

namespace checkpoints

/-- What `update_checkpoint` returns under any pattern of store faults: the exception of a
failing `batch_stop` escapes, every other fault gives the result `false`. -/
theorem update_checkpoint_result (F : db_op → Bool) (s : checkpoints) (c : checkpoint_t) :
    (update_checkpoint F s c).1
      = if F db_op.batch_start = false ∧ s.m_db.batch_active = false
            ∧ F db_op.batch_stop = true then .error db_exception.store_fault
        else .ok (decide (F db_op.batch_start = false
          ∧ F db_op.update_block_checkpoint = false)) := by
  unfold update_checkpoint db_batch_start db_update_block_checkpoint db_batch_stop
  by_cases h1 : F db_op.batch_start = true <;> by_cases h2 : s.m_db.batch_active = true <;>
    by_cases h3 : F db_op.update_block_checkpoint = true <;>
    by_cases h4 : F db_op.batch_stop = true <;> simp [h1, h2, h3, h4]

/-- With a positive interval and no wrap of the cursor the loop of `block_added` ends, whatever
the store faults. -/
theorem cull_loop_terminates (F : db_op → Bool) (sn : service_nodes) (E : Nat)
    (hI : 1 ≤ sn.CHECKPOINT_INTERVAL) (hE : E + sn.CHECKPOINT_INTERVAL ≤ 2 ^ 64) (fuel : Nat) :
    ∀ (db : BlockchainDB) (c : Nat), E - c < fuel →
      ∃ db1 c1, cull_loop F sn E fuel db c = some (db1, c1) := by
  induction fuel with
  | zero => intro db c h; omega
  | succ n ih =>
    intro db c hfuel
    by_cases hlt : c < E
    · have hnext : (c + sn.CHECKPOINT_INTERVAL) % 2 ^ 64 = c + sn.CHECKPOINT_INTERVAL :=
        Nat.mod_eq_of_lt (by omega)
      rw [cull_loop, if_pos hlt, hnext]
      exact ih _ _ (by omega)
    · exact ⟨db, c, cull_loop_stop F sn E n db c hlt⟩

/-- Whatever the store faults, `block_added` ends (with a value or an escaping exception) when
the interval is positive and the cursor of its loop cannot wrap. -/
theorem block_added_ends (F : db_op → Bool)
    (immutable : List checkpoint_t → Nat → Option checkpoint_t) (sn : service_nodes)
    (s : checkpoints) (blk : block) (checkpoint : Option checkpoint_t)
    (hI : 1 ≤ sn.CHECKPOINT_INTERVAL)
    (hE : end_cull_height (immutable s.m_db.block_checkpoints ((blk.height + 1) % 2 ^ 64))
      + sn.CHECKPOINT_INTERVAL ≤ 2 ^ 64) :
    ∃ r, block_added F immutable sn s blk checkpoint = some r := by
  unfold block_added db_get_immutable_checkpoint
  by_cases hthr : blk.height < sn.CHECKPOINT_STORE_PERSISTENTLY_INTERVAL
      ∨ blk.major_version < network_version_12_checkpointing
  · simp only [hthr, if_true]
    exact ⟨_, rfl⟩
  · simp only [hthr, if_false]
    by_cases h1 : F db_op.get_immutable_checkpoint = true
    · simp only [h1, if_true]
      exact ⟨_, rfl⟩
    · simp only [h1, Bool.false_eq_true, if_false]
      cases db_txn_guard F with
      | error e => exact ⟨_, rfl⟩
      | ok u =>
        simp only
        have key : ∀ E c, E + sn.CHECKPOINT_INTERVAL ≤ 2 ^ 64 →
            cull_loop F sn E (2 ^ 64 + 1) s.m_db c ≠ none := by
          intro E c hE1 hnone
          obtain ⟨db1, c1, hrun⟩ := cull_loop_terminates F sn E hI hE1 (2 ^ 64 + 1) s.m_db c
            (by omega)
          rw [hrun] at hnone
          cases hnone
        split
        · rename_i heq
          exact absurd heq (key _ _ hE)
        · cases checkpoint with
          | none => exact ⟨_, rfl⟩
          | some k =>
            simp only
            split <;> exact ⟨_, rfl⟩

end checkpoints

/-- C33, as stated, fails: on a store whose `get_top_checkpoint` throws,
`is_in_checkpoint_zone`, `get_max_height` and `blockchain_detached` let the exception escape;
so do `is_alternative_block_allowed` when `get_checkpoints_range` throws, `block_added` when
`get_immutable_checkpoint` throws, and `update_checkpoint` and `add_checkpoint` when
`batch_stop` throws. -/
theorem store_fault_escapes_counterexample :
    checkpoints.is_in_checkpoint_zone (fun op => decide (op = db_op.get_top_checkpoint))
        (checkpoints.mk (BlockchainDB.mk [] false false) network_type.MAINNET 0 0) 0
      = .error db_exception.store_fault ∧
    checkpoints.get_max_height (fun op => decide (op = db_op.get_top_checkpoint))
        (checkpoints.mk (BlockchainDB.mk [] false false) network_type.MAINNET 0 0)
      = .error db_exception.store_fault ∧
    checkpoints.blockchain_detached (fun op => decide (op = db_op.get_top_checkpoint))
        (service_nodes.mk 4 60)
        (checkpoints.mk (BlockchainDB.mk [] false false) network_type.MAINNET 0 0) 0
      = some (.error db_exception.store_fault,
          checkpoints.mk (BlockchainDB.mk [] false false) network_type.MAINNET 0 0) ∧
    (checkpoints.is_alternative_block_allowed
        (fun op => decide (op = db_op.get_checkpoints_range)) highest_checkpoint_at_or_below
        (checkpoints.mk (BlockchainDB.mk [] false false) network_type.MAINNET 0 0) 10 5).1
      = .error db_exception.store_fault ∧
    checkpoints.block_added (fun op => decide (op = db_op.get_immutable_checkpoint))
        highest_checkpoint_at_or_below (service_nodes.mk 4 60)
        (checkpoints.mk (BlockchainDB.mk [] false false) network_type.MAINNET 0 0)
        (block.mk 300 12) none
      = some (.error db_exception.store_fault,
          checkpoints.mk (BlockchainDB.mk [] false false) network_type.MAINNET 0 0) ∧
    (checkpoints.update_checkpoint (fun op => decide (op = db_op.batch_stop))
        (checkpoints.mk (BlockchainDB.mk [] false false) network_type.MAINNET 0 0)
        (checkpoint_t.mk checkpoint_type.service_node 8 null_hash [])).1
      = .error db_exception.store_fault ∧
    (checkpoints.add_checkpoint (fun op => decide (op = db_op.batch_stop))
        (checkpoints.mk (BlockchainDB.mk [] false false) network_type.MAINNET 0 0) 0
        "8cc33ab439f5fec5a384321b872c25686d2ab9d688e715ee3087b20094fccd47" "0x1").1
      = .error db_exception.store_fault :=
  ⟨rfl, rfl, rfl, rfl, rfl, rfl, rfl⟩

/-- C33 (amended): with every operation of the block store possibly throwing:
`get_checkpoint` and `check_block` return a value, a failing guard or lookup reading as no
checkpoint; `update_checkpoint` lets an exception escape exactly when the `batch_stop` of a
batch it opened throws, and otherwise returns whether `batch_start` and
`update_block_checkpoint` both succeeded; `add_checkpoint` returns a value when `batch_stop`
does not throw; `block_added` ends when the interval is positive and its cursor cannot wrap,
returns true when `get_immutable_checkpoint`, the transaction guard and `batch_stop` do not
throw, whatever `remove_block_checkpoint`, `batch_start` and `update_block_checkpoint` do, and
past the threshold lets the exception of a throwing `get_immutable_checkpoint` escape;
`blockchain_detached` ends when the interval is positive and the stored heights are 64-bit
values, returns normally when the guard and `get_top_checkpoint` do not throw, whatever
`remove_block_checkpoint` does, and lets the exception escape when one of the two throws;
`is_in_checkpoint_zone` and `get_max_height` let an exception escape exactly when
`get_top_checkpoint` throws; `is_alternative_block_allowed` returns a value when
`get_checkpoints_range` and `get_immutable_checkpoint` do not throw, and for a block height
other than 0 lets the exception of a throwing `get_checkpoints_range` escape. -/
theorem store_fault_boundary (F : db_op → Bool)
    (immutable : List checkpoint_t → Nat → Option checkpoint_t) (sn : service_nodes)
    (s : checkpoints) :
    (∀ h x, (F db_op.txn_guard = true ∨ F db_op.get_block_checkpoint = true) →
      checkpoints.get_checkpoint F s h = none ∧
      checkpoints.check_block F s h x = (true, false, false)) ∧
    (∀ c, ((checkpoints.update_checkpoint F s c).1 = .error db_exception.store_fault ↔
        (F db_op.batch_start = false ∧ s.m_db.batch_active = false
          ∧ F db_op.batch_stop = true)) ∧
      (F db_op.batch_stop = false →
        (checkpoints.update_checkpoint F s c).1
          = .ok (decide (F db_op.batch_start = false
              ∧ F db_op.update_block_checkpoint = false)))) ∧
    (∀ h hash_str difficulty_str, F db_op.batch_stop = false →
      ∃ b, (checkpoints.add_checkpoint F s h hash_str difficulty_str).1 = .ok b) ∧
    (∀ blk checkpoint,
      (F db_op.get_immutable_checkpoint = false → F db_op.txn_guard = false →
        F db_op.batch_stop = false →
        ∀ r, checkpoints.block_added F immutable sn s blk checkpoint = some r →
          r.1 = .ok true) ∧
      (1 ≤ sn.CHECKPOINT_INTERVAL →
        checkpoints.end_cull_height
            (immutable s.m_db.block_checkpoints ((blk.height + 1) % 2 ^ 64))
          + sn.CHECKPOINT_INTERVAL ≤ 2 ^ 64 →
        ∃ r, checkpoints.block_added F immutable sn s blk checkpoint = some r) ∧
      (¬ (blk.height < sn.CHECKPOINT_STORE_PERSISTENTLY_INTERVAL
          ∨ blk.major_version < network_version_12_checkpointing) →
        F db_op.get_immutable_checkpoint = true →
        checkpoints.block_added F immutable sn s blk checkpoint
          = some (.error db_exception.store_fault, s))) ∧
    (∀ height,
      (F db_op.txn_guard = false → F db_op.get_top_checkpoint = false →
        ∀ r, checkpoints.blockchain_detached F sn s height = some r → r.1 = .ok ()) ∧
      (1 ≤ sn.CHECKPOINT_INTERVAL → (∀ c ∈ s.m_db.block_checkpoints, c.height < 2 ^ 64) →
        ∃ r, checkpoints.blockchain_detached F sn s height = some r) ∧
      (F db_op.txn_guard = true ∨ F db_op.get_top_checkpoint = true →
        ∃ s1, checkpoints.blockchain_detached F sn s height
          = some (.error db_exception.store_fault, s1))) ∧
    (∀ height, (checkpoints.is_in_checkpoint_zone F s height = .error db_exception.store_fault ↔
        F db_op.get_top_checkpoint = true)) ∧
    (checkpoints.get_max_height F s = .error db_exception.store_fault ↔
        F db_op.get_top_checkpoint = true) ∧
    (∀ blockchain_height block_height,
      (F db_op.get_checkpoints_range = false → F db_op.get_immutable_checkpoint = false →
        ∃ v, (checkpoints.is_alternative_block_allowed F immutable s blockchain_height
          block_height).1 = .ok v) ∧
      (block_height ≠ 0 → F db_op.get_checkpoints_range = true →
        (checkpoints.is_alternative_block_allowed F immutable s blockchain_height
          block_height).1 = .error db_exception.store_fault)) := by
  refine ⟨?_, ?_, ?_, ?_, ?_, ?_, ?_, ?_⟩
  · intro h x hF
    have hget : checkpoints.get_checkpoint F s h = none := by
      unfold checkpoints.get_checkpoint db_txn_guard db_get_block_checkpoint
      by_cases h1 : F db_op.txn_guard = true
      · simp [h1]
      · rcases hF with h2 | h2
        · exact absurd h2 h1
        · simp [h1, h2]
    refine ⟨hget, ?_⟩
    unfold checkpoints.check_block
    rw [hget]
  · intro c
    rw [checkpoints.update_checkpoint_result]
    constructor
    · constructor
      · intro h
        by_contra hn
        rw [if_neg hn] at h
        cases h
      · intro h
        rw [if_pos h]
    · intro h
      rw [if_neg (by rw [h]; simp)]
  · intro h hash_str difficulty_str hF
    unfold checkpoints.add_checkpoint
    cases hex_to_pod hash_str with
    | none => exact ⟨false, rfl⟩
    | some hh =>
      dsimp only
      cases checkpoints.get_checkpoint F s h with
      | some found =>
        dsimp only
        split_ifs
        · exact ⟨true, rfl⟩
        · exact ⟨false, rfl⟩
      | none =>
        dsimp only
        rw [checkpoints.update_checkpoint_result, if_neg (by rw [hF]; simp)]
        exact ⟨_, rfl⟩
  · intro blk checkpoint
    refine ⟨?_, fun hI hE => checkpoints.block_added_ends F immutable sn s blk checkpoint hI hE,
      ?_⟩
    · intro h1 h2 h3 r hret
      have himm : ∀ x, db_get_immutable_checkpoint F immutable s.m_db x
          = .ok (immutable s.m_db.block_checkpoints x) := by
        intro x
        simp [db_get_immutable_checkpoint, h1]
      have htxn : db_txn_guard F = .ok () := by simp [db_txn_guard, h2]
      unfold checkpoints.block_added at hret
      simp only [himm, htxn] at hret
      split at hret
      · cases hret; rfl
      · split at hret
        · cases hret
        · split at hret
          · cases hret; rfl
          · rename_i k
            split at hret
            · rename_i e s3 heq
              have hres := congrArg Prod.fst heq
              rw [checkpoints.update_checkpoint_result, if_neg (by rw [h3]; simp)] at hres
              cases hres
            · cases hret; rfl
    · intro hthr hF
      unfold checkpoints.block_added db_get_immutable_checkpoint
      simp only [hthr, if_false, hF, if_true]
  · intro height
    refine ⟨?_, fun hI hrec => ?_, ?_⟩
    rotate_left
    · obtain ⟨r, db1, hret, -⟩ := checkpoints.blockchain_detached_run F sn s height hI hrec
      exact ⟨_, hret⟩
    rotate_left
    · intro h1 h2 r hret
      have htop : db_get_top_checkpoint F s.m_db
          = .ok (highest_checkpoint s.m_db.block_checkpoints) := by
        simp [db_get_top_checkpoint, h2]
      have htxn : db_txn_guard F = .ok () := by simp [db_txn_guard, h1]
      unfold checkpoints.blockchain_detached at hret
      simp only [htxn, htop] at hret
      split at hret
      · rename_i heq
        cases heq
      · cases hret; rfl
      · split at hret
        · cases hret
        · cases hret; rfl
    · intro hF
      unfold checkpoints.blockchain_detached db_txn_guard db_get_top_checkpoint
      by_cases h1 : F db_op.txn_guard = true
      · simp only [h1, if_true]
        exact ⟨_, rfl⟩
      · rcases hF with h2 | h2
        · exact absurd h2 h1
        · simp only [h1, if_false, h2, if_true]
          exact ⟨_, rfl⟩
  · intro height
    unfold checkpoints.is_in_checkpoint_zone db_get_top_checkpoint
    by_cases h1 : F db_op.get_top_checkpoint = true
    · simp only [h1, if_true]
    · simp only [h1, if_false]
      constructor
      · intro h; cases h
      · intro h; exact absurd h (by simp)
  · unfold checkpoints.get_max_height db_get_top_checkpoint
    by_cases h1 : F db_op.get_top_checkpoint = true
    · simp only [h1, if_true]
    · cases highest_checkpoint s.m_db.block_checkpoints <;> simp [h1]
  · intro blockchain_height block_height
    constructor
    · intro h1 h2
      unfold checkpoints.is_alternative_block_allowed db_get_checkpoints_range
        db_get_immutable_checkpoint
      simp only [h1, h2, Bool.false_eq_true, if_false]
      split_ifs <;> exact ⟨_, rfl⟩
    · intro h0 hF
      unfold checkpoints.is_alternative_block_allowed db_get_checkpoints_range
      rw [if_neg (fun h => h0 h.symm)]
      simp only [hF, if_true]

theorem store_fault_boundary_witness :
    checkpoints.get_checkpoint (fun _ => true)
        (checkpoints.mk
          (BlockchainDB.mk [checkpoint_t.mk checkpoint_type.hardcoded 8 null_hash []] false
            false)
          network_type.MAINNET 0 0) 8 = none ∧
      checkpoints.check_block (fun _ => true)
        (checkpoints.mk
          (BlockchainDB.mk [checkpoint_t.mk checkpoint_type.hardcoded 8 null_hash []] false
            false)
          network_type.MAINNET 0 0) 8 (hash.mk 1 2 3 4) = (true, false, false) :=
  (store_fault_boundary (fun _ => true) highest_checkpoint_at_or_below (service_nodes.mk 4 60)
    (checkpoints.mk
      (BlockchainDB.mk [checkpoint_t.mk checkpoint_type.hardcoded 8 null_hash []] false false)
      network_type.MAINNET 0 0)).1 8 (hash.mk 1 2 3 4) (Or.inl rfl)

end cryptonote
